import Mathlib

/-!
# Nightwatch: socket ingest filter, analyzer dispatch, janitor, backlog scan, uploader and shutdown

A shallow embedding of the parts of the nightwatch sensor pipeline that decide
which extracted files are deleted, queued and scanned:

* `cmd/nightwatch/input_filter.go`  (`AllowedMagicPattern`, `DeleteFileSet`),
* `cmd/nightwatch/watcher.go`       (the payload patterns, `backlogBuilder`,
  `Watcher.Run`, `Watcher.Stop`, `Watcher.Finish`),
* `cmd/nightwatch/socket_input.go`  (`SocketInput.handleServerConnection`,
  `SocketInput.Stop`),
* `sampledb/db.go`, `registry/registry.go` (`PluginIterator`),
* `cmd/nightwatch/janitor.go`       (the age sweep and the space sweep of
  `Janitor.Run`, `Janitor.Stop`),
* `uploader/uploader.go`            (`Enqueue`, `processUpload`, `enqueueBacklog`,
  `Uploader.Stop`),
* `submitter/submitter.go`          (`reconnectOnFailure`, `AMQPSubmitter.Finish`),
* `cmd/nightwatch/main.go`          (the calls made on `SIGTERM`).

Conventions of the embedding.

* A Go `string` is the list of its bytes (`GoString`); `len` is `List.length`
  and the slice `s[:n]` is `List.take n`.
* The filestore is a finite list of file entries keyed by the path string the
  program passes to the operating system; `os.Stat` succeeds exactly on the
  paths that are present and `os.Remove` removes the entry. Directories are
  not part of the filestore: `os.Remove` on a directory takes no file away.
* Functions of the Go standard library whose result the program only passes
  on (`filepath.Glob`, `json.Unmarshal`, `json.Marshal`) are parameters of the
  definitions that call them, so the theorems hold for every behaviour of
  those functions.
* A goroutine that would panic yields `none`; where a call can also wait for
  ever, as on a channel or a mutex, its result is an `Outcome`.
* A Go `uint` is a natural number below `2^64`; sums and products in `uint`
  are taken modulo `2^64`.
-/

namespace Nightwatch

set_option maxRecDepth 8000

/-! ## Strings -/

/-- A Go string: a sequence of bytes. -/
abbrev GoString := List UInt8

/-- The bytes (UTF-8) of a string literal of the source. -/
def go (s : String) : GoString := s.toUTF8.data.toList

/-- An `error` value, identified by its message (`err.Error()`). -/
abbrev GoError := GoString

/-- The byte of the path separator `/`. -/
def slash : UInt8 := 47

/-- The byte of the line feed `\n`. -/
def newline : UInt8 := 10

/-- Character class `[0-9]`. -/
def isDigit (b : UInt8) : Bool := decide (48 ≤ b) && decide (b ≤ 57)

/-- Character class `[0-9a-fA-F]`. -/
def isHex (b : UInt8) : Bool :=
  isDigit b || (decide (97 ≤ b) && decide (b ≤ 102)) || (decide (65 ≤ b) && decide (b ≤ 70))

/-- Whether `lo ≤ b ≤ hi`. -/
def inRange (lo hi b : UInt8) : Bool := decide (lo ≤ b) && decide (b ≤ hi)

/-- Width in bytes of the first rune of `s`, as `utf8.DecodeRune` reports it:
`0` on the empty string, `1` on an ASCII byte and on every byte that does not
start a well-formed encoding (decoded as `RuneError`), and the length of the
encoding otherwise. Go's `regexp` steps through its input with this function. -/
def runeWidth : GoString → Nat
  | [] => 0
  | b0 :: rest =>
    if b0 < 0xC2 ∨ 0xF4 < b0 then 1
    else
      let sz : Nat := if b0 < 0xE0 then 2 else if b0 < 0xF0 then 3 else 4
      let lo : UInt8 := if b0 = 0xE0 then 0xA0 else if b0 = 0xF0 then 0x90 else 0x80
      let hi : UInt8 := if b0 = 0xED then 0x9F else if b0 = 0xF4 then 0x8F else 0xBF
      match rest with
      | [] => 1
      | b1 :: r1 =>
        if !(inRange lo hi b1) then 1
        else if sz ≤ 2 then 2
        else match r1 with
          | [] => 1
          | b2 :: r2 =>
            if !(inRange 0x80 0xBF b2) then 1
            else if sz ≤ 3 then 3
            else match r2 with
              | [] => 1
              | b3 :: _ => if !(inRange 0x80 0xBF b3) then 1 else 4

/-- Unanchored search: whether `p` holds of some suffix of the input, the way
`Regexp.Match` tries every start position. -/
def anySuffix (p : GoString → Bool) : GoString → Bool
  | [] => p []
  | c :: cs => p (c :: cs) || anySuffix p cs

/-! ## The magic filter (`input_filter.go`) -/

/-- The sub-pattern `.*(executable|shared object)` matched at the start of the
input: a run of characters other than line feed, then one of the two words. -/
def matchExecutableTail : GoString → Bool
  | [] => false
  | c :: cs =>
    (go "executable").isPrefixOf (c :: cs) || (go "shared object").isPrefixOf (c :: cs) ||
      (c != newline && matchExecutableTail cs)

/-- The pattern `(for MS Windows|(ELF|Mach-O).*(executable|shared object))`
matched at the start of the input. -/
def matchWinExecutablesHere (s : GoString) : Bool :=
  (go "for MS Windows").isPrefixOf s ||
    ((go "ELF").isPrefixOf s && matchExecutableTail (s.drop 3)) ||
    ((go "Mach-O").isPrefixOf s && matchExecutableTail (s.drop 6))

/-- The map `allowedMagicPatterns` after `init`: one compiled pattern, named
`WinExecutables`. -/
def allowedMagicPatterns : List (GoString × (GoString → Bool)) :=
  [(go "WinExecutables", anySuffix matchWinExecutablesHere)]

/-- Go `AllowedMagicPattern`: whether some pattern of the map matches. -/
def AllowedMagicPattern (magic : GoString) : Bool :=
  allowedMagicPatterns.any (fun pattern => pattern.2 magic)

/-! ## Payload patterns (`watcher.go`) -/

/-- The pattern `file\.[0-9]+$` matched at the start of the input. -/
def matchV1Here (s : GoString) : Bool :=
  (go "file.").isPrefixOf s && !(s.drop 5).isEmpty && (s.drop 5).all isDigit

/-- The compiled pattern `droppedFileV1Reg`, `file\.[0-9]+$`. -/
def droppedFileV1Reg (s : GoString) : Bool := anySuffix matchV1Here s

/-- The pattern `[0-9a-fA-F]{2}.[0-9a-fA-F]{64}$` matched at the start of the
input: two hex digits, one rune other than line feed, and 64 hex digits that
end the input. -/
def matchV2Here (s : GoString) : Bool :=
  match s with
  | h1 :: h2 :: rest =>
    isHex h1 && isHex h2 && decide (65 ≤ rest.length) &&
      decide (runeWidth rest = rest.length - 64) && (rest.head? != some newline) &&
      (rest.drop (rest.length - 64)).all isHex
  | _ => false

/-- The compiled pattern `droppedFileV2Reg`, `[0-9a-fA-F]{2}.[0-9a-fA-F]{64}$`. -/
def droppedFileV2Reg (s : GoString) : Bool := anySuffix matchV2Here s

/-! ## Paths (`path/filepath`, `fmt`) -/

/-- The elements of a path between its separators (`"a//b"` gives `a`, the
empty element and `b`). -/
def splitSlash : GoString → List GoString
  | [] => [[]]
  | c :: cs =>
    if c = slash then [] :: splitSlash cs
    else match splitSlash cs with
      | [] => [[c]]
      | h :: t => (c :: h) :: t

/-- Go `strings.Join(elems, "/")`. -/
def joinSlash : List GoString → GoString
  | [] => []
  | [e] => e
  | e :: f :: rest => e ++ slash :: joinSlash (f :: rest)

/-- One element in `filepath.Clean`, on the stack of elements kept so far (the
last kept element first): empty elements and `.` are dropped; `..` removes the
last kept element, is dropped at the root, and is kept where nothing can be
removed. -/
def cleanStep (rooted : Bool) (stack : List GoString) (c : GoString) : List GoString :=
  if c = [] ∨ c = go "." then stack
  else if c = go ".." then
    match stack with
    | [] => if rooted then [] else [c]
    | top :: below => if top = go ".." then c :: stack else below
  else c :: stack

/-- Go `filepath.Clean` on Unix. -/
def filepathClean (path : GoString) : GoString :=
  if path = [] then go "."
  else
    let rooted := path.head? == some slash
    let kept := ((splitSlash path).foldl (cleanStep rooted) []).reverse
    let body := joinSlash kept
    if rooted then slash :: body else if body = [] then go "." else body

/-- Go `filepath.Join`: the elements from the first non-empty one on, joined by
separators and cleaned; the empty string when every element is empty. -/
def filepathJoin (elem : List GoString) : GoString :=
  match elem.dropWhile (fun e => e.isEmpty) with
  | [] => []
  | e :: es => filepathClean (joinSlash (e :: es))

/-- The verb `%v` of `fmt.Sprintf` on an unsigned integer: its decimal digits. -/
def fmtUint (n : Nat) : GoString := (Nat.toDigits 10 n).map (fun c => c.toNat.toUInt8)

/-! ## The filestore -/

/-- Go `util.FilestoreVersion`, an `int`. -/
abbrev FilestoreVersion := Int

/-- Constant `util.V1`: file store version 1. -/
def V1 : FilestoreVersion := 1

/-- Constant `util.V2`: file store version 2. -/
def V2 : FilestoreVersion := 2

/-- A file on disk: its path, modification time and size. -/
structure FileEntry where
  Path : GoString
  ModTime : Int
  Size : Nat
  deriving DecidableEq, Repr

/-- The filestore: the files present on disk. -/
abbrev FS := List FileEntry

/-- Go `os.Stat(path)` returning a nil error: the file is present. -/
def osStat (fs : FS) (path : GoString) : Bool := fs.any (fun f => f.Path == path)

/-- Go `os.Remove(path)`. -/
def osRemove (fs : FS) (path : GoString) : FS := fs.filter (fun f => f.Path != path)

/-- The type of `filepath.Glob` on a given filestore: the matches of a pattern,
or `none` for the error of a malformed pattern. -/
abbrev GlobFn := FS → GoString → Option (List GoString)

/-- The Stat-then-Remove step `DeleteFileSet` applies to the payload and to
each metafile: the file is removed when `os.Stat` finds it. -/
def removeIfPresent (fs : FS) (path : GoString) : FS :=
  if osStat fs path then osRemove fs path else fs

/-- Go `DeleteFileSet` (`input_filter.go`): the process panics (`none`) on the
nil pattern of a version other than V1 and V2; otherwise the error returned is
always nil, and the second component is the filestore after the call. -/
def DeleteFileSet (glob : GlobFn) (fs : FS) (filePath : GoString)
    (version : FilestoreVersion) : Option (Option GoError × FS) :=
  let filePat : Option (GoString → Bool) :=
    if version = V1 then some droppedFileV1Reg
    else if version = V2 then some droppedFileV2Reg
    else none
  match filePat with
  | none => none
  | some pat =>
    if !(pat filePath) then some (none, fs)
    else
      let fs1 := removeIfPresent fs filePath
      if version = V1 then
        let metaFile := filepathJoin [filePath ++ go ".meta"]
        some (none, removeIfPresent fs1 metaFile)
      else if version = V2 then
        match glob fs1 (filePath ++ go ".*.json") with
        | some metaFiles => some (none, metaFiles.foldl removeIfPresent fs1)
        | none => some (none, fs1)
      else some (none, fs1)

/-! ## Socket ingest (`socket_input.go`) -/

/-- A decoded JSON document (Go `interface{}` filled by `json.Unmarshal`). -/
inductive JSONValue where
  | null : JSONValue
  | bool (b : Bool) : JSONValue
  | number (literal : GoString) : JSONValue
  | string (s : GoString) : JSONValue
  | array (items : List JSONValue) : JSONValue
  | object (members : List (GoString × JSONValue)) : JSONValue

/-- Go `sampledb.FileInfoEvent`. -/
structure FileInfoEvent where
  StoreVersion : FilestoreVersion
  JSONMessage : JSONValue
  MetafileText : GoString
  FilePath : GoString

/-- Go `socketMessageFileinfo`. -/
structure socketMessageFileinfo where
  Filename : GoString
  FileID : Nat
  Stored : Bool
  Magic : GoString
  Sha256 : GoString

/-- Go `socketMessage`. -/
structure socketMessage where
  EventType : GoString
  FileInfo : socketMessageFileinfo

/-- The fields of Go `SocketInput` the line handler reads and writes.
`EventChan` holds the events sent on the channel, oldest first; `WaitGroup`
is the counter of the wait group. -/
structure SocketInput where
  EventChan : List FileInfoEvent
  StoreVersion : FilestoreVersion
  WaitGroup : Int
  FileDir : GoString

/-- What the line handler acts on: the socket input and the filestore. -/
structure Ingest where
  si : SocketInput
  fs : FS

/-- The statements `si.WaitGroup.Add(1)` and `si.EventChan <- fiev`. -/
def SocketInput.send (si : SocketInput) (fiev : FileInfoEvent) : SocketInput :=
  { si with WaitGroup := si.WaitGroup + 1, EventChan := si.EventChan ++ [fiev] }

/-- The body of the read loop of `handleServerConnection` after both
`json.Unmarshal` calls succeeded (lines 96 to 150): `fullMsg` is the line as a
free-form JSON value, `m` the line decoded into the message schema. -/
def handleMessage (glob : GlobFn) (st : Ingest) (fullMsg : JSONValue) (m : socketMessage) :
    Option Ingest :=
  if m.EventType = go "fileinfo" then
    let isAllowedFiletype := AllowedMagicPattern m.FileInfo.Magic
    let ver := st.si.StoreVersion
    if ver = V1 then
      let filePath := filepathJoin [st.si.FileDir, go "file." ++ fmtUint m.FileInfo.FileID]
      if !isAllowedFiletype then
        match DeleteFileSet glob st.fs filePath V1 with
        | none => none
        | some (_, fs1) => some { st with fs := fs1 }
      else if m.FileInfo.Stored && decide (m.FileInfo.FileID > 0) then
        let fiev : FileInfoEvent :=
          { StoreVersion := V1, JSONMessage := fullMsg, MetafileText := [], FilePath := filePath }
        some { st with si := st.si.send fiev }
      else some st
    else if ver = V2 then
      if m.FileInfo.Stored && decide (m.FileInfo.Sha256.length > 2) then
        let fileBasePath :=
          filepathJoin [st.si.FileDir, m.FileInfo.Sha256.take 2, m.FileInfo.Sha256]
        if !isAllowedFiletype then
          match DeleteFileSet glob st.fs fileBasePath V2 with
          | none => none
          | some (_, fs1) => some { st with fs := fs1 }
        else
          let fiev : FileInfoEvent :=
            { StoreVersion := V2, JSONMessage := fullMsg, MetafileText := [],
              FilePath := fileBasePath }
          some { st with si := st.si.send fiev }
      else some st
    else some st
  else some st

/-- One line read from the connection (lines 82 to 150): a line that either
`json.Unmarshal` call rejects is skipped. The two decoders are the parameters
`unmarshalAny` and `unmarshalMessage`. -/
def handleLine (unmarshalAny : GoString → Option JSONValue)
    (unmarshalMessage : GoString → Option socketMessage) (glob : GlobFn)
    (st : Ingest) (line : GoString) : Option Ingest :=
  match unmarshalAny line with
  | none => some st
  | some fullMsg =>
    match unmarshalMessage line with
    | none => some st
    | some m => handleMessage glob st fullMsg m

/-- An instance of `GlobFn` for evaluating the model: the files named
`<prefix>.<anything without a separator>.json` for a pattern `<prefix>.*.json`
whose prefix is free of the metacharacters of Go glob patterns, and no match
for any other pattern. -/
def sidecarGlob : GlobFn := fun fs pattern =>
  let n := pattern.length - 7
  let pre := pattern.take n
  if pattern.drop n = go ".*.json" ∧
      pre.all (fun b => b != 42 && b != 63 && b != 91 && b != 92) then
    some ((fs.filter (fun f =>
      (pre ++ go ".").isPrefixOf f.Path ∧ (go ".json").isSuffixOf (f.Path.drop (n + 1)) ∧
        slash ∉ f.Path.drop (n + 1))).map (fun f => f.Path))
  else some []

/-! ## The verdict store (`sampledb`) -/

/-- An instant (Go `time.Time` in UTC), in nanoseconds since the Unix epoch. -/
abbrev GoTime := Int

/-- Go `time.Duration`: nanoseconds, an `int64`. -/
abbrev GoDuration := Int

/-- The least `time.Duration`. -/
def minDuration : GoDuration := -9223372036854775808

/-- The greatest `time.Duration`. -/
def maxDuration : GoDuration := 9223372036854775807

/-- Go `t.Sub(u)` on wall-clock instants: the difference, saturated to the
range of `time.Duration`. -/
def timeSub (t u : GoTime) : GoDuration :=
  if t - u < minDuration then minDuration
  else if maxDuration < t - u then maxDuration
  else t - u

/-- The zero `time.Time`, January 1 of year 1. -/
def zeroTime : GoTime := -62135596800000000000

/-- Go `sampledb.HashInfo`. -/
structure HashInfo where
  Md5 : GoString
  Sha1 : GoString
  Sha256 : GoString
  Sha512 : GoString
  Sha3_512 : GoString

/-- Go `sampledb.FileVerdict`. The map `Reasons` is a list of its entries. -/
structure FileVerdict where
  Suspicious : Bool
  SuspiciousVia : List GoString
  Reported : Bool
  Reasons : List (GoString × JSONValue)
  SensorID : GoString
  Time : GoTime
  CollectionTime : GoTime
  Filename : GoString
  Size : Int
  MetaFile : List UInt8
  Hashes : HashInfo
  Metadata : JSONValue
  Magic : GoString
  Uploaded : Bool
  UploadLocation : GoString

/-- The zero value `FileVerdict{}`. -/
def emptyVerdict : FileVerdict :=
  { Suspicious := false, SuspiciousVia := [], Reported := false, Reasons := [], SensorID := [],
    Time := zeroTime, CollectionTime := zeroTime, Filename := [], Size := 0, MetaFile := [],
    Hashes := { Md5 := [], Sha1 := [], Sha256 := [], Sha512 := [], Sha3_512 := [] },
    Metadata := JSONValue.null, Magic := [], Uploaded := false, UploadLocation := [] }

/-- Assignment `m[k] = v` on a map kept as a list of entries. -/
def mapSet {β : Type} (m : List (GoString × β)) (k : GoString) (v : β) : List (GoString × β) :=
  m.filter (fun e => e.1 != k) ++ [(k, v)]

/-- The bolt database `filesDB`: the bucket `SAMPLES`, absent until the first
write, with the verdict stored under each key. A stored value is the JSON text
of a verdict and is read back through `json.Unmarshal`; the store keeps the
verdict that this text decodes to. -/
structure SampleDB where
  bucket : Option (List (GoString × FileVerdict))

/-- The type of `json.Marshal` on a verdict. -/
abbrev MarshalFn := FileVerdict → Except GoError GoString

/-- Go `CreateSampleEntry`: the error returned and the database afterwards.
`updateFault` is the error, if any, with which the bolt transaction itself
fails; a failed transaction is rolled back. An empty key is rejected by
`Bucket.Put`. -/
def CreateSampleEntry (marshal : MarshalFn) (updateFault : Option GoError) (db : SampleDB)
    (fv : FileVerdict) : Option GoError × SampleDB :=
  match marshal fv with
  | .error e => (some e, db)
  | .ok _ =>
    match updateFault with
    | some e => (some e, db)
    | none =>
      if fv.Hashes.Sha512 = [] then (some (go "key required"), db)
      else (none, { bucket := some (mapSet (db.bucket.getD []) fv.Hashes.Sha512 fv) })

/-- Go `GetSampleEntry`. `viewFault` is the error, if any, with which the bolt
read transaction itself fails. -/
def GetSampleEntry (viewFault : Option GoError) (db : SampleDB) (hash : GoString) :
    FileVerdict × Option GoError :=
  match viewFault with
  | some e => (emptyVerdict, some e)
  | none =>
    match db.bucket with
    | none => (emptyVerdict, some (go "missing bucket"))
    | some entries =>
      match entries.lookup hash with
      | none => (emptyVerdict, none)
      | some fv => (fv, none)

/-- The invariant of a store written by `CreateSampleEntry` only: every entry
sits under its own SHA-512, which is not empty. -/
def SampleDB.WellFormed (db : SampleDB) : Prop :=
  ∀ entries, db.bucket = some entries →
    ∀ k v, (k, v) ∈ entries → v.Hashes.Sha512 = k ∧ k ≠ []

/-! ## Analyzer dispatch (`registry`) -/

/-- What `PluginIterator` reads of an `os.FileInfo`. -/
structure FileStat where
  ModTime : GoTime
  Size : Int

/-- Go `registry.FileSample`. -/
structure FileSample where
  FD : Nat
  Info : FileStat
  OrigPath : GoString

/-- Go interface `registry.AnalysisPlugin`: `ProcessFile` returns the reason
as JSON text, the suspicious flag and an error. -/
structure AnalysisPlugin where
  Name : GoString
  ProcessFile : FileSample → GoString × Bool × Option GoError

/-- Go interface `submitter.Submitter`. -/
structure Submitter where
  Submit : GoString → Option GoError

/-- Go `uploader.Uploader`, as `PluginIterator` uses it. -/
structure Uploader where
  Enqueue : FileVerdict → GoString → Option GoError

/-- The package-level variables `PluginIterator` reads. -/
structure Registry where
  AnalysisPlugins : List AnalysisPlugin
  rescanTimeframe : GoDuration
  SensorID : GoString

/-- What the operating system, the clock and the database answer during one
call of `PluginIterator`. -/
structure DispatchEnv where
  /-- The error of `os.Open(fiev.FilePath)`. -/
  openErr : Option GoError
  /-- The descriptor `sample.Fd()`. -/
  fd : Nat
  /-- The result of `sample.Stat()`. -/
  statResult : Except GoError FileStat
  /-- The result of `CalculateBasicHashes(sample)`. -/
  hashResult : Except GoError HashInfo
  /-- The failure of the read transaction in `GetSampleEntry`. -/
  viewFault : Option GoError
  /-- The clock at line 52, `time.Now().UTC()`. -/
  now1 : GoTime
  /-- The clock at line 89, `time.Now().UTC()`. -/
  now2 : GoTime
  /-- The result of `MagicFromFile(fiev.FilePath)`. -/
  magic : GoString
  /-- The failure of the transaction of the first `CreateSampleEntry`. -/
  firstWriteFault : Option GoError
  /-- The metafile: `none` when `os.Stat` fails on it, else what `os.ReadFile` returns. -/
  metaFile : Option (Except GoError (List UInt8))
  /-- The failure of the transaction of the second `CreateSampleEntry`. -/
  secondWriteFault : Option GoError

/-- A call `PluginIterator` makes to a collaborator, or a verdict it stored. -/
inductive Call where
  | processFile (plugin : GoString) (sample : FileSample) : Call
  | put (verdict : FileVerdict) : Call
  | submit (jsonData : GoString) : Call
  | enqueue (verdict : FileVerdict) (localpath : GoString) : Call

/-- The variables of the analyzer loop. -/
structure LoopState where
  verdict : FileVerdict
  suspicious : Bool
  calls : List Call

/-- One iteration of the loop over `AnalysisPlugins` (lines 60 to 86). -/
def pluginStep (unmarshalAny : GoString → Option JSONValue) (sample : FileSample)
    (acc : LoopState) (plug : AnalysisPlugin) : LoopState :=
  match plug.ProcessFile sample with
  | (output, pluginSuspicious, anaErr) =>
    let called : LoopState :=
      { acc with calls := acc.calls ++ [Call.processFile plug.Name sample] }
    match anaErr with
    | some _ => called
    | none =>
      let parsed : Option FileVerdict :=
        if output ≠ [] then
          match unmarshalAny output with
          | none => none
          | some result =>
            some { called.verdict with
              Reasons := mapSet called.verdict.Reasons plug.Name result }
        else some called.verdict
      match parsed with
      | none => called
      | some verdict =>
        let suspicious := if !called.suspicious then pluginSuspicious else called.suspicious
        let verdict :=
          if pluginSuspicious then
            { verdict with SuspiciousVia := verdict.SuspiciousVia ++ [plug.Name] }
          else verdict
        { called with verdict := verdict, suspicious := suspicious }

/-- Lines 29 to 55 of `PluginIterator`: open, stat and hash the file and look
its SHA-512 up. `.error r` is an early return with result `r`; `.ok` carries
the stat and the hashes into the analyzer loop. -/
def openAndLookup (reg : Registry) (env : DispatchEnv) (db : SampleDB) :
    Except (Option GoError) (FileStat × HashInfo) :=
  match env.openErr with
  | some e => .error (some e)
  | none =>
    match env.statResult with
    | .error e => .error (some e)
    | .ok sampleStat =>
      match env.hashResult with
      | .error e => .error (some e)
      | .ok hashes =>
        match GetSampleEntry env.viewFault db hashes.Sha512 with
        | (se, err) =>
          if err ≠ none ∧ err ≠ some (go "missing bucket") then .error err
          else if se.Hashes.Sha512 ≠ [] ∧ timeSub env.now1 se.Time < reg.rescanTimeframe then
            .error err
          else .ok (sampleStat, hashes)

/-- Lines 57 to 95 of `PluginIterator`: the analyzer loop and the verdict
filled in after it, with the calls made. -/
def scanVerdict (reg : Registry) (unmarshalAny : GoString → Option JSONValue)
    (env : DispatchEnv) (fiev : FileInfoEvent) (sampleStat : FileStat) (hashes : HashInfo) :
    FileVerdict × List Call :=
  let sample : FileSample := { FD := env.fd, Info := sampleStat, OrigPath := fiev.FilePath }
  let loop := reg.AnalysisPlugins.foldl (pluginStep unmarshalAny sample)
    { verdict := emptyVerdict, suspicious := false, calls := [] }
  ({ loop.verdict with
      Suspicious := loop.suspicious, Filename := fiev.FilePath, Time := env.now2,
      CollectionTime := sampleStat.ModTime, SensorID := reg.SensorID, Size := sampleStat.Size,
      Hashes := hashes, Magic := env.magic, Metadata := fiev.JSONMessage },
    loop.calls)

/-- Lines 119 to 139 of `PluginIterator`: the verdict goes to the uploader when
one is configured and the verdict is suspicious, else its JSON text goes to the
submitter. The call made and the error it returned. -/
def handOff (s : Submitter) (uploader : Option Uploader) (verdict : FileVerdict)
    (filePath msg : GoString) : Call × Option GoError :=
  match uploader with
  | some u =>
    if verdict.Suspicious then (Call.enqueue verdict filePath, u.Enqueue verdict filePath)
    else (Call.submit msg, s.Submit msg)
  | none => (Call.submit msg, s.Submit msg)

/-- Lines 102 to 111 of `PluginIterator`: the bytes of `<path>.meta`, when
`os.Stat` finds that file, become the field `MetaFile`; an error of
`os.ReadFile` is returned. -/
def attachMetaFile (env : DispatchEnv) (verdict : FileVerdict) : Except GoError FileVerdict :=
  match env.metaFile with
  | some (.ok content) => .ok { verdict with MetaFile := content }
  | some (.error fileErr) => .error fileErr
  | none => .ok verdict

/-- The statement `verdict.Reported = true` (line 140). -/
def markReported (verdict : FileVerdict) : FileVerdict := { verdict with Reported := true }

/-- Lines 97 to 145 of `PluginIterator`: store the verdict, attach the
metafile, hand the verdict on, mark it reported and store it again. The
result, the database afterwards and the calls made. -/
def recordAndReport (marshal : MarshalFn) (env : DispatchEnv) (fiev : FileInfoEvent)
    (s : Submitter) (uploader : Option Uploader) (verdict : FileVerdict) (db : SampleDB) :
    Option GoError × SampleDB × List Call :=
  match CreateSampleEntry marshal env.firstWriteFault db verdict with
  | (some e, _) => (some e, db, [])
  | (none, db1) =>
    match attachMetaFile env verdict with
    | .error fileErr => (some fileErr, db1, [Call.put verdict])
    | .ok verdict1 =>
      match marshal verdict1 with
      | .error e => (some e, db1, [Call.put verdict])
      | .ok msg =>
        match handOff s uploader verdict1 fiev.FilePath msg with
        | (call, some e) => (some e, db1, [Call.put verdict, call])
        | (call, none) =>
          let verdict2 := markReported verdict1
          match CreateSampleEntry marshal env.secondWriteFault db1 verdict2 with
          | (some e, _) => (some e, db1, [Call.put verdict, call])
          | (none, db2) => (none, db2, [Call.put verdict, call, Call.put verdict2])

/-- Go `PluginIterator`: the error returned, the database afterwards and the
calls made, in order. -/
def PluginIterator (reg : Registry) (unmarshalAny : GoString → Option JSONValue)
    (marshal : MarshalFn) (env : DispatchEnv) (fiev : FileInfoEvent) (s : Submitter)
    (uploader : Option Uploader) (db : SampleDB) : Option GoError × SampleDB × List Call :=
  match openAndLookup reg env db with
  | .error r => (r, db, [])
  | .ok (sampleStat, hashes) =>
    match scanVerdict reg unmarshalAny env fiev sampleStat hashes with
    | (verdict, scanCalls) =>
      match recordAndReport marshal env fiev s uploader verdict db with
      | (r, db1, calls) => (r, db1, scanCalls ++ calls)

/-- The analyzers invoked in a list of calls, with the sample each was given. -/
def analyzerCalls : List Call → List (GoString × FileSample)
  | [] => []
  | Call.processFile plugin sample :: rest => (plugin, sample) :: analyzerCalls rest
  | _ :: rest => analyzerCalls rest

/-- The calls other than analyzer invocations. -/
def otherCalls : List Call → List Call
  | [] => []
  | Call.processFile _ _ :: rest => otherCalls rest
  | c :: rest => c :: otherCalls rest

/-- The entry stored under a key, if any. -/
def SampleDB.find? (db : SampleDB) (hash : GoString) : Option FileVerdict :=
  match db.bucket with
  | none => none
  | some entries => entries.lookup hash

/-- Successive calls of `PluginIterator`, one after the other on the same
database: the database afterwards and all calls made, in order. -/
def dispatchAll (reg : Registry) (unmarshalAny : GoString → Option JSONValue)
    (marshal : MarshalFn) (s : Submitter) (uploader : Option Uploader) :
    List (DispatchEnv × FileInfoEvent) → SampleDB → SampleDB × List Call
  | [], db => (db, [])
  | (env, fiev) :: rest, db =>
    match PluginIterator reg unmarshalAny marshal env fiev s uploader db with
    | (_, db1, calls) =>
      match dispatchAll reg unmarshalAny marshal s uploader rest db1 with
      | (db2, calls2) => (db2, calls ++ calls2)

/-- Whether the analyzer loop takes the suspicious flag of a plugin into the
verdict: `ProcessFile` returned no error, a reason that is empty or decodes as
JSON, and `suspicious = true`. -/
def flagsFile (unmarshalAny : GoString → Option JSONValue) (sample : FileSample)
    (plug : AnalysisPlugin) : Bool :=
  match plug.ProcessFile sample with
  | (output, pluginSuspicious, anaErr) =>
    anaErr.isNone && (output.isEmpty || (unmarshalAny output).isSome) && pluginSuspicious

/-- The calls to the submitter and to the uploader in a list of calls. -/
def handOffCalls : List Call → List Call
  | [] => []
  | Call.submit jsonData :: rest => Call.submit jsonData :: handOffCalls rest
  | Call.enqueue verdict localpath :: rest => Call.enqueue verdict localpath :: handOffCalls rest
  | _ :: rest => handOffCalls rest

/-! ## Canonical paths (used in the proofs about `filepath.Clean`) -/

/-- The stacks `filepath.Clean` builds (last kept element first): every element
is a non-empty name without separator and other than `.`, and `..` occurs only
below every name, in a path that is not rooted. -/
def CanonStack (rooted : Bool) : List GoString → Prop
  | [] => True
  | c :: S => c ≠ [] ∧ c ≠ go "." ∧ slash ∉ c ∧
      (c = go ".." → rooted = false ∧ (S = [] ∨ S.head? = some (go ".."))) ∧
      CanonStack rooted S

/-- The path `filepath.Clean` writes out for a non-empty stack. -/
def render (rooted : Bool) (S : List GoString) : GoString :=
  (if rooted then [slash] else []) ++ joinSlash S.reverse

/-! ## Example inputs -/

/-- A decoder that accepts exactly one line, with a given result. -/
def decodeOnly {α : Type} (line : GoString) (v : α) : GoString → Option α :=
  fun l => if l = line then some v else none

/-- The digest of the payload in the tests of the socket input. -/
def testSha256 : GoString :=
  go "40c38478248ab915fc6d988b54860d0eec3f1e6ff3c968d65ff8d0840614382f"

/-- The payload path of the tests, under the file directory `/tmp/files`. -/
def testPayload : GoString :=
  go "/tmp/files/40/40c38478248ab915fc6d988b54860d0eec3f1e6ff3c968d65ff8d0840614382f"

/-- The sidecar of the tests. -/
def testSidecar : GoString := testPayload ++ go ".1547728944.1138003.json"

/-- A fileinfo message as the tests send it, with a given magic and digest. -/
def testMessage (stored : Bool) (magic sha256 : GoString) : socketMessage :=
  { EventType := go "fileinfo",
    FileInfo := { Filename := go "foo", FileID := 23, Stored := stored, Magic := magic,
                  Sha256 := sha256 } }

/-- A line of the socket protocol (its decoding is given by `decodeOnly`). -/
def testLine : GoString := go "\x7b\"event_type\":\"fileinfo\"\x7d\n"

/-- A V2 socket input on `/tmp/files` with the payload of the tests, its
sidecar and an unrelated file on disk. -/
def testIngestV2 : Ingest :=
  { si := { EventChan := [], StoreVersion := V2, WaitGroup := 0, FileDir := go "/tmp/files" },
    fs := [⟨testPayload, 0, 3⟩, ⟨testSidecar, 0, 3⟩, ⟨go "/tmp/files/ab/abc", 0, 3⟩] }

/-- A V1 socket input on `/tmp/files` with `file.23` and its metafile on disk. -/
def testIngestV1 : Ingest :=
  { si := { EventChan := [], StoreVersion := V1, WaitGroup := 0, FileDir := go "/tmp/files" },
    fs := [⟨go "/tmp/files/file.23", 0, 3⟩, ⟨go "/tmp/files/file.23.meta", 0, 3⟩,
           ⟨go "/tmp/files/file.24", 0, 3⟩] }

/-- The plugin of `registry_test.go`: never suspicious, no reason, no error. -/
def testPlugin : AnalysisPlugin :=
  { Name := go "test plugin", ProcessFile := fun _ => ([], false, none) }

/-- A plugin that flags every file, with a JSON reason. -/
def flaggingPlugin : AnalysisPlugin :=
  { Name := go "flagging plugin", ProcessFile := fun _ => (go "\x7b\x7d", true, none) }

/-- A plugin that flags every file but returns a reason that is not JSON. -/
def garbledPlugin : AnalysisPlugin :=
  { Name := go "garbled plugin", ProcessFile := fun _ => (go "not json", true, none) }

/-- A plugin whose `ProcessFile` fails. -/
def failingPlugin : AnalysisPlugin :=
  { Name := go "failing plugin",
    ProcessFile := fun _ => ([], true, some (go "scan failed")) }

/-- A decoder for evaluating the model: it decodes the text of the empty JSON
object and rejects every other text. -/
def testUnmarshal : GoString → Option JSONValue :=
  decodeOnly (go "\x7b\x7d") (JSONValue.object [])

/-- An encoder for evaluating the model: it never fails and renders the
SHA-512 of the verdict only. -/
def testMarshal : MarshalFn := fun v => .ok (go "\x7b\"Sha512\":\"" ++ v.Hashes.Sha512 ++ go "\"\x7d")

/-- The dummy submitter: `Submit` returns nil. -/
def dummySubmitter : Submitter := { Submit := fun _ => none }

/-- A submitter whose broker is down: `Submit` fails. -/
def downSubmitter : Submitter := { Submit := fun _ => some (go "channel closed") }

/-- An uploader whose `Enqueue` succeeds. -/
def testUploader : Uploader := { Enqueue := fun _ _ => none }

/-- The hashes of the sample of the examples (the digests are abbreviated). -/
def testHashes : HashInfo :=
  { Md5 := go "327b6f07", Sha1 := go "3773dea6", Sha256 := go "fbc1a9f8",
    Sha512 := go "65019286", Sha3_512 := go "f0e1d2c3" }

/-- An environment in which every operation succeeds, with the clock readings
`t1` and `t2`, and no metafile. -/
def testEnv (t1 t2 : GoTime) : DispatchEnv :=
  { openErr := none, fd := 3, statResult := .ok { ModTime := 1000, Size := 7 },
    hashResult := .ok testHashes, viewFault := none, now1 := t1, now2 := t2,
    magic := go "ASCII text", firstWriteFault := none, metaFile := none,
    secondWriteFault := none }

/-- The event of `TestRescanTimeframe`. -/
def testEvent : FileInfoEvent :=
  { StoreVersion := 0, JSONMessage := JSONValue.null, MetafileText := [],
    FilePath := go "/tmp/example/file.1" }

/-- A registry with the given plugins and the default rescan time of 72 hours. -/
def testRegistry (plugins : List AnalysisPlugin) : Registry :=
  { AnalysisPlugins := plugins, rescanTimeframe := 259200000000000, SensorID := go "sensor" }

/-- The database before the first write. -/
def emptyDB : SampleDB := { bucket := none }

/-- A database holding one entry for the sample, scanned at time 20. -/
def testDB : SampleDB :=
  { bucket := some [(testHashes.Sha512,
      { emptyVerdict with Hashes := testHashes, Time := 20, Reported := true })] }

/-- An environment in which the transaction of the first store write fails. -/
def writeFaultEnv (t1 t2 : GoTime) : DispatchEnv :=
  { openErr := none, fd := 3, statResult := .ok { ModTime := 1000, Size := 7 },
    hashResult := .ok testHashes, viewFault := none, now1 := t1, now2 := t2,
    magic := go "ASCII text", firstWriteFault := some (go "database not open"),
    metaFile := none, secondWriteFault := none }

/-! ## Characters of a pattern -/

/-- Whether `r` is exactly one character as Go's `regexp` reads its input: a
non-empty run of bytes that `utf8.DecodeRune` takes in one step, that is an
ASCII byte, a well-formed multi-byte encoding, or one stray byte. -/
def isOneRune (r : GoString) : Bool := !r.isEmpty && decide (runeWidth r = r.length)

/-! ## A backlog on disk -/

/-- The part of the backlog of `_TestBacklogDelete` that belongs to the V1
payload `ff/file.25`, with a JSON sidecar of that name added. -/
def backlogFS : FS :=
  [⟨go "/tmp/example/ff/file.25", 0, 3⟩, ⟨go "/tmp/example/ff/file.25.meta", 0, 3⟩,
    ⟨go "/tmp/example/ff/file.25.1.json", 0, 3⟩, ⟨go "/tmp/example/ff/strange", 0, 3⟩]

/-! ## The verdict store as stored bytes (`sampledb/db.go`) -/

/-- The type of `json.Unmarshal(data, &fv)` on the zero verdict `fv`: the
verdict afterwards and the error returned. -/
abbrev UnmarshalFn := GoString → FileVerdict × Option GoError

namespace sampledb

/-- The bolt database `filesDB` with its values as they are stored: the bucket
`SAMPLES`, absent until the first write, with the JSON text of a verdict under
each key. `SampleDB` above is this database read through `json.Unmarshal`. -/
structure DB where
  bucket : Option (List (GoString × GoString))
  deriving DecidableEq

/-- Go `CreateSampleEntry`, storing the bytes `json.Marshal` returns: the error
returned and the database afterwards. `updateFault` is the error, if any, with
which the bolt transaction itself fails; a failed transaction is rolled back.
An empty key is rejected by `Bucket.Put`. -/
def CreateSampleEntry (marshal : MarshalFn) (updateFault : Option GoError) (db : DB)
    (fv : FileVerdict) : Option GoError × DB :=
  match marshal fv with
  | .error e => (some e, db)
  | .ok encoded =>
    match updateFault with
    | some e => (some e, db)
    | none =>
      if fv.Hashes.Sha512 = [] then (some (go "key required"), db)
      else (none, DB.mk (some (mapSet (db.bucket.getD []) fv.Hashes.Sha512 encoded)))

/-- Go `GetSampleEntry`, decoding the stored bytes with `json.Unmarshal`.
`Bucket.Get` returns nil for a key that is not in the bucket, and a value of
length zero is returned as the zero verdict without decoding. `viewFault` is
the error, if any, with which the bolt read transaction itself fails. -/
def GetSampleEntry (unmarshal : UnmarshalFn) (viewFault : Option GoError) (db : DB)
    (hash : GoString) : FileVerdict × Option GoError :=
  match viewFault with
  | some e => (emptyVerdict, some e)
  | none =>
    match db.bucket with
    | none => (emptyVerdict, some (go "missing bucket"))
    | some entries =>
      let data := (entries.lookup hash).getD []
      if data.length = 0 then (emptyVerdict, none) else unmarshal data

/-- The database read through `json.Unmarshal`: the verdict each stored value
decodes to. -/
def decoded (unmarshal : UnmarshalFn) (db : DB) : SampleDB :=
  { bucket := db.bucket.map (fun entries => entries.map (fun e => (e.1, (unmarshal e.2).1))) }

end sampledb

/-- The text the encoder of the examples gives for a flag `Suspicious` and a
SHA-512. -/
def flagText (suspicious : Bool) (sha512 : GoString) : GoString :=
  go "\x7b\"Suspicious\":" ++ (if suspicious then go "true" else go "false") ++
    go ",\"Sha512\":\"" ++ sha512 ++ go "\"\x7d"

/-- An encoder for evaluating the model on two verdicts of one file: it never
fails and renders the flag `Suspicious` and the SHA-512. -/
def flagMarshal : MarshalFn := fun v => .ok (flagText v.Suspicious v.Hashes.Sha512)

/-- The verdict of the examples, with a given flag `Suspicious`. -/
def testVerdict (suspicious : Bool) : FileVerdict :=
  { emptyVerdict with Hashes := testHashes, Time := 20, Suspicious := suspicious }

/-- A decoder for evaluating the model: it decodes the two texts `flagMarshal`
gives for the verdict of the examples and rejects every other text. -/
def flagUnmarshal : UnmarshalFn := fun data =>
  if data = flagText true testHashes.Sha512 then (testVerdict true, none)
  else if data = flagText false testHashes.Sha512 then (testVerdict false, none)
  else (emptyVerdict, some (go "invalid character"))

/-- A verdict without hashes, as `FileVerdict` allows it. -/
def hashlessVerdict : FileVerdict := { emptyVerdict with Suspicious := true }


/-- A verdict whose file name holds the byte `0xff`, which starts no UTF-8
encoding: the name of a file in a directory `/data/<0xff>`. -/
def rawNameVerdict : FileVerdict :=
  { testVerdict false with Filename := go "/data/" ++ [255] ++ go "/file.1" }

/-- The text the encoder `nameMarshal` gives for a file name and a SHA-512. -/
def nameText (filename sha512 : GoString) : GoString :=
  go "\x7b\"Filename\":\"" ++ filename ++ go "\",\"Sha512\":\"" ++ sha512 ++ go "\"\x7d"

/-- An encoder for evaluating the model on file names: it never fails and
renders the file name and the SHA-512, with the byte `0xff` of a file name
written as the six characters of the escape for U+FFFD, the way `json.Marshal`
coerces a string to valid UTF-8. -/
def nameMarshal : MarshalFn := fun v =>
  .ok (nameText
    ((v.Filename.map (fun b => if b = 255 then [92, 117, 102, 102, 102, 100] else [b])).flatten)
    v.Hashes.Sha512)

/-- A decoder for evaluating the model on file names: it decodes the text
`nameMarshal` gives for `rawNameVerdict`, in which the escape stands for the
three bytes of U+FFFD, as `json.Unmarshal` does, and rejects every other
text. -/
def nameUnmarshal : UnmarshalFn := fun data =>
  if data = nameText (go "/data/" ++ [92, 117, 102, 102, 102, 100] ++ go "/file.1")
      testHashes.Sha512 then
    ({ testVerdict false with Filename := go "/data/" ++ [239, 191, 189] ++ go "/file.1" }, none)
  else (emptyVerdict, some (go "invalid character"))
/-! ## The janitor's space sweep (`janitor.go`) -/

/-- The number of values of Go's `uint`, which is 64 bits wide on the 64-bit
platforms the sensor runs on: `2^64`. Arithmetic on `uint` wraps around modulo
this number. -/
def uintModulus : Nat := 18446744073709551616

/-- The conversion `uint(n)` of an `int64`. -/
def toUint (n : Int) : Nat := (n % (uintModulus : Int)).toNat

/-- The expression `*MaxSpace*1024*1024`, computed in `uint`. -/
def spaceLimit (maxSpace : Nat) : Nat :=
  maxSpace % uintModulus * 1024 % uintModulus * 1024 % uintModulus

/-- The pattern `\.(json|meta)$` matched at the start of the input. -/
def matchMetafileHere (s : GoString) : Bool := s == go ".json" || s == go ".meta"

/-- The compiled pattern `metafileReg`, `\.(json|meta)$` (`watcher.go`). -/
def metafileReg (s : GoString) : Bool := anySuffix matchMetafileHere s

/-- Go `removableFile`. -/
structure removableFile where
  Age : GoDuration
  Path : GoString
  Size : Int
  deriving DecidableEq

/-- One call of the walk function by `filepath.Walk`: the path visited, the
error passed in, what the function reads of the `os.FileInfo`, and the clock at
the call. -/
structure WalkEntry where
  path : GoString
  err : Option GoError
  IsDir : Bool
  ModTime : GoTime
  Size : Int
  now : GoTime

/-- The walk function of the space sweep (lines 120 to 137): entries with an
error, directories and metafiles are passed over, every other file is appended
with its age `time.Since(info.ModTime())`. -/
def collectRemovable (files : List removableFile) (e : WalkEntry) : List removableFile :=
  if e.err ≠ none then files
  else if e.IsDir then files
  else if metafileReg e.path then files
  else files ++ [{ Age := timeSub e.now e.ModTime, Path := e.path, Size := e.Size }]

/-- Go `byAge.Less` on two elements. -/
def byAgeLess (a b : removableFile) : Bool := decide (a.Age < b.Age)

/-- The type of `sort.Sort(byAge(files))`: the slice afterwards. -/
abbrev SortFn := List removableFile → List removableFile

/-- What `sort.Sort` guarantees of its result on `files`: the same elements, no
element `Less` than one before it. The order of elements of equal age is left
open, as `sort.Sort` is not stable. -/
def SortsByAge (sortFn : SortFn) (files : List removableFile) : Prop :=
  (sortFn files).Perm files ∧ (sortFn files).Pairwise (fun a b => byAgeLess b a = false)

/-- Insertion sort by age, an instance of `sort.Sort` for evaluating the model:
on files of pairwise different ages every sort gives this order. -/
def insertionSortByAge : SortFn := List.insertionSort (fun a b => a.Age ≤ b.Age)

/-- Lines 144 to 161: the file, its metafile and the JSON sidecars that
`filepath.Glob` reports are removed; errors of `os.Remove` and of
`filepath.Glob` are logged only. -/
def removeWithSidecars (glob : GlobFn) (fs : FS) (path : GoString) : FS :=
  let fs1 := osRemove fs path
  let fs2 := osRemove fs1 (path ++ go ".meta")
  match glob fs2 (path ++ go ".*.json") with
  | some metajsonfiles => metajsonfiles.foldl osRemove fs2
  | none => fs2

/-- The state of the loop of the space sweep: the running sum, the filestore,
and a record of the files the loop removed and of those it passed over, in the
order of the loop. -/
structure SweepState where
  sum : Nat
  fs : FS
  removed : List removableFile
  kept : List removableFile

/-- One turn of the loop of lines 141 to 164. -/
def spaceSweepStep (glob : GlobFn) (maxSpace : Nat) (st : SweepState) (item : removableFile) :
    SweepState :=
  let sum := (st.sum + toUint item.Size) % uintModulus
  if sum > spaceLimit maxSpace then
    { sum := sum, fs := removeWithSidecars glob st.fs item.Path,
      removed := st.removed ++ [item], kept := st.kept }
  else { sum := sum, fs := st.fs, removed := st.removed, kept := st.kept ++ [item] }

/-- The loop of lines 140 to 164 over the sorted files. -/
def spaceSweepLoop (glob : GlobFn) (maxSpace : Nat) (sorted : List removableFile) (fs : FS) :
    SweepState :=
  sorted.foldl (spaceSweepStep glob maxSpace) { sum := 0, fs := fs, removed := [], kept := [] }

/-- The space sweep of one tick of the janitor (lines 118 to 164), on the calls
`filepath.Walk` makes for the directory: collect, sort by age, remove. -/
def spaceSweep (glob : GlobFn) (sortFn : SortFn) (maxSpace : Nat) (walked : List WalkEntry)
    (fs : FS) : SweepState :=
  spaceSweepLoop glob maxSpace (sortFn (walked.foldl collectRemovable [])) fs

/-- The total size of a list of files, in bytes. -/
def totalSize (files : List removableFile) : Int := (files.map (fun f => f.Size)).sum

/-- The directory of `TestJanitorSpace` after `CreateFilePair` ran five times:
`file.1` (oldest) to `file.5` (newest) of 900 000 bytes each, every one with a
metafile. -/
def janitorFS : FS :=
  [⟨go "/tmp/example/file.1", 100, 900000⟩, ⟨go "/tmp/example/file.1.meta", 100, 3⟩,
   ⟨go "/tmp/example/file.2", 200, 900000⟩, ⟨go "/tmp/example/file.2.meta", 200, 3⟩,
   ⟨go "/tmp/example/file.3", 300, 900000⟩, ⟨go "/tmp/example/file.3.meta", 300, 3⟩,
   ⟨go "/tmp/example/file.4", 400, 900000⟩, ⟨go "/tmp/example/file.4.meta", 400, 3⟩,
   ⟨go "/tmp/example/file.5", 500, 900000⟩, ⟨go "/tmp/example/file.5.meta", 500, 3⟩]

/-- The calls of `filepath.Walk` on a directory holding the files of `fs` at
the clock reading `now`: the directory itself, then the files in the order of
`fs`. -/
def walkOf (dir : GoString) (fs : FS) (now : GoTime) : List WalkEntry :=
  { path := dir, err := none, IsDir := true, ModTime := 0, Size := 4096, now := now } ::
    fs.map (fun f =>
      { path := f.Path, err := none, IsDir := false, ModTime := f.ModTime, Size := f.Size,
        now := now })

/-- A directory with one file of one byte. -/
def tinyFS : FS := [⟨go "/tmp/example/file.1", 100, 1⟩]

/-- A directory with one file of exactly one MiB. -/
def exactFS : FS := [⟨go "/tmp/example/file.1", 100, 1048576⟩]

/-- A directory with two sparse files of the greatest size an `int64` holds,
`2^63 - 1` bytes, and an older file of one MiB and two bytes. -/
def sparseFS : FS :=
  [⟨go "/tmp/example/file.1", 100, 1048578⟩,
   ⟨go "/tmp/example/file.2", 200, 9223372036854775807⟩,
   ⟨go "/tmp/example/file.3", 300, 9223372036854775807⟩]

/-! ## The union pattern of the backlog scanner (`watcher.go`) -/

/-- The pattern `(file\.[0-9]+|[0-9a-fA-F]{2}.[0-9a-fA-F]{64})$` matched at the
start of the input: one of the two alternatives, up to the end of the input. -/
def matchDroppedHere (s : GoString) : Bool := matchV1Here s || matchV2Here s

/-- The compiled pattern `droppedFileReg`,
`(file\.[0-9]+|[0-9a-fA-F]{2}.[0-9a-fA-F]{64})$`. -/
def droppedFileReg (s : GoString) : Bool := anySuffix matchDroppedHere s

/-! ## The janitor's age sweep and tick (`janitor.go`) -/

/-- The verb `%d` of `fmt` on an `int`. -/
def fmtInt (n : Int) : GoString :=
  if n < 0 then 45 :: fmtUint n.natAbs else fmtUint n.natAbs

/-- Go `intToStoreVersion`: the version and the error returned. -/
def intToStoreVersion (v : Int) : FilestoreVersion × Option GoError :=
  if v < 1 ∨ v > 2 then (0, some (go "invalid filestore version: " ++ fmtInt v))
  else if v = 1 then (V1, none)
  else if v = 2 then (V2, none)
  else (0, some (go "invalid filestore version"))

/-- The libraries the backlog scanner calls: `filepath.Glob`,
`registry.MagicFromFile`, `os.ReadFile` and `json.Unmarshal` into an
`interface{}`. -/
structure ScanEnv where
  glob : GlobFn
  MagicFromFile : GoString → GoString
  readFile : GoString → Except GoError GoString
  unmarshalAny : GoString → Option JSONValue

/-- One name `filepath.Walk` turns to, in the order of the walk: its path,
whether it is the name of a regular file, which the filestore holds as long as
the file exists, and the error `filepath.Walk` or `os.Stat` reports on it for a
reason other than the absence of the file. -/
structure ScanEntry where
  path : GoString
  IsRegular : Bool
  err : Option GoError

/-- What the walk of the backlog scanner acts on: the filestore and the slice
`files`. -/
structure ScanState where
  fs : FS
  files : List GoString

/-- The error of `os.Lstat` on a name whose file is gone. -/
def lstatError (path : GoString) : GoError :=
  go "lstat " ++ path ++ go ": no such file or directory"

/-- The walk function of `backlogBuilder` (lines 69 to 99), with the `lstat`
that `filepath.Walk` runs on the name before the call: the state afterwards and
the error returned to `filepath.Walk`; `none` when `DeleteFileSet` panics. An
error passed in, the error of `lstat` on a file that is gone, and an error of
`os.Stat` are all returned. -/
def scanStep (env : ScanEnv) (sv : FilestoreVersion) (st : ScanState) (e : ScanEntry) :
    Option (ScanState × Option GoError) :=
  if e.err.isSome then some (st, e.err)
  else if e.IsRegular && !osStat st.fs e.path then some (st, some (lstatError e.path))
  else if e.IsRegular then
    if droppedFileReg e.path then
      if !AllowedMagicPattern (env.MagicFromFile e.path) then
        match DeleteFileSet env.glob st.fs e.path sv with
        | none => none
        | some (_, fs1) => some ({ st with fs := fs1 }, none)
      else some ({ st with files := st.files ++ [e.path] }, none)
    else some (st, none)
  else some (st, none)

/-- Go `filepath.Walk` with the walk function of `backlogBuilder`: the walk
ends at the first name on which the function returns an error, and returns
that error. -/
def scanWalk (env : ScanEnv) (sv : FilestoreVersion) :
    List ScanEntry → ScanState → Option (ScanState × Option GoError)
  | [], st => some (st, none)
  | e :: rest, st =>
    match scanStep env sv st e with
    | none => none
    | some (st1, some err) => some (st1, some err)
    | some (st1, none) => scanWalk env sv rest st1

/-- Lines 111 to 126: one event for every JSON sidecar that `os.ReadFile` reads
and `json.Unmarshal` decodes; the others are logged and passed over. -/
def jsonEvents (env : ScanEnv) (f : GoString) (jsonFiles : List GoString) : List FileInfoEvent :=
  jsonFiles.filterMap (fun jf =>
    match env.readFile jf with
    | .error _ => none
    | .ok data =>
      match env.unmarshalAny data with
      | none => none
      | some jm => some { StoreVersion := 0, JSONMessage := jm, MetafileText := [], FilePath := f })

/-- Lines 133 to 145: one event for every metafile that `os.ReadFile` reads. -/
def metaEvents (env : ScanEnv) (f : GoString) (metaFiles : List GoString) : List FileInfoEvent :=
  metaFiles.filterMap (fun mf =>
    match env.readFile mf with
    | .error _ => none
    | .ok data =>
      some { StoreVersion := 0, JSONMessage := JSONValue.null, MetafileText := data,
             FilePath := f })

/-- One turn of the loop of lines 105 to 146: the events sent on
`ScanCandidateChan` for the file `f`. An error of the first `filepath.Glob`
ends the turn before the metafiles are looked for. -/
def fileEvents (env : ScanEnv) (fs : FS) (f : GoString) : List FileInfoEvent :=
  match env.glob fs (f ++ go ".*.json") with
  | none => []
  | some jsonFiles =>
    jsonEvents env f jsonFiles ++
      match env.glob fs (f ++ go ".meta") with
      | none => []
      | some metaFiles => metaEvents env f metaFiles

/-- What a run of `backlogBuilder` leaves: the filestore, the slice `files`,
the error of the walk, which is logged, and the events sent on
`ScanCandidateChan`, oldest first. -/
structure BacklogResult where
  fs : FS
  files : List GoString
  walkErr : Option GoError
  events : List FileInfoEvent

/-- Go `Watcher.backlogBuilder` (lines 64 to 149) on the names `filepath.Walk`
turns to; `none` when the process panics. -/
def backlogBuilder (env : ScanEnv) (walked : List ScanEntry) (storeVersion : Int) (fs : FS) :
    Option BacklogResult :=
  let sv := (intToStoreVersion storeVersion).1
  match scanWalk env sv walked { fs := fs, files := [] } with
  | none => none
  | some (st, err) =>
    some { fs := st.fs, files := st.files, walkErr := err,
           events := (st.files.map (fileEvents env st.fs)).flatten }

/-- An instance of `GlobFn` for evaluating the scanner: a pattern free of
metacharacters matches the file of that name, if there is one, as in
`filepath.Glob`; the other patterns are left to `sidecarGlob`. -/
def scanGlob : GlobFn := fun fs pattern =>
  if pattern.all (fun b => b != 42 && b != 63 && b != 91 && b != 92) then
    (if osStat fs pattern then some [pattern] else some [])
  else sidecarGlob fs pattern

/-- The names `filepath.Walk` turns to in a directory holding the files of
`fs`: the directory itself, then the files in the order of `fs`. -/
def scanOf (dir : GoString) (fs : FS) : List ScanEntry :=
  { path := dir, IsRegular := false, err := none } ::
    fs.map (fun f => { path := f.Path, IsRegular := true, err := none })

/-- A backlog of one executable with three sidecars, of which `file.25.2.json`
holds no JSON document. -/
def sidecarFS : FS :=
  [⟨go "/tmp/example/file.25", 0, 9⟩, ⟨go "/tmp/example/file.25.1.json", 0, 2⟩,
   ⟨go "/tmp/example/file.25.2.json", 0, 8⟩, ⟨go "/tmp/example/file.25.meta", 0, 9⟩]

/-- An instance of the libraries for evaluating the scanner: every file is an
executable for Windows, the file `file.25.1.json` holds the empty JSON object,
every other file the text `foobarbaz`. -/
def allowedEnv : ScanEnv :=
  { glob := scanGlob,
    MagicFromFile := fun _ => go "PE32 executable (GUI) Intel 80386, for MS Windows",
    readFile := fun p =>
      if p = go "/tmp/example/file.25.1.json" then .ok (go "\x7b\x7d") else .ok (go "foobarbaz"),
    unmarshalAny := testUnmarshal }

/-- An instance of the libraries for evaluating the scanner: every file holds
the text `foobarbaz`, as in `_TestBacklogDelete`. -/
def textEnv : ScanEnv :=
  { glob := scanGlob,
    MagicFromFile := fun _ => go "ASCII text, with no line terminators",
    readFile := fun _ => .ok (go "foobarbaz"),
    unmarshalAny := testUnmarshal }

/-- A backlog of two pairs of version 1. -/
def pairsFS : FS :=
  [⟨go "/tmp/example/file.1", 0, 9⟩, ⟨go "/tmp/example/file.1.meta", 0, 9⟩,
   ⟨go "/tmp/example/file.2", 0, 9⟩, ⟨go "/tmp/example/file.2.meta", 0, 9⟩]

/-- The backlog of `_TestBacklogDelete` under `/tmp/example`, in the order of
the walk. -/
def deleteTestFS : FS :=
  [⟨go "/tmp/example/ff/ff53d10b98ae3d38384b30e4b6f63923d7d3a68b67e340cbda95ca22a5a6edbb", 0, 9⟩,
   ⟨go "/tmp/example/ff/ff53d10b98ae3d38384b30e4b6f63923d7d3a68b67e340cbda95ca22a5a6edbb.23423434.24234.json", 0, 9⟩,
   ⟨go "/tmp/example/ff/file.25", 0, 9⟩, ⟨go "/tmp/example/ff/file.25.meta", 0, 9⟩,
   ⟨go "/tmp/example/ff/mystrangefile2", 0, 9⟩, ⟨go "/tmp/example/mystrangefile1", 0, 9⟩]

/-- What `DeleteFileSet`, run on the path `q`, can take away: `q` itself, the
metafile `filepath.Join(q + ".meta")` of version 1, and a path that
`filepath.Glob` reports for the pattern `q.*.json` of version 2. -/
def DeletedWith (glob : GlobFn) (q p : GoString) : Prop :=
  p = q ∨ p = filepathJoin [q ++ go ".meta"] ∨
    ∃ fs0 res, glob fs0 (q ++ go ".*.json") = some res ∧ p ∈ res

/-- Whether a JSON sidecar yields an event: `os.ReadFile` reads it and
`json.Unmarshal` decodes what it holds. -/
def yieldsJSON (env : ScanEnv) (jf : GoString) : Bool :=
  match env.readFile jf with
  | .error _ => false
  | .ok data => (env.unmarshalAny data).isSome

/-- Whether a metafile yields an event: `os.ReadFile` reads it. -/
def yieldsMeta (env : ScanEnv) (mf : GoString) : Bool :=
  match env.readFile mf with
  | .error _ => false
  | .ok _ => true

/-! ## The uploader (`uploader/uploader.go`) -/

namespace uploader

/-- Go `S3Credentials`. -/
structure S3Credentials where
  Endpoint : GoString
  AccessKey : GoString
  SecretAccessKey : GoString
  BucketName : GoString
  Region : GoString

/-- Go `UploadJob`. -/
structure UploadJob where
  verdict : FileVerdict
  localFilePath : GoString
  localVerdictPath : GoString

/-- The fields of Go `Uploader` that `Enqueue`, `processUpload` and
`enqueueBacklog` read and write. `InChan` holds the jobs sent on the channel
and not yet received, oldest first; `Submitter` is `none` for the nil
interface. -/
structure Uploader where
  Creds : S3Credentials
  ScratchDir : GoString
  InChan : List UploadJob
  Submitter : Option Submitter

/-- The capacity of `InChan`, as `MakeS3Uploader` makes it. -/
def inChanCapacity : Nat := 10000

/-- The type of `Client.FPutObject` on a given filestore: the error returned
for a bucket, an object name and the path of a local file. -/
abbrev PutFn := FS → GoString → GoString → GoString → Option GoError

/-- Go `path.Join`, which is `filepath.Join` on slash-separated paths. -/
def pathJoin (elem : List GoString) : GoString := filepathJoin elem

/-- Go `os.Create` followed by writes of `size` bytes in all, or
`os.WriteFile`, at the clock reading `now`: the file is there afterwards, with
that size. -/
def osWriteFile (fs : FS) (path : GoString) (size : Nat) (now : GoTime) : FS :=
  osRemove fs path ++ [⟨path, now, size⟩]

/-- Go `Uploader.Enqueue` (lines 60 to 106) while the worker receives from
`InChan`: the error returned, the uploader and the filestore afterwards.
`os.Open` fails on a file that is not there; `os.Create`, `io.Copy`, `Sync`
and `os.WriteFile` are taken to succeed. -/
def Enqueue (marshal : MarshalFn) (now : GoTime) (u : Uploader) (fs : FS)
    (verdict : FileVerdict) (localpath : GoString) : Option GoError × Uploader × FS :=
  match fs.find? (fun f => f.Path == localpath) with
  | none => (some (go "open " ++ localpath ++ go ": no such file or directory"), u, fs)
  | some srcFile =>
    let destPath := pathJoin [u.ScratchDir, verdict.Hashes.Sha512]
    let fs1 := osWriteFile fs destPath srcFile.Size now
    let verdictPath := pathJoin [u.ScratchDir, verdict.Hashes.Sha512 ++ go ".verdict.json"]
    match marshal verdict with
    | .error err => (some err, u, fs1)
    | .ok outJSON =>
      let fs2 := osWriteFile fs1 verdictPath outJSON.length now
      (none,
        { u with InChan := u.InChan ++
            [{ verdict := verdict, localFilePath := destPath, localVerdictPath := verdictPath }] },
        fs2)

/-- What the worker acts on: the filestore, and the messages it passed to
`Submitter.Submit`, oldest first. -/
structure WorkerState where
  fs : FS
  submitted : List GoString

/-- The verdict after lines 149 and 150: `Uploaded` is set and
`UploadLocation` is `<endpoint>/<bucket>/<sha512>`. -/
def uploadedVerdict (u : Uploader) (verdict : FileVerdict) : FileVerdict :=
  { verdict with
    Uploaded := true,
    UploadLocation :=
      u.Creds.Endpoint ++ go "/" ++ u.Creds.BucketName ++ go "/" ++ verdict.Hashes.Sha512 }

/-- One turn of the loop of `processUpload` (lines 110 to 161), on the job
received. A failed upload ends the turn; after both uploads the two local
files are removed and the verdict, marked as uploaded, goes to the submitter if
there is one and `json.Marshal` renders it. The value `Submit` returns is not
looked at. -/
def processJob (put : PutFn) (marshal : MarshalFn) (u : Uploader) (st : WorkerState)
    (file : UploadJob) : WorkerState :=
  let verdictFileName := file.verdict.Hashes.Sha512 ++ go ".verdict.json"
  let sampleFileName := file.verdict.Hashes.Sha512
  match put st.fs u.Creds.BucketName sampleFileName file.localFilePath with
  | some _ => st
  | none =>
    match put st.fs u.Creds.BucketName verdictFileName file.localVerdictPath with
    | some _ => st
    | none =>
      let fs1 := osRemove (osRemove st.fs file.localFilePath) file.localVerdictPath
      match u.Submitter with
      | none => { fs := fs1, submitted := st.submitted }
      | some _ =>
        match marshal (uploadedVerdict u file.verdict) with
        | .error _ => { fs := fs1, submitted := st.submitted }
        | .ok submitJSON => { fs := fs1, submitted := st.submitted ++ [submitJSON] }

/-- Go `processUpload` on the jobs received from `InChan` until it is closed. -/
def processUpload (put : PutFn) (marshal : MarshalFn) (u : Uploader) (jobs : List UploadJob)
    (st : WorkerState) : WorkerState :=
  jobs.foldl (processJob put marshal u) st

/-- The pattern `.+\.verdict\.json$` matched at the start of the input: a run
of at least one character other than line feed, then the literal, which ends
the input. -/
def matchVerdictHere : GoString → Bool
  | [] => false
  | c :: cs => c != newline && (cs == go ".verdict.json" || matchVerdictHere cs)

/-- The compiled pattern of `enqueueBacklog`, `.+\.verdict\.json$`. -/
def verdictFileReg (s : GoString) : Bool := anySuffix matchVerdictHere s

/-- The statement `u.InChan <- job` before the worker is started: the job is
queued while the channel has room; on a full channel the send waits for a
receiver that is not there (`none`). -/
def sendBeforeStart (u : Uploader) (job : UploadJob) : Option Uploader :=
  if u.InChan.length < inChanCapacity then some { u with InChan := u.InChan ++ [job] }
  else none

/-- The job of lines 190 to 194, for the verdict decoded from the file `name`
of the scratch directory. -/
def backlogJob (scratchDir : GoString) (verdict : FileVerdict) (name : GoString) : UploadJob :=
  { verdict := verdict,
    localFilePath := pathJoin [scratchDir, verdict.Hashes.Sha512],
    localVerdictPath := pathJoin [scratchDir, name] }

/-- The loop of `enqueueBacklog` (lines 173 to 197) over the names `os.ReadDir`
returned: the error returned and the uploader afterwards, `none` when a send
waits for ever. `os.Open` fails on a file that is not there; `readAll` is what
`io.ReadAll` then yields. -/
def enqueueLoop (readAll : GoString → GoString) (unmarshal : UnmarshalFn) (fs : FS) :
    List GoString → Uploader → Option (Option GoError × Uploader)
  | [], u => some (none, u)
  | name :: rest, u =>
    if verdictFileReg name then
      if !osStat fs (pathJoin [u.ScratchDir, name]) then
        some (some (go "open " ++ pathJoin [u.ScratchDir, name] ++
          go ": no such file or directory"), u)
      else
        match unmarshal (readAll (pathJoin [u.ScratchDir, name])) with
        | (_, some err) => some (some err, u)
        | (verdict, none) =>
          match sendBeforeStart u (backlogJob u.ScratchDir verdict name) with
          | none => none
          | some u1 => enqueueLoop readAll unmarshal fs rest u1
    else enqueueLoop readAll unmarshal fs rest u

/-- Go `Uploader.enqueueBacklog` (lines 166 to 201), called by
`MakeS3Uploader` before the worker is started. It reads the filestore and
leaves it as it is. -/
def enqueueBacklog (readDir : GoString → Except GoError (List GoString))
    (readAll : GoString → GoString) (unmarshal : UnmarshalFn) (fs : FS) (u : Uploader) :
    Option (Option GoError × Uploader) :=
  match readDir u.ScratchDir with
  | .error err => some (some err, u)
  | .ok files => enqueueLoop readAll unmarshal fs files u

/-- The credentials of `TestUpload`. -/
def testCreds : S3Credentials :=
  { Endpoint := go "localhost:9000", AccessKey := go "foo", SecretAccessKey := go "bar",
    BucketName := go "testbucket", Region := go "" }

/-- An uploader with the scratch directory `/tmp/scratch`, an empty queue and
the dummy submitter. -/
def scratchUploader : Uploader :=
  { Creds := testCreds, ScratchDir := go "/tmp/scratch", InChan := [],
    Submitter := some dummySubmitter }

/-- An instance of `FPutObject` for evaluating the model: the upload succeeds
when the local file is there. -/
def localPut : PutFn := fun fs _ _ filePath =>
  if osStat fs filePath then none else some (go "no such file or directory")

/-- An instance of `FPutObject` that fails on every object whose name ends in
`.verdict.json`. -/
def verdictlessPut : PutFn := fun fs _ objectName filePath =>
  if (go ".verdict.json").isSuffixOf objectName then some (go "connection refused")
  else localPut fs (go "") objectName filePath

/-- A verdict with the SHA-512 `12345`, as in `TestUploaderBacklog`. -/
def scratchVerdict : FileVerdict :=
  { emptyVerdict with
    Suspicious := true,
    Hashes := { Md5 := [], Sha1 := [], Sha256 := [], Sha512 := go "12345", Sha3_512 := [] } }

/-- A decoder for evaluating the model: the text `testMarshal` renders for the
SHA-512 `12345` decodes to `scratchVerdict`, every other text is rejected. -/
def scratchUnmarshal : UnmarshalFn := fun data =>
  if data = go "\x7b\"Sha512\":\"12345\"\x7d" then (scratchVerdict, none)
  else (emptyVerdict, some (go "invalid character"))

/-- The scratch directory of `TestUploaderBacklog`: the payload `12345` and its
verdict. -/
def scratchFS : FS :=
  [⟨go "/tmp/scratch/12345", 0, 9⟩, ⟨go "/tmp/scratch/12345.verdict.json", 0, 18⟩]

/-- A scratch directory with a verdict whose payload is missing. -/
def orphanFS : FS := [⟨go "/tmp/scratch/12345.verdict.json", 0, 18⟩]

/-- A scratch directory with a payload whose verdict is missing. -/
def payloadOnlyFS : FS := [⟨go "/tmp/scratch/12345", 0, 9⟩]

/-- An instance of `os.ReadDir` for evaluating the model: the names of the
files of `fs` in the scratch directory `/tmp/scratch`. -/
def scratchNames (fs : FS) : GoString → Except GoError (List GoString) := fun _ =>
  .ok ((fs.filter (fun f => (go "/tmp/scratch/").isPrefixOf f.Path)).map
    (fun f => f.Path.drop 13))

end uploader

/-! ## Starting and stopping the components -/

namespace lifecycle

/-- A Go channel, as far as `close` and a send can tell: nil, open or closed. -/
inductive ChanState where
  | nilChan
  | isOpen
  | isClosed
  deriving DecidableEq, Repr

/-- How a call ends: it returns, the process panics with a message, or the
goroutine waits for something that no goroutine will do. -/
inductive Outcome (α : Type) where
  | done (a : α)
  | panics (msg : GoString)
  | blocked
  deriving DecidableEq

/-- The next statement after a call that returned. -/
def Outcome.andThen {α β : Type} (o : Outcome α) (f : α → Outcome β) : Outcome β :=
  match o with
  | .done a => f a
  | .panics msg => .panics msg
  | .blocked => .blocked

/-- Go `close(c)`: a closed and a nil channel make it panic. -/
def closeChan : ChanState → Outcome ChanState
  | .isOpen => .done .isClosed
  | .isClosed => .panics (go "close of closed channel")
  | .nilChan => .panics (go "close of nil channel")

/-- Go `c <- v` on a channel that has a receiver or room in its buffer: a send
on a closed channel panics, a send on a nil channel waits for ever. -/
def sendChan : ChanState → Outcome Unit
  | .isOpen => .done ()
  | .isClosed => .panics (go "send on closed channel")
  | .nilChan => .blocked

/-- Go `sync.Mutex.Lock` on a mutex that no other goroutine unlocks: it
returns with the mutex locked when the mutex was free, and waits for ever when
it was locked, also when the caller itself holds it. -/
def lockMutex (locked : Bool) : Outcome Bool :=
  if locked then .blocked else .done true

/-! ### The janitor (`janitor.go`) -/

/-- The fields of Go `Janitor` that `Run` and `Stop` read and write;
`StartStopLock` is whether the mutex is locked. -/
structure Janitor where
  StopperChan : ChanState
  IsRunning : Bool
  FinishNotifyChan : ChanState
  WatchDir : GoString
  StartStopLock : Bool
  deriving DecidableEq

/-- Go `MakeJanitor`, on the open channel `main` makes for it. -/
def MakeJanitor : Janitor :=
  { StopperChan := .nilChan, IsRunning := false, FinishNotifyChan := .isOpen, WatchDir := [],
    StartStopLock := false }

/-- Go `Janitor.Run` (lines 68 to 174): the janitor afterwards and the error
returned. -/
def Janitor.Run (w : Janitor) (directory : GoString) : Outcome (Janitor × Option GoError) :=
  if w.IsRunning then
    .done (w, some (go "janitor already running on directory " ++ w.WatchDir))
  else
    (lockMutex w.StartStopLock).andThen fun _ =>
      .done ({ w with StopperChan := .isOpen, WatchDir := directory, IsRunning := true,
                      StartStopLock := false }, none)

/-- Go `Janitor.Stop` (lines 178 to 184). -/
def Janitor.Stop (w : Janitor) : Outcome Janitor :=
  (lockMutex w.StartStopLock).andThen fun _ =>
    (closeChan w.StopperChan).andThen fun c =>
      .done { w with IsRunning := false, WatchDir := go "<none>", StopperChan := c,
                     StartStopLock := false }

/-! ### The watcher and its socket input (`watcher.go`, `socket_input.go`) -/

/-- The fields of Go `SocketInput` that `Run`, `Stop` and the select of
`handleServerConnection` read and write. `StoppedChanSet` is whether
`StoppedChan` holds the channel passed to `Stop`, which is the
`FinishNotifyChan` of the watcher; `handlerAlive` is whether the goroutine
`handleServerConnection` has not returned. -/
structure SocketInput where
  Running : Bool
  StopChan : ChanState
  StoppedChanSet : Bool
  handlerAlive : Bool
  deriving DecidableEq

/-- The fields of Go `Watcher` that `Run`, `Stop` and `Finish` read and write;
`SocketInput` is `none` for the nil pointer. -/
structure Watcher where
  IsRunning : Bool
  FileDir : GoString
  FinishNotifyChan : ChanState
  ScanCandidateChan : ChanState
  SocketInput : Option SocketInput
  StartStopLock : Bool
  deriving DecidableEq

/-- Go `MakeWatcher`, on the open channel `main` makes for it. -/
def MakeWatcher : Watcher :=
  { IsRunning := false, FileDir := [], FinishNotifyChan := .isOpen,
    ScanCandidateChan := .isOpen, SocketInput := none, StartStopLock := false }

/-- Go `Watcher.Run` (lines 180 to 211) with `MakeSocketInput` and
`SocketInput.Run`: the watcher afterwards and the error returned; `listenErr`
is the error of `net.Listen`. On a store version that is not valid the call
returns with `StartStopLock` still locked. -/
def Watcher.Run (w : Watcher) (directory : GoString) (storeVersion : Int)
    (listenErr : Option GoError) : Outcome (Watcher × Option GoError) :=
  if w.IsRunning then .done (w, some (go "watcher already running"))
  else
    (lockMutex w.StartStopLock).andThen fun locked =>
      let w1 := { w with FileDir := directory, IsRunning := true, StartStopLock := locked }
      match (intToStoreVersion storeVersion).2 with
      | some err => .done (w1, some err)
      | none =>
        match listenErr with
        | some err => .done ({ w1 with SocketInput := none, StartStopLock := false }, some err)
        | none =>
          .done ({ w1 with
                   SocketInput := some { Running := true, StopChan := .isOpen,
                                         StoppedChanSet := false, handlerAlive := true },
                   StartStopLock := false }, none)

/-- Go `Watcher.Stop` (lines 214 to 220) with `SocketInput.Stop` (lines 220 to
236) on `w.FinishNotifyChan`: a running socket input takes the channel as its
`StoppedChan` and has its `StopChan` closed; on a nil or stopped socket input
the channel passed is closed at once. -/
def Watcher.Stop (w : Watcher) : Outcome Watcher :=
  (lockMutex w.StartStopLock).andThen fun _ =>
    match w.SocketInput with
    | some si =>
      if si.Running then
        (closeChan si.StopChan).andThen fun c =>
          .done { w with
                  SocketInput := some { si with StoppedChanSet := true, StopChan := c,
                                                Running := false },
                  IsRunning := false, FileDir := go "<none>", StartStopLock := false }
      else
        (closeChan w.FinishNotifyChan).andThen fun c =>
          .done { w with FinishNotifyChan := c, IsRunning := false, FileDir := go "<none>",
                         StartStopLock := false }
    | none =>
      (closeChan w.FinishNotifyChan).andThen fun c =>
        .done { w with FinishNotifyChan := c, IsRunning := false, FileDir := go "<none>",
                       StartStopLock := false }

/-- The select of `handleServerConnection` (lines 52 to 57) when the goroutine
comes to it: on a closed `StopChan` it closes `StoppedChan` and returns. -/
def Watcher.handlerStep (w : Watcher) : Outcome Watcher :=
  match w.SocketInput with
  | some si =>
    if si.handlerAlive && si.StopChan == .isClosed then
      (closeChan (if si.StoppedChanSet then w.FinishNotifyChan else .nilChan)).andThen fun c =>
        .done { w with FinishNotifyChan := c,
                       SocketInput := some { si with handlerAlive := false } }
    else .done w
  | none => .done w

/-- Go `Watcher.Finish` (lines 223 to 225). -/
def Watcher.Finish (w : Watcher) : Outcome Watcher :=
  (closeChan w.ScanCandidateChan).andThen fun c => .done { w with ScanCandidateChan := c }

/-! ### The uploader (`uploader.go`) -/

/-- The channels of Go `Uploader`, and whether the goroutine `processUpload`
runs. -/
structure Uploader where
  InChan : ChanState
  ClosedChan : ChanState
  workerAlive : Bool
  deriving DecidableEq

/-- Go `MakeS3Uploader`, as far as the channels and the worker go. -/
def MakeS3Uploader : Uploader :=
  { InChan := .isOpen, ClosedChan := .isOpen, workerAlive := true }

/-- Go `Uploader.Stop` (lines 235 to 238): `InChan` is closed; the worker, if
it runs, leaves its loop and closes `ClosedChan` (line 163); the receive from
`ClosedChan` returns once that channel is closed. -/
def Uploader.Stop (u : Uploader) : Outcome Uploader :=
  (closeChan u.InChan).andThen fun c =>
    if u.workerAlive then
      (closeChan u.ClosedChan).andThen fun cc =>
        .done { InChan := c, ClosedChan := cc, workerAlive := false }
    else if u.ClosedChan == .isClosed then .done { u with InChan := c }
    else .blocked

/-! ### The submitter (`submitter.go`) -/

/-- Where the goroutine `reconnectOnFailure` stands: at the select of line 65,
in the retry loop of line 71, at the `Lock` of line 80 that does not return, or
past its `return`. -/
inductive ReconnectAt where
  | selecting
  | retrying
  | lockedOut
  | returned
  deriving DecidableEq, Repr

/-- The fields of Go `AMQPSubmitter` that `reconnectOnFailure`, `connect` and
`Finish` read and write: `ConnMutex` is whether the mutex is locked,
`connected` whether `Conn` and `Channel` are those of a live connection,
`notifications` how often `NotifyClose` was called, `attempts` how often the
goroutine called `connect`, and `watcher` where the goroutine stands. -/
structure AMQPSubmitter where
  StopReconnection : ChanState
  ConnMutex : Bool
  connected : Bool
  notifications : Nat
  attempts : Nat
  watcher : ReconnectAt
  deriving DecidableEq

/-- Go `MakeAMQPSubmitterWithReconnector` after a first connection: the close
notification is registered and the goroutine waits at its select. -/
def MakeAMQPSubmitter : AMQPSubmitter :=
  { StopReconnection := .isOpen, ConnMutex := false, connected := true, notifications := 1,
    attempts := 0, watcher := .selecting }

/-- Go `AMQPSubmitter.Finish` (lines 184 to 189). -/
def AMQPSubmitter.Finish (s : AMQPSubmitter) : Outcome AMQPSubmitter :=
  (closeChan s.StopReconnection).andThen fun c => .done { s with StopReconnection := c }

/-- What the goroutine `reconnectOnFailure` meets: the closed channel
`StopReconnection`, a value on `ErrorChan` (nil or an error), and the result
of a call of `connect` in its retry loop. -/
inductive Happening where
  | stopSignal
  | closeNotification (isError : Bool)
  | connectResult (err : Option GoError)
  deriving DecidableEq

/-- Lines 77 to 81, after `connect` succeeded: `ConnMutex.Lock()`,
`NotifyClose`, `ConnMutex.Lock()` and `break`. -/
def afterReconnect (s : AMQPSubmitter) : AMQPSubmitter :=
  match lockMutex s.ConnMutex with
  | .done m1 =>
    let s1 := { s with ConnMutex := m1, notifications := s.notifications + 1 }
    match lockMutex s1.ConnMutex with
    | .done m2 => { s1 with ConnMutex := m2, watcher := .selecting }
    | _ => { s1 with watcher := .lockedOut }
  | _ => { s with watcher := .lockedOut }

/-- One step of the goroutine `reconnectOnFailure` (lines 63 to 87). At the
select it returns on the stop signal and enters the retry loop on an error from
`ErrorChan`; in the retry loop it sleeps for the reconnect delay and calls
`connect`, which takes and releases `ConnMutex`, and goes on after a success
with `afterReconnect`; what happens elsewhere is not seen while it retries,
nor once it waits for the mutex or has returned. -/
def reconnectStep (s : AMQPSubmitter) (h : Happening) : AMQPSubmitter :=
  match s.watcher with
  | .selecting =>
    match h with
    | .stopSignal => { s with watcher := .returned }
    | .closeNotification true => { s with connected := false, watcher := .retrying }
    | .closeNotification false => s
    | .connectResult _ => s
  | .retrying =>
    match h with
    | .connectResult err =>
      match lockMutex s.ConnMutex with
      | .done _ =>
        match err with
        | some _ => { s with attempts := s.attempts + 1 }
        | none => afterReconnect { s with attempts := s.attempts + 1, connected := true }
      | _ => { s with watcher := .lockedOut }
    | _ => s
  | .lockedOut => s
  | .returned => s

/-- The goroutine `reconnectOnFailure` on what it meets, in order. -/
def reconnectOnFailure (s : AMQPSubmitter) (hs : List Happening) : AMQPSubmitter :=
  hs.foldl reconnectStep s

/-- Go `AMQPSubmitter.Submit` (lines 161 to 181), which takes `ChanMutex` only:
the error of `Channel.Publish`, nil on a live connection. -/
def AMQPSubmitter.Submit (s : AMQPSubmitter) : Option GoError :=
  if s.connected then none else some (go "channel/connection is not open")

/-! ### The shutdown of `main` (`main.go`) -/

/-- The components `main` stops, and the number of FileEvents that the workers
have received and not yet dealt with. -/
structure Sensor where
  w : Watcher
  u : Option Uploader
  j : Janitor
  inWork : Nat
  deriving DecidableEq

/-- A step of the shutdown or of another goroutine while it goes on: the four
calls of lines 260 to 265; the socket handler sending a FileEvent on
`EventChan`, which is the `ScanCandidateChan` of the watcher; the socket
handler coming to its select; a worker handing a suspicious file to
`Uploader.Enqueue`, which sends on `InChan`. -/
inductive Step where
  | uploaderStop
  | watcherFinish
  | watcherStop
  | janitorStop
  | socketEvent
  | handlerSelect
  | workerEnqueue
  deriving DecidableEq, Repr

/-- The calls `main` makes on `os.Interrupt` and `SIGTERM` (lines 259 to 265),
in order. -/
def shutdownCalls (uploadConfigured : Bool) : List Step :=
  (if uploadConfigured then [Step.uploaderStop] else []) ++
    [Step.watcherFinish, Step.watcherStop, Step.janitorStop]

/-- One step on the sensor. A socket handler that has returned sends nothing;
a worker enqueues only while it has an event in work. -/
def Sensor.step (s : Sensor) : Step → Outcome Sensor
  | .uploaderStop =>
    match s.u with
    | some u => (u.Stop).andThen fun u1 => .done { s with u := some u1 }
    | none => .panics (go "invalid memory address or nil pointer dereference")
  | .watcherFinish => (s.w.Finish).andThen fun w1 => .done { s with w := w1 }
  | .watcherStop => (s.w.Stop).andThen fun w1 => .done { s with w := w1 }
  | .janitorStop => (s.j.Stop).andThen fun j1 => .done { s with j := j1 }
  | .socketEvent =>
    match s.w.SocketInput with
    | some si =>
      if si.handlerAlive then
        (sendChan s.w.ScanCandidateChan).andThen fun _ =>
          .done { s with inWork := s.inWork + 1 }
      else .done s
    | none => .done s
  | .handlerSelect => (s.w.handlerStep).andThen fun w1 => .done { s with w := w1 }
  | .workerEnqueue =>
    if s.inWork = 0 then .done s
    else
      match s.u with
      | some u =>
        (sendChan u.InChan).andThen fun _ => .done { s with inWork := s.inWork - 1 }
      | none => .done { s with inWork := s.inWork - 1 }

/-- A run of steps, ended by the first that does not return. -/
def Sensor.run : List Step → Sensor → Outcome Sensor
  | [], s => .done s
  | a :: rest, s => (s.step a).andThen (Sensor.run rest)

/-- The sensor after start-up, as `main` leaves it before it waits: watcher
and janitor running, the uploader made when one is configured. -/
def runningSensor (uploadConfigured : Bool) (inWork : Nat) : Sensor :=
  { w := { IsRunning := true, FileDir := go "/tmp/example", FinishNotifyChan := .isOpen,
           ScanCandidateChan := .isOpen,
           SocketInput := some { Running := true, StopChan := .isOpen, StoppedChanSet := false,
                                 handlerAlive := true },
           StartStopLock := false },
    u := if uploadConfigured then some MakeS3Uploader else none,
    j := { StopperChan := .isOpen, IsRunning := true, FinishNotifyChan := .isOpen,
           WatchDir := go "/tmp/example", StartStopLock := false },
    inWork := inWork }

end lifecycle

/-! ## Filestore lemmas -/

theorem removeIfPresent_eq (fs : FS) (p : GoString) : removeIfPresent fs p = osRemove fs p := by
  unfold removeIfPresent
  split
  · rfl
  · rename_i h
    simp only [osRemove]
    symm
    rw [List.filter_eq_self]
    intro f hf
    simp only [osStat, Bool.not_eq_true, List.any_eq_false] at h
    have := h f hf
    simpa using this

theorem osStat_iff (fs : FS) (q : GoString) : osStat fs q = true ↔ ∃ f ∈ fs, f.Path = q := by
  simp [osStat]

theorem osStat_osRemove (fs : FS) (p q : GoString) :
    osStat (osRemove fs p) q = true ↔ osStat fs q = true ∧ q ≠ p := by
  simp only [osStat_iff, osRemove, List.mem_filter]
  constructor
  · rintro ⟨f, ⟨hf, hne⟩, rfl⟩
    exact ⟨⟨f, hf, rfl⟩, by simpa using hne⟩
  · rintro ⟨⟨f, hf, rfl⟩, hne⟩
    exact ⟨f, ⟨hf, by simpa using hne⟩, rfl⟩

theorem osStat_osRemove_self (fs : FS) (p : GoString) : osStat (osRemove fs p) p = false := by
  have := osStat_osRemove fs p p
  cases h : osStat (osRemove fs p) p
  · rfl
  · exact absurd rfl (this.mp h).2

theorem osStat_removeIfPresent (fs : FS) (p q : GoString) :
    osStat (removeIfPresent fs p) q = true ↔ osStat fs q = true ∧ q ≠ p := by
  rw [removeIfPresent_eq]; exact osStat_osRemove fs p q

theorem osStat_foldl_removeIfPresent (l : List GoString) (fs : FS) (q : GoString) :
    osStat (l.foldl removeIfPresent fs) q = true ↔ osStat fs q = true ∧ q ∉ l := by
  induction l generalizing fs with
  | nil => simp
  | cons a l ih =>
    simp only [List.foldl_cons, ih, osStat_removeIfPresent, List.mem_cons, not_or]
    tauto

theorem mem_osRemove (fs : FS) (p : GoString) (f : FileEntry) :
    f ∈ osRemove fs p ↔ f ∈ fs ∧ f.Path ≠ p := by
  simp [osRemove]

theorem mem_foldl_removeIfPresent (l : List GoString) (fs : FS) (f : FileEntry) :
    f ∈ l.foldl removeIfPresent fs ↔ f ∈ fs ∧ f.Path ∉ l := by
  induction l generalizing fs with
  | nil => simp
  | cons a l ih =>
    simp only [List.foldl_cons, ih, removeIfPresent_eq, mem_osRemove, List.mem_cons, not_or]
    tauto

/-! ## Path lemmas -/

theorem go_dot : go "." = [46] := by decide
theorem go_dotdot : go ".." = [46, 46] := by decide
theorem go_meta : go ".meta" = [46, 109, 101, 116, 97] := by decide
theorem go_file : go "file." = [102, 105, 108, 101, 46] := by decide

theorem splitSlash_ne_nil (s : GoString) : splitSlash s ≠ [] := by
  cases s with
  | nil => simp [splitSlash]
  | cons c cs =>
    simp only [splitSlash]
    split
    · simp
    · split <;> simp

theorem splitSlash_append_slash (a b : GoString) :
    splitSlash (a ++ slash :: b) = splitSlash a ++ splitSlash b := by
  induction a with
  | nil => simp [splitSlash]
  | cons c cs ih =>
    simp only [List.cons_append, splitSlash, List.append_eq]
    split
    · simp [ih]
    · rw [ih]
      cases h : splitSlash cs with
      | nil => exact absurd h (splitSlash_ne_nil cs)
      | cons x xs => simp

theorem splitSlash_of_not_mem (s : GoString) (h : slash ∉ s) : splitSlash s = [s] := by
  induction s with
  | nil => simp [splitSlash]
  | cons c cs ih =>
    simp only [List.mem_cons, not_or] at h
    simp only [splitSlash]
    rw [if_neg (fun e => h.1 e.symm), ih h.2]

theorem splitSlash_slashfree (s : GoString) : ∀ c ∈ splitSlash s, slash ∉ c := by
  induction s with
  | nil => simp [splitSlash]
  | cons c cs ih =>
    simp only [splitSlash]
    split
    · intro x hx
      simp only [List.mem_cons] at hx
      rcases hx with rfl | hx
      · simp
      · exact ih x hx
    · rename_i hc
      cases h : splitSlash cs with
      | nil => exact absurd h (splitSlash_ne_nil cs)
      | cons x xs =>
        rw [h] at ih
        intro y hy
        simp only [List.mem_cons] at hy
        rcases hy with rfl | hy
        · simp only [List.mem_cons, not_or]
          exact ⟨fun e => hc e.symm, ih x (by simp)⟩
        · exact ih y (by simp [hy])

theorem splitSlash_joinSlash (cs : List GoString) (hne : cs ≠ []) (h : ∀ c ∈ cs, slash ∉ c) :
    splitSlash (joinSlash cs) = cs := by
  induction cs with
  | nil => exact absurd rfl hne
  | cons c cs ih =>
    cases cs with
    | nil => simpa [joinSlash] using splitSlash_of_not_mem c (h c (by simp))
    | cons d ds =>
      simp only [joinSlash]
      rw [splitSlash_append_slash, splitSlash_of_not_mem c (h c (by simp)),
        ih (by simp) (fun x hx => h x (by simp [hx]))]
      simp

theorem joinSlash_append_singleton (cs : List GoString) (hne : cs ≠ []) (x : GoString) :
    joinSlash (cs ++ [x]) = joinSlash cs ++ slash :: x := by
  induction cs with
  | nil => exact absurd rfl hne
  | cons c cs ih =>
    cases cs with
    | nil => simp [joinSlash]
    | cons d ds =>
      have := ih (by simp)
      simp only [List.cons_append, joinSlash, List.append_eq] at this ⊢
      rw [this]; simp

theorem cleanStep_canon (r : Bool) (S : List GoString) (c : GoString) (hc : slash ∉ c)
    (hS : CanonStack r S) : CanonStack r (cleanStep r S c) := by
  unfold cleanStep
  split
  · exact hS
  · rename_i h1
    simp only [not_or] at h1
    split
    · rename_i h2
      cases S with
      | nil =>
        cases r with
        | true => simp [CanonStack]
        | false =>
          simp only [Bool.false_eq_true, if_false]
          exact ⟨h1.1, h1.2, hc, fun _ => ⟨rfl, Or.inl rfl⟩, trivial⟩
      | cons top below =>
        simp only
        split
        · rename_i h3
          refine ⟨h1.1, h1.2, hc, fun _ => ⟨?_, Or.inr (by simp [h3])⟩, hS⟩
          exact (hS.2.2.2.1 h3).1
        · exact hS.2.2.2.2
    · rename_i h2
      exact ⟨h1.1, h1.2, hc, fun e => absurd e h2, hS⟩

theorem foldl_cleanStep_canon (r : Bool) (l : List GoString) (S : List GoString)
    (hl : ∀ c ∈ l, slash ∉ c) (hS : CanonStack r S) :
    CanonStack r (l.foldl (cleanStep r) S) := by
  induction l generalizing S with
  | nil => exact hS
  | cons c l ih =>
    exact ih _ (fun x hx => hl x (by simp [hx])) (cleanStep_canon r S c (hl c (by simp)) hS)

theorem cleanStep_replay (r : Bool) (S : List GoString) (c : GoString)
    (h : CanonStack r (c :: S)) : cleanStep r S c = c :: S := by
  obtain ⟨h1, h2, _, h4, _⟩ := h
  unfold cleanStep
  rw [if_neg (by simp [h1, h2])]
  split
  · rename_i hdd
    obtain ⟨hr, hS⟩ := h4 hdd
    cases S with
    | nil => simp [hr]
    | cons top below =>
      rcases hS with hS | hS
      · exact absurd hS (by simp)
      · simp only [List.head?_cons, Option.some.injEq] at hS
        simp [hS]
  · rfl

theorem foldl_cleanStep_replay (r : Bool) (S : List GoString) (h : CanonStack r S) :
    S.reverse.foldl (cleanStep r) [] = S := by
  induction S with
  | nil => rfl
  | cons c S ih =>
    rw [List.reverse_cons, List.foldl_append, ih h.2.2.2.2]
    simpa using cleanStep_replay r S c h

theorem canonStack_mem (r : Bool) (S : List GoString) (h : CanonStack r S) :
    ∀ c ∈ S, c ≠ [] ∧ slash ∉ c := by
  induction S with
  | nil => simp
  | cons c S ih =>
    intro x hx
    simp only [List.mem_cons] at hx
    rcases hx with rfl | hx
    · exact ⟨h.1, h.2.2.1⟩
    · exact ih h.2.2.2.2 x hx

theorem joinSlash_head (cs : List GoString) (hne : cs ≠ [])
    (h : ∀ c ∈ cs, c ≠ [] ∧ slash ∉ c) :
    joinSlash cs ≠ [] ∧ (joinSlash cs).head? ≠ some slash := by
  cases cs with
  | nil => exact absurd rfl hne
  | cons c cs =>
    obtain ⟨hc1, hc2⟩ := h c (by simp)
    cases c with
    | nil => exact absurd rfl hc1
    | cons b bs =>
      simp only [List.mem_cons, not_or] at hc2
      cases cs with
      | nil =>
        simp only [joinSlash, List.head?_cons, ne_eq, Option.some.injEq]
        exact ⟨by simp, fun e => hc2.1 e.symm⟩
      | cons d ds =>
        simp only [joinSlash, List.cons_append, List.head?_cons, ne_eq, Option.some.injEq]
        exact ⟨by simp, fun e => hc2.1 e.symm⟩

theorem filepathClean_render (r : Bool) (T : List GoString) (hT : CanonStack r T)
    (hne : T ≠ []) : filepathClean (render r T) = render r T := by
  have hmem : ∀ c ∈ T.reverse, c ≠ [] ∧ slash ∉ c := fun c hc =>
    canonStack_mem r T hT c (by simpa using hc)
  have hrne : T.reverse ≠ [] := by simpa using hne
  obtain ⟨hj1, hj2⟩ := joinSlash_head T.reverse hrne hmem
  have hsplit := splitSlash_joinSlash T.reverse hrne (fun c hc => (hmem c hc).2)
  cases r with
  | true =>
    simp only [render, if_true, List.singleton_append]
    unfold filepathClean
    simp only [List.head?_cons, beq_self_eq_true, if_true]
    rw [if_neg (by simp)]
    simp only [splitSlash, if_true, List.foldl_cons]
    rw [hsplit]
    have : cleanStep true [] [] = [] := by simp [cleanStep]
    rw [this, foldl_cleanStep_replay true T hT]
  | false =>
    simp only [render, Bool.false_eq_true, if_false, List.nil_append]
    unfold filepathClean
    rw [if_neg hj1]
    have hh : ((joinSlash T.reverse).head? == some slash) = false := by
      simpa using hj2
    simp only [hh, Bool.false_eq_true, if_false]
    rw [hsplit, foldl_cleanStep_replay false T hT, if_neg hj1]

theorem render_cons (r : Bool) (S : List GoString) :
    ∃ pre : GoString, ∀ x : GoString, render r (x :: S) = pre ++ x := by
  by_cases hS : S.reverse = []
  · refine ⟨if r then [slash] else [], fun x => ?_⟩
    simp [render, hS, joinSlash]
  · refine ⟨(if r then [slash] else []) ++ joinSlash S.reverse ++ [slash], fun x => ?_⟩
    simp only [render, List.reverse_cons]
    rw [joinSlash_append_singleton _ hS]
    simp

theorem filepathJoin_dir_name (dir name : GoString) (h1 : name ≠ []) (h2 : name ≠ go ".")
    (h3 : name ≠ go "..") (h4 : slash ∉ name) :
    ∃ r S, CanonStack r S ∧ filepathJoin [dir, name] = render r (name :: S) := by
  cases dir with
  | nil =>
    refine ⟨false, [], trivial, ?_⟩
    have hc : CanonStack false [name] := ⟨h1, h2, h4, fun e => absurd e h3, trivial⟩
    have hj : filepathJoin [[], name] = filepathClean name := by
      cases name with
      | nil => exact absurd rfl h1
      | cons b bs => simp [filepathJoin, List.dropWhile, joinSlash]
    rw [hj]
    have := filepathClean_render false [name] hc (by simp)
    simpa [render, joinSlash] using this
  | cons d ds =>
    let r : Bool := (d :: ds).head? == some slash
    let S := (splitSlash (d :: ds)).foldl (cleanStep r) []
    have hS : CanonStack r S :=
      foldl_cleanStep_canon r _ [] (splitSlash_slashfree (d :: ds)) trivial
    have hc : CanonStack r (name :: S) := ⟨h1, h2, h4, fun e => absurd e h3, hS⟩
    refine ⟨r, S, hS, ?_⟩
    have hj : filepathJoin [d :: ds, name] = filepathClean ((d :: ds) ++ slash :: name) := by
      simp [filepathJoin, List.dropWhile, joinSlash]
    rw [hj]
    have hmem : ∀ c ∈ (name :: S).reverse, c ≠ [] ∧ slash ∉ c := fun c hc1 =>
      canonStack_mem r _ hc c (List.mem_reverse.mp hc1)
    obtain ⟨hb1, _⟩ := joinSlash_head (name :: S).reverse (by simp) hmem
    unfold filepathClean
    rw [if_neg (by simp)]
    have hr : ((d :: ds ++ slash :: name).head? == some slash) = r := by simp [r]
    simp only [hr, splitSlash_append_slash, List.foldl_append,
      splitSlash_of_not_mem name h4, List.foldl_cons, List.foldl_nil]
    have hstep : cleanStep r (List.foldl (cleanStep r) [] (splitSlash (d :: ds))) name
        = name :: S := cleanStep_replay r S name hc
    rw [hstep]
    cases hrr : r with
    | true => simp [render]
    | false =>
      simp only [Bool.false_eq_true, if_false, render, List.nil_append]
      rw [if_neg hb1]

theorem isDigit_ne_slash (b : UInt8) (h : isDigit b = true) : b ≠ slash := by
  intro e
  subst e
  revert h
  decide

theorem digitChar_isDigit (d : Nat) (h : d < 10) :
    isDigit ((Nat.digitChar d).toNat.toUInt8) = true := by
  interval_cases d <;> decide

theorem toDigitsCore_digits (fuel n : Nat) (acc : List Char)
    (hacc : ∀ c ∈ acc, isDigit (c.toNat.toUInt8) = true) :
    ∀ c ∈ Nat.toDigitsCore 10 fuel n acc, isDigit (c.toNat.toUInt8) = true := by
  induction fuel generalizing n acc with
  | zero => simpa [Nat.toDigitsCore] using hacc
  | succ k ih =>
    have hd := digitChar_isDigit (n % 10) (Nat.mod_lt _ (by decide))
    have hacc2 : ∀ c ∈ Nat.digitChar (n % 10) :: acc, isDigit (c.toNat.toUInt8) = true := by
      intro c hc
      simp only [List.mem_cons] at hc
      rcases hc with rfl | hc
      · exact hd
      · exact hacc c hc
    simp only [Nat.toDigitsCore]
    split
    · exact hacc2
    · exact ih _ _ hacc2

theorem toDigitsCore_ne_nil (fuel n : Nat) (acc : List Char) :
    Nat.toDigitsCore 10 (fuel + 1) n acc ≠ [] := by
  induction fuel generalizing n acc with
  | zero => simp [Nat.toDigitsCore]
  | succ k ih =>
    rw [Nat.toDigitsCore]
    split
    · simp
    · exact ih _ _

theorem fmtUint_digits (n : Nat) : ∀ b ∈ fmtUint n, isDigit b = true := by
  intro b hb
  simp only [fmtUint, List.mem_map] at hb
  obtain ⟨c, hc, rfl⟩ := hb
  exact toDigitsCore_digits _ _ [] (by simp) c hc

theorem fmtUint_ne_nil (n : Nat) : fmtUint n ≠ [] := by
  simp only [fmtUint, ne_eq, List.map_eq_nil_iff]
  exact toDigitsCore_ne_nil n n []

theorem anySuffix_of_here (p : GoString → Bool) (s : GoString) (h : p s = true) :
    anySuffix p s = true := by
  cases s with
  | nil => simpa [anySuffix] using h
  | cons c cs => simp [anySuffix, h]

theorem anySuffix_append (p : GoString → Bool) (a b : GoString) (h : p b = true) :
    anySuffix p (a ++ b) = true := by
  induction a with
  | nil => exact anySuffix_of_here p b h
  | cons c cs ih => simp [anySuffix, ih]

theorem v1Name_normal (n : Nat) (ext : GoString) (hext : slash ∉ ext) :
    let name := go "file." ++ fmtUint n ++ ext
    name ≠ [] ∧ name ≠ go "." ∧ name ≠ go ".." ∧ slash ∉ name := by
  have hd : slash ∉ fmtUint n := fun hm => isDigit_ne_slash _ (fmtUint_digits n _ hm) rfl
  have hs : slash ∉ go "file." := by decide
  refine ⟨?_, ?_, ?_, ?_⟩
  · simp [go_file]
  · simp [go_file, go_dot]
  · simp [go_file, go_dotdot]
  · simp only [List.mem_append, not_or]
    exact ⟨⟨hs, hd⟩, hext⟩

theorem matchV1Here_v1Name (n : Nat) : matchV1Here (go "file." ++ fmtUint n) = true := by
  have h5 : (go "file." ++ fmtUint n).drop 5 = fmtUint n := by simp [go_file]
  have hp : (go "file.").isPrefixOf (go "file." ++ fmtUint n) = true := by
    simp [go_file, List.isPrefixOf]
  simp only [matchV1Here, h5, hp, Bool.true_and, Bool.and_eq_true, Bool.not_eq_true',
    List.all_eq_true]
  refine ⟨?_, fmtUint_digits n⟩
  cases h : fmtUint n with
  | nil => exact absurd h (fmtUint_ne_nil n)
  | cons b bs => rfl

theorem droppedFileV1Reg_v1Path (dir : GoString) (n : Nat) :
    droppedFileV1Reg (filepathJoin [dir, go "file." ++ fmtUint n]) = true := by
  obtain ⟨h1, h2, h3, h4⟩ := v1Name_normal n [] (by simp)
  simp only [List.append_nil] at h1 h2 h3 h4
  obtain ⟨r, S, _, hj⟩ := filepathJoin_dir_name dir _ h1 h2 h3 h4
  obtain ⟨pre, hpre⟩ := render_cons r S
  rw [hj, hpre]
  exact anySuffix_append _ _ _ (matchV1Here_v1Name n)

theorem metaFile_v1Path (dir : GoString) (n : Nat) :
    filepathJoin [filepathJoin [dir, go "file." ++ fmtUint n] ++ go ".meta"]
      = filepathJoin [dir, go "file." ++ fmtUint n] ++ go ".meta" := by
  obtain ⟨h1, h2, h3, h4⟩ := v1Name_normal n [] (by simp)
  simp only [List.append_nil] at h1 h2 h3 h4
  obtain ⟨g1, g2, g3, g4⟩ := v1Name_normal n (go ".meta") (by decide)
  obtain ⟨r, S, hS, hj⟩ := filepathJoin_dir_name dir _ h1 h2 h3 h4
  obtain ⟨pre, hpre⟩ := render_cons r S
  have hc : CanonStack r ((go "file." ++ fmtUint n ++ go ".meta") :: S) :=
    ⟨g1, g2, g4, fun e => absurd e g3, hS⟩
  have hne : filepathJoin [dir, go "file." ++ fmtUint n] ++ go ".meta" ≠ [] := by
    simp [go_meta]
  have hp : filepathJoin [dir, go "file." ++ fmtUint n] ++ go ".meta"
      = render r ((go "file." ++ fmtUint n ++ go ".meta") :: S) := by
    rw [hj, hpre, hpre]; simp
  have hjoin : ∀ x : GoString, x ≠ [] → filepathJoin [x] = filepathClean x := by
    intro x hx
    cases x with
    | nil => exact absurd rfl hx
    | cons b bs => simp [filepathJoin, List.dropWhile, joinSlash]
  rw [hjoin _ hne, hp]
  exact filepathClean_render r _ hc (by simp)

/-! ## Joining names onto a clean directory -/

theorem render_cons_of_ne_nil (r : Bool) (S : List GoString) (hS : S ≠ []) (x : GoString) :
    render r (x :: S) = render r S ++ slash :: x := by
  have hr : S.reverse ≠ [] := by simpa using hS
  simp only [render, List.reverse_cons]
  rw [joinSlash_append_singleton _ hr]
  simp

theorem clean_dir_is_render (dir : GoString) (hclean : filepathClean dir = dir)
    (hroot : dir ≠ [slash]) (hdot : dir ≠ go ".") :
    ∃ r S, CanonStack r S ∧ S ≠ [] ∧ dir = render r S := by
  have hne : dir ≠ [] := by
    intro h
    rw [h] at hclean
    simp [filepathClean, go_dot] at hclean
  let r : Bool := dir.head? == some slash
  let S := (splitSlash dir).foldl (cleanStep r) []
  have hS : CanonStack r S := foldl_cleanStep_canon r _ [] (splitSlash_slashfree dir) trivial
  have hc : filepathClean dir
      = if r then slash :: joinSlash S.reverse
        else if joinSlash S.reverse = [] then go "." else joinSlash S.reverse := by
    simp only [filepathClean, hne, if_false]
  rw [hc] at hclean
  refine ⟨r, S, hS, ?_, ?_⟩
  · intro hnil
    rw [hnil] at hclean
    cases hr : r with
    | true =>
      simp only [hr, if_true, List.reverse_nil, joinSlash] at hclean
      exact hroot hclean.symm
    | false =>
      simp only [hr, Bool.false_eq_true, if_false, List.reverse_nil, joinSlash, if_true] at hclean
      exact hdot hclean.symm
  · cases hr : r with
    | true =>
      simp only [hr, if_true] at hclean
      simp only [render, if_true, List.singleton_append]
      exact hclean.symm
    | false =>
      simp only [hr, Bool.false_eq_true, if_false] at hclean
      simp only [render, Bool.false_eq_true, if_false, List.nil_append]
      by_cases hb : joinSlash S.reverse = []
      · rw [if_pos hb] at hclean
        exact absurd hclean.symm hdot
      · rw [if_neg hb] at hclean
        exact hclean.symm

theorem isHex_ne_slash (b : UInt8) (h : isHex b = true) : b ≠ slash := by
  intro e
  subst e
  revert h
  decide

theorem isHex_ne_dot (b : UInt8) (h : isHex b = true) : b ≠ 46 := by
  intro e
  subst e
  revert h
  decide

theorem hexName_normal (name : GoString) (hne : name ≠ []) (hhex : ∀ b ∈ name, isHex b = true) :
    name ≠ [] ∧ name ≠ go "." ∧ name ≠ go ".." ∧ slash ∉ name := by
  refine ⟨hne, ?_, ?_, ?_⟩
  · intro h
    rw [h, go_dot] at hhex
    exact isHex_ne_dot 46 (hhex 46 (by simp)) rfl
  · intro h
    rw [h, go_dotdot] at hhex
    exact isHex_ne_dot 46 (hhex 46 (by simp)) rfl
  · intro h
    exact isHex_ne_slash slash (hhex slash h) rfl

/-- On a clean directory other than `/` and `.`, joining two names of hex
digits gives the directory and the names separated by `/`. -/
theorem filepathJoin_hex_names (dir a b : GoString) (hclean : filepathClean dir = dir)
    (hroot : dir ≠ [slash]) (hdot : dir ≠ go ".")
    (ha : a ≠ []) (hahex : ∀ x ∈ a, isHex x = true)
    (hb : b ≠ []) (hbhex : ∀ x ∈ b, isHex x = true) :
    filepathJoin [dir, a, b] = dir ++ slash :: a ++ slash :: b := by
  obtain ⟨r, S, hS, hSne, hdir⟩ := clean_dir_is_render dir hclean hroot hdot
  obtain ⟨a1, a2, a3, a4⟩ := hexName_normal a ha hahex
  obtain ⟨b1, b2, b3, b4⟩ := hexName_normal b hb hbhex
  have hca : CanonStack r (a :: S) := ⟨a1, a2, a4, fun e => absurd e a3, hS⟩
  have hcb : CanonStack r (b :: a :: S) := ⟨b1, b2, b4, fun e => absurd e b3, hca⟩
  have hdne : dir ≠ [] := by
    intro h
    rw [h] at hclean
    simp [filepathClean, go_dot] at hclean
  have hj : filepathJoin [dir, a, b] = filepathClean (dir ++ slash :: a ++ slash :: b) := by
    cases dir with
    | nil => exact absurd rfl hdne
    | cons d ds => simp [filepathJoin, List.dropWhile, joinSlash]
  have hrender : render r (b :: a :: S) = dir ++ slash :: a ++ slash :: b := by
    rw [render_cons_of_ne_nil r (a :: S) (by simp) b, render_cons_of_ne_nil r S hSne a, ← hdir]
  rw [hj, ← hrender]
  exact filepathClean_render r _ hcb (by simp)

/-- On a clean directory other than `/` and `.`, joining a name gives the
directory and the name separated by `/`. -/
theorem filepathJoin_clean_name (dir name : GoString) (hclean : filepathClean dir = dir)
    (hroot : dir ≠ [slash]) (hdot : dir ≠ go ".")
    (h1 : name ≠ []) (h2 : name ≠ go ".") (h3 : name ≠ go "..") (h4 : slash ∉ name) :
    filepathJoin [dir, name] = dir ++ slash :: name := by
  obtain ⟨r, S, hS, hSne, hdir⟩ := clean_dir_is_render dir hclean hroot hdot
  have hc : CanonStack r (name :: S) := ⟨h1, h2, h4, fun e => absurd e h3, hS⟩
  have hdne : dir ≠ [] := by
    intro h
    rw [h] at hclean
    simp [filepathClean, go_dot] at hclean
  have hj : filepathJoin [dir, name] = filepathClean (dir ++ slash :: name) := by
    cases dir with
    | nil => exact absurd rfl hdne
    | cons d ds => simp [filepathJoin, List.dropWhile, joinSlash]
  have hrender : render r (name :: S) = dir ++ slash :: name := by
    rw [render_cons_of_ne_nil r S hSne name, ← hdir]
  rw [hj, ← hrender]
  exact filepathClean_render r _ hc (by simp)

/-! ## `DeleteFileSet` -/

theorem V1_ne_V2 : V1 ≠ V2 := by decide

theorem DeleteFileSet_V1_match (glob : GlobFn) (fs : FS) (p : GoString)
    (h : droppedFileV1Reg p = true) :
    DeleteFileSet glob fs p V1
      = some (none, osRemove (osRemove fs p) (filepathJoin [p ++ go ".meta"])) := by
  simp [DeleteFileSet, h, removeIfPresent_eq]

theorem DeleteFileSet_V2_match (glob : GlobFn) (fs : FS) (p : GoString)
    (h : droppedFileV2Reg p = true) :
    DeleteFileSet glob fs p V2
      = some (none, match glob (osRemove fs p) (p ++ go ".*.json") with
          | some metaFiles => metaFiles.foldl removeIfPresent (osRemove fs p)
          | none => osRemove fs p) := by
  have h21 : ¬ (V2 = V1) := fun e => V1_ne_V2 e.symm
  simp only [DeleteFileSet, h21, if_false, if_true, h, Bool.not_true, Bool.false_eq_true,
    removeIfPresent_eq]
  cases glob (osRemove fs p) (p ++ go ".*.json") <;> rfl

theorem DeleteFileSet_V2_nomatch (glob : GlobFn) (fs : FS) (p : GoString)
    (h : droppedFileV2Reg p = false) : DeleteFileSet glob fs p V2 = some (none, fs) := by
  have h21 : ¬ (V2 = V1) := fun e => V1_ne_V2 e.symm
  simp [DeleteFileSet, h21, h]

/-! ## The line handler, case by case -/

theorem handleLine_eq (unmarshalAny : GoString → Option JSONValue)
    (unmarshalMessage : GoString → Option socketMessage) (glob : GlobFn)
    (st : Ingest) (line : GoString) (fullMsg : JSONValue) (m : socketMessage)
    (hfull : unmarshalAny line = some fullMsg) (hmsg : unmarshalMessage line = some m) :
    handleLine unmarshalAny unmarshalMessage glob st line = handleMessage glob st fullMsg m := by
  simp [handleLine, hfull, hmsg]

theorem handleMessage_V1_disallowed (glob : GlobFn) (st : Ingest) (fullMsg : JSONValue)
    (m : socketMessage) (hev : m.EventType = go "fileinfo")
    (hmagic : AllowedMagicPattern m.FileInfo.Magic = false) (hver : st.si.StoreVersion = V1) :
    handleMessage glob st fullMsg m = some
      { si := st.si,
        fs := osRemove
          (osRemove st.fs (filepathJoin [st.si.FileDir, go "file." ++ fmtUint m.FileInfo.FileID]))
          (filepathJoin [st.si.FileDir, go "file." ++ fmtUint m.FileInfo.FileID]
            ++ go ".meta") } := by
  simp only [handleMessage, hev, if_true, hver, hmagic, Bool.not_false,
    DeleteFileSet_V1_match _ _ _ (droppedFileV1Reg_v1Path _ _), metaFile_v1Path]

theorem handleMessage_V2_disallowed_match (glob : GlobFn) (st : Ingest) (fullMsg : JSONValue)
    (m : socketMessage) (hev : m.EventType = go "fileinfo")
    (hmagic : AllowedMagicPattern m.FileInfo.Magic = false) (hver : st.si.StoreVersion = V2)
    (hst : m.FileInfo.Stored = true) (hlen : m.FileInfo.Sha256.length > 2)
    (hpat : droppedFileV2Reg
      (filepathJoin [st.si.FileDir, m.FileInfo.Sha256.take 2, m.FileInfo.Sha256]) = true) :
    handleMessage glob st fullMsg m = some
      { si := st.si,
        fs := match glob
            (osRemove st.fs
              (filepathJoin [st.si.FileDir, m.FileInfo.Sha256.take 2, m.FileInfo.Sha256]))
            (filepathJoin [st.si.FileDir, m.FileInfo.Sha256.take 2, m.FileInfo.Sha256]
              ++ go ".*.json") with
          | some metaFiles => metaFiles.foldl removeIfPresent
              (osRemove st.fs
                (filepathJoin [st.si.FileDir, m.FileInfo.Sha256.take 2, m.FileInfo.Sha256]))
          | none => osRemove st.fs
              (filepathJoin [st.si.FileDir, m.FileInfo.Sha256.take 2, m.FileInfo.Sha256]) } := by
  have h21 : ¬ (V2 = V1) := fun e => V1_ne_V2 e.symm
  simp only [handleMessage, hev, if_true, hver, h21, if_false, hmagic, Bool.not_false, hst,
    hlen, decide_True, Bool.and_self, DeleteFileSet_V2_match _ _ _ hpat]

theorem handleMessage_V2_disallowed_nomatch (glob : GlobFn) (st : Ingest) (fullMsg : JSONValue)
    (m : socketMessage) (hev : m.EventType = go "fileinfo")
    (hmagic : AllowedMagicPattern m.FileInfo.Magic = false) (hver : st.si.StoreVersion = V2)
    (hst : m.FileInfo.Stored = true) (hlen : m.FileInfo.Sha256.length > 2)
    (hpat : droppedFileV2Reg
      (filepathJoin [st.si.FileDir, m.FileInfo.Sha256.take 2, m.FileInfo.Sha256]) = false) :
    handleMessage glob st fullMsg m = some st := by
  have h21 : ¬ (V2 = V1) := fun e => V1_ne_V2 e.symm
  simp only [handleMessage, hev, if_true, hver, h21, if_false, hmagic, Bool.not_false, hst,
    hlen, decide_True, Bool.and_self, DeleteFileSet_V2_nomatch _ _ _ hpat]

theorem osStat_false_of (fs : FS) (p : GoString) (h : ¬ osStat fs p = true) :
    osStat fs p = false := by
  simpa using h

/-! ## Socket ingest: claims C1 to C4 -/

/-- C1 (as stated, refuted): a V2 fileinfo line with `stored = true`, a digest
of three characters and a magic that is not allowed is acted on, yet its
payload `/tmp/files/ab/abc` is still on disk after the line is processed,
because `DeleteFileSet` skips a path that does not look like a V2 payload. -/
theorem C1_counterexample_short_digest :
    testIngestV2.si.StoreVersion = V2 ∧
    (testMessage true (go "Zorgo-Boink V5") (go "abc")).FileInfo.Stored = true ∧
    (testMessage true (go "Zorgo-Boink V5") (go "abc")).FileInfo.Sha256.length > 2 ∧
    AllowedMagicPattern (go "Zorgo-Boink V5") = false ∧
    filepathJoin [testIngestV2.si.FileDir, (go "abc").take 2, go "abc"]
      = go "/tmp/files/ab/abc" ∧
    osStat testIngestV2.fs (go "/tmp/files/ab/abc") = true ∧
    (handleLine (decodeOnly testLine JSONValue.null)
        (decodeOnly testLine (testMessage true (go "Zorgo-Boink V5") (go "abc")))
        sidecarGlob testIngestV2 testLine).map
      (fun st => osStat st.fs (go "/tmp/files/ab/abc")) = some true := by
  decide

/-- C1 (amended): for a fileinfo line whose magic is not allowed, no event is
enqueued (the socket input is unchanged); under V1 the payload
`<fileDir>/file.<file_id>` and `<payload>.meta` are absent afterwards; under V2
with `stored = true` and `len(sha256) > 2`, when the payload path matches the
V2 payload pattern, the payload and every file `filepath.Glob` reports for
`<payload>.*.json` are absent afterwards, and when it does not match the
filestore is left as it was. -/
theorem C1_disallowed_magic_deletes_file_set
    (unmarshalAny : GoString → Option JSONValue)
    (unmarshalMessage : GoString → Option socketMessage) (glob : GlobFn)
    (st : Ingest) (line : GoString) (fullMsg : JSONValue) (m : socketMessage)
    (hfull : unmarshalAny line = some fullMsg) (hmsg : unmarshalMessage line = some m)
    (hev : m.EventType = go "fileinfo")
    (hmagic : AllowedMagicPattern m.FileInfo.Magic = false) :
    (st.si.StoreVersion = V1 →
      ∃ st1, handleLine unmarshalAny unmarshalMessage glob st line = some st1 ∧
        st1.si = st.si ∧
        osStat st1.fs (filepathJoin [st.si.FileDir, go "file." ++ fmtUint m.FileInfo.FileID])
          = false ∧
        osStat st1.fs
          (filepathJoin [st.si.FileDir, go "file." ++ fmtUint m.FileInfo.FileID] ++ go ".meta")
          = false) ∧
    (st.si.StoreVersion = V2 → m.FileInfo.Stored = true → m.FileInfo.Sha256.length > 2 →
      droppedFileV2Reg
        (filepathJoin [st.si.FileDir, m.FileInfo.Sha256.take 2, m.FileInfo.Sha256]) = true →
      ∃ st1, handleLine unmarshalAny unmarshalMessage glob st line = some st1 ∧
        st1.si = st.si ∧
        osStat st1.fs
          (filepathJoin [st.si.FileDir, m.FileInfo.Sha256.take 2, m.FileInfo.Sha256]) = false ∧
        ∀ metaFiles,
          glob (removeIfPresent st.fs
              (filepathJoin [st.si.FileDir, m.FileInfo.Sha256.take 2, m.FileInfo.Sha256]))
            (filepathJoin [st.si.FileDir, m.FileInfo.Sha256.take 2, m.FileInfo.Sha256]
              ++ go ".*.json") = some metaFiles →
          ∀ x ∈ metaFiles, osStat st1.fs x = false) ∧
    (st.si.StoreVersion = V2 → m.FileInfo.Stored = true → m.FileInfo.Sha256.length > 2 →
      droppedFileV2Reg
        (filepathJoin [st.si.FileDir, m.FileInfo.Sha256.take 2, m.FileInfo.Sha256]) = false →
      handleLine unmarshalAny unmarshalMessage glob st line = some st) := by
  rw [handleLine_eq _ _ glob st line fullMsg m hfull hmsg]
  refine ⟨?_, ?_, ?_⟩
  · intro hver
    refine ⟨_, handleMessage_V1_disallowed glob st fullMsg m hev hmagic hver, rfl, ?_, ?_⟩
    · apply osStat_false_of
      intro h
      have h1 := ((osStat_osRemove _ _ _).mp h).1
      rw [osStat_osRemove_self] at h1
      exact absurd h1 (by simp)
    · exact osStat_osRemove_self _ _
  · intro hver hst hlen hpat
    refine ⟨_, handleMessage_V2_disallowed_match glob st fullMsg m hev hmagic hver hst hlen hpat,
      rfl, ?_, ?_⟩
    · apply osStat_false_of
      intro h
      simp only at h
      cases hg : glob _ _ with
      | none =>
        rw [hg] at h
        simp only [osStat_osRemove_self] at h
        exact absurd h (by simp)
      | some l =>
        rw [hg] at h
        have h1 := ((osStat_foldl_removeIfPresent _ _ _).mp h).1
        rw [osStat_osRemove_self] at h1
        exact absurd h1 (by simp)
    · intro metaFiles hg x hx
      rw [removeIfPresent_eq] at hg
      apply osStat_false_of
      intro h
      simp only [hg] at h
      exact ((osStat_foldl_removeIfPresent _ _ _).mp h).2 hx
  · intro hver hst hlen hpat
    exact handleMessage_V2_disallowed_nomatch glob st fullMsg m hev hmagic hver hst hlen hpat

/-- Witness of C1 (amended) on the input of `TestSocketInputNonInterestingV2`:
the magic `Zorgo-Boink V5` is not allowed, the payload path has the V2 shape,
and after the line the payload and the globbed sidecars are absent. -/
theorem C1_witness_non_interesting_v2 :
    AllowedMagicPattern (go "Zorgo-Boink V5") = false ∧
    droppedFileV2Reg testPayload = true ∧
    sidecarGlob (removeIfPresent testIngestV2.fs testPayload) (testPayload ++ go ".*.json")
      = some [testSidecar] ∧
    ∃ st1, handleLine (decodeOnly testLine JSONValue.null)
        (decodeOnly testLine (testMessage true (go "Zorgo-Boink V5") testSha256))
        sidecarGlob testIngestV2 testLine = some st1 ∧
      st1.si = testIngestV2.si ∧
      osStat st1.fs testPayload = false ∧
      ∀ metaFiles,
        sidecarGlob (removeIfPresent testIngestV2.fs testPayload)
          (testPayload ++ go ".*.json") = some metaFiles →
        ∀ x ∈ metaFiles, osStat st1.fs x = false :=
  ⟨by decide, by decide, by decide,
    (C1_disallowed_magic_deletes_file_set (decodeOnly testLine JSONValue.null)
      (decodeOnly testLine (testMessage true (go "Zorgo-Boink V5") testSha256))
      sidecarGlob testIngestV2 testLine JSONValue.null
      (testMessage true (go "Zorgo-Boink V5") testSha256)
      (by simp [decodeOnly]) (by simp [decodeOnly]) (by decide) (by decide)).2.1
      (by decide) (by decide) (by decide) (by decide)⟩

/-- C2: a V2 fileinfo line with `stored = true`, `len(sha256) > 2` and an
allowed magic enqueues exactly one event, of version V2, with the path
`filepath.Join(fileDir, sha256[:2], sha256)` and the decoded line as its JSON
message; the wait-group counter grows by one and the filestore is unchanged.
For a clean file directory other than `/` and `.` and a digest of hex digits
that path is `<fileDir>/<sha256[0:2]>/<sha256>` letter for letter. -/
theorem C2_v2_allowed_enqueues_one_event
    (unmarshalAny : GoString → Option JSONValue)
    (unmarshalMessage : GoString → Option socketMessage) (glob : GlobFn)
    (st : Ingest) (line : GoString) (fullMsg : JSONValue) (m : socketMessage)
    (hfull : unmarshalAny line = some fullMsg) (hmsg : unmarshalMessage line = some m)
    (hev : m.EventType = go "fileinfo") (hver : st.si.StoreVersion = V2)
    (hst : m.FileInfo.Stored = true) (hlen : m.FileInfo.Sha256.length > 2)
    (hmagic : AllowedMagicPattern m.FileInfo.Magic = true) :
    ∃ st1, handleLine unmarshalAny unmarshalMessage glob st line = some st1 ∧
      st1.si.EventChan = st.si.EventChan ++
        [{ StoreVersion := V2, JSONMessage := fullMsg, MetafileText := [],
           FilePath :=
             filepathJoin [st.si.FileDir, m.FileInfo.Sha256.take 2, m.FileInfo.Sha256] }] ∧
      st1.si.WaitGroup = st.si.WaitGroup + 1 ∧
      st1.si.StoreVersion = st.si.StoreVersion ∧ st1.si.FileDir = st.si.FileDir ∧
      st1.fs = st.fs ∧
      (filepathClean st.si.FileDir = st.si.FileDir → st.si.FileDir ≠ [slash] →
        st.si.FileDir ≠ go "." → (∀ b ∈ m.FileInfo.Sha256, isHex b = true) →
        filepathJoin [st.si.FileDir, m.FileInfo.Sha256.take 2, m.FileInfo.Sha256]
          = st.si.FileDir ++ slash :: m.FileInfo.Sha256.take 2 ++ slash :: m.FileInfo.Sha256) := by
  have h21 : ¬ (V2 = V1) := fun e => V1_ne_V2 e.symm
  rw [handleLine_eq _ _ glob st line fullMsg m hfull hmsg]
  refine ⟨Ingest.mk (st.si.send (FileInfoEvent.mk V2 fullMsg []
    (filepathJoin [st.si.FileDir, m.FileInfo.Sha256.take 2, m.FileInfo.Sha256]))) st.fs,
    ?_, rfl, rfl, rfl, rfl, rfl, ?_⟩
  · simp only [handleMessage, hev, if_true, hver, h21, if_false, hmagic, Bool.not_true, hst,
      hlen, decide_True, Bool.and_self, Bool.false_eq_true]
  · intro hclean hroot hdot hhex
    have hne : m.FileInfo.Sha256 ≠ [] := by
      intro h
      rw [h] at hlen
      simp at hlen
    have htake : m.FileInfo.Sha256.take 2 ≠ [] := by
      cases hs : m.FileInfo.Sha256 with
      | nil => exact absurd hs hne
      | cons x xs => simp
    exact filepathJoin_hex_names _ _ _ hclean hroot hdot htake
      (fun x hx => hhex x (List.mem_of_mem_take hx)) hne hhex

/-- Witness of C2 on the input of `TestSocketInputRegularV2`: one event with
the payload path of the test, and payload and sidecar still on disk. -/
theorem C2_witness_regular_v2 :
    filepathJoin [go "/tmp/files", testSha256.take 2, testSha256] = testPayload ∧
    ∃ st1, handleLine (decodeOnly testLine JSONValue.null)
        (decodeOnly testLine
          (testMessage true (go "PE32 executable (GUI) Intel 80386, for MS Windows") testSha256))
        sidecarGlob testIngestV2 testLine = some st1 ∧
      st1.si.EventChan = [] ++
        [{ StoreVersion := V2, JSONMessage := JSONValue.null, MetafileText := [],
           FilePath := filepathJoin [go "/tmp/files", testSha256.take 2, testSha256] }] ∧
      st1.si.WaitGroup = 0 + 1 ∧
      st1.si.StoreVersion = V2 ∧ st1.si.FileDir = go "/tmp/files" ∧
      st1.fs = testIngestV2.fs :=
  ⟨by decide,
   (C2_v2_allowed_enqueues_one_event (decodeOnly testLine JSONValue.null)
    (decodeOnly testLine
      (testMessage true (go "PE32 executable (GUI) Intel 80386, for MS Windows") testSha256))
    sidecarGlob testIngestV2 testLine JSONValue.null
    (testMessage true (go "PE32 executable (GUI) Intel 80386, for MS Windows") testSha256)
    (by simp [decodeOnly]) (by simp [decodeOnly]) (by decide) (by decide) (by decide)
    (by decide) (by decide)).imp
    (fun _ h => ⟨h.1, h.2.1, h.2.2.1, h.2.2.2.1, h.2.2.2.2.1, h.2.2.2.2.2.1⟩)⟩

/-- C3: a V2 line with `stored = false` or `len(sha256) <= 2` changes nothing,
whatever its magic: no event, no deletion, the same wait-group counter. -/
theorem C3_v2_not_stored_is_ignored
    (unmarshalAny : GoString → Option JSONValue)
    (unmarshalMessage : GoString → Option socketMessage) (glob : GlobFn)
    (st : Ingest) (line : GoString) (fullMsg : JSONValue) (m : socketMessage)
    (hfull : unmarshalAny line = some fullMsg) (hmsg : unmarshalMessage line = some m)
    (hver : st.si.StoreVersion = V2)
    (hskip : m.FileInfo.Stored = false ∨ m.FileInfo.Sha256.length ≤ 2) :
    handleLine unmarshalAny unmarshalMessage glob st line = some st := by
  have h21 : ¬ (V2 = V1) := fun e => V1_ne_V2 e.symm
  rw [handleLine_eq _ _ glob st line fullMsg m hfull hmsg]
  have hcond : (m.FileInfo.Stored && decide (m.FileInfo.Sha256.length > 2)) = false := by
    rcases hskip with h | h
    · simp [h]
    · simp [Nat.not_lt.mpr h]
  simp only [handleMessage, hver, h21, if_false, if_true, hcond, Bool.false_eq_true]
  split <;> rfl

/-- Witness of C3 on the input of `TestSocketInputNotStoredV2`. -/
theorem C3_witness_not_stored_v2 :
    handleLine (decodeOnly testLine JSONValue.null)
      (decodeOnly testLine (testMessage false (go "Zorgo-Boink V5") testSha256))
      sidecarGlob testIngestV2 testLine = some testIngestV2 :=
  C3_v2_not_stored_is_ignored (decodeOnly testLine JSONValue.null)
    (decodeOnly testLine (testMessage false (go "Zorgo-Boink V5") testSha256))
    sidecarGlob testIngestV2 testLine JSONValue.null
    (testMessage false (go "Zorgo-Boink V5") testSha256)
    (by simp [decodeOnly]) (by simp [decodeOnly]) (by decide) (Or.inl (by decide))

/-- C4: under V1, with payload path `p = filepath.Join(fileDir, "file.<file_id>")`:
a magic that is not allowed removes `p` and `p.meta` and nothing else and
enqueues nothing, whatever `stored` and `file_id` are; an allowed magic with
`stored = true` and `file_id > 0` enqueues exactly one V1 event with path `p`
and the decoded line and deletes nothing; an allowed magic otherwise changes
nothing. For a clean file directory other than `/` and `.`, `p` is
`<fileDir>/file.<file_id>` letter for letter. -/
theorem C4_v1_filter
    (unmarshalAny : GoString → Option JSONValue)
    (unmarshalMessage : GoString → Option socketMessage) (glob : GlobFn)
    (st : Ingest) (line : GoString) (fullMsg : JSONValue) (m : socketMessage)
    (hfull : unmarshalAny line = some fullMsg) (hmsg : unmarshalMessage line = some m)
    (hev : m.EventType = go "fileinfo") (hver : st.si.StoreVersion = V1) :
    (AllowedMagicPattern m.FileInfo.Magic = false →
      ∃ st1, handleLine unmarshalAny unmarshalMessage glob st line = some st1 ∧
        st1.si = st.si ∧
        osStat st1.fs (filepathJoin [st.si.FileDir, go "file." ++ fmtUint m.FileInfo.FileID])
          = false ∧
        osStat st1.fs
          (filepathJoin [st.si.FileDir, go "file." ++ fmtUint m.FileInfo.FileID] ++ go ".meta")
          = false ∧
        ∀ f, f ∈ st1.fs ↔ f ∈ st.fs ∧
          f.Path ≠ filepathJoin [st.si.FileDir, go "file." ++ fmtUint m.FileInfo.FileID] ∧
          f.Path ≠
            filepathJoin [st.si.FileDir, go "file." ++ fmtUint m.FileInfo.FileID] ++ go ".meta") ∧
    (AllowedMagicPattern m.FileInfo.Magic = true → m.FileInfo.Stored = true →
      m.FileInfo.FileID > 0 →
      ∃ st1, handleLine unmarshalAny unmarshalMessage glob st line = some st1 ∧
        st1.si.EventChan = st.si.EventChan ++
          [{ StoreVersion := V1, JSONMessage := fullMsg, MetafileText := [],
             FilePath :=
               filepathJoin [st.si.FileDir, go "file." ++ fmtUint m.FileInfo.FileID] }] ∧
        st1.si.WaitGroup = st.si.WaitGroup + 1 ∧
        st1.fs = st.fs) ∧
    (AllowedMagicPattern m.FileInfo.Magic = true →
      (m.FileInfo.Stored = false ∨ m.FileInfo.FileID = 0) →
      handleLine unmarshalAny unmarshalMessage glob st line = some st) ∧
    (filepathClean st.si.FileDir = st.si.FileDir → st.si.FileDir ≠ [slash] →
      st.si.FileDir ≠ go "." →
      filepathJoin [st.si.FileDir, go "file." ++ fmtUint m.FileInfo.FileID]
        = st.si.FileDir ++ slash :: (go "file." ++ fmtUint m.FileInfo.FileID)) := by
  rw [handleLine_eq _ _ glob st line fullMsg m hfull hmsg]
  refine ⟨?_, ?_, ?_, ?_⟩
  · intro hmagic
    refine ⟨_, handleMessage_V1_disallowed glob st fullMsg m hev hmagic hver, rfl, ?_, ?_, ?_⟩
    · apply osStat_false_of
      intro h
      have h1 := ((osStat_osRemove _ _ _).mp h).1
      rw [osStat_osRemove_self] at h1
      exact absurd h1 (by simp)
    · exact osStat_osRemove_self _ _
    · intro f
      simp only [mem_osRemove]
      tauto
  · intro hmagic hst hid
    refine ⟨Ingest.mk (st.si.send (FileInfoEvent.mk V1 fullMsg []
      (filepathJoin [st.si.FileDir, go "file." ++ fmtUint m.FileInfo.FileID]))) st.fs,
      ?_, rfl, rfl, rfl⟩
    simp only [handleMessage, hev, if_true, hver, hmagic, Bool.not_true, hst, hid,
      decide_True, Bool.and_self, Bool.false_eq_true, if_false]
  · intro hmagic hskip
    have hcond : (m.FileInfo.Stored && decide (m.FileInfo.FileID > 0)) = false := by
      rcases hskip with h | h
      · simp [h]
      · simp [h]
    simp only [handleMessage, hev, if_true, hver, hmagic, Bool.not_true, hcond,
      Bool.false_eq_true, if_false]
  · intro hclean hroot hdot
    obtain ⟨h1, h2, h3, h4⟩ := v1Name_normal m.FileInfo.FileID [] (by simp)
    simp only [List.append_nil] at h1 h2 h3 h4
    exact filepathJoin_clean_name _ _ hclean hroot hdot h1 h2 h3 h4

/-- Witness of C4: a V1 line for `file.23` with the magic `Zorgo-Boink V5`
removes `/tmp/files/file.23` and its metafile and leaves `file.24`. -/
theorem C4_witness_v1_disallowed :
    ∃ st1, handleLine (decodeOnly testLine JSONValue.null)
        (decodeOnly testLine (testMessage false (go "Zorgo-Boink V5") testSha256))
        sidecarGlob testIngestV1 testLine = some st1 ∧
      st1.si = testIngestV1.si ∧
      osStat st1.fs (filepathJoin [go "/tmp/files", go "file." ++ fmtUint 23]) = false ∧
      osStat st1.fs (filepathJoin [go "/tmp/files", go "file." ++ fmtUint 23] ++ go ".meta")
        = false ∧
      ∀ f, f ∈ st1.fs ↔ f ∈ testIngestV1.fs ∧
        f.Path ≠ filepathJoin [go "/tmp/files", go "file." ++ fmtUint 23] ∧
        f.Path ≠ filepathJoin [go "/tmp/files", go "file." ++ fmtUint 23] ++ go ".meta" :=
  (C4_v1_filter (decodeOnly testLine JSONValue.null)
    (decodeOnly testLine (testMessage false (go "Zorgo-Boink V5") testSha256))
    sidecarGlob testIngestV1 testLine JSONValue.null
    (testMessage false (go "Zorgo-Boink V5") testSha256)
    (by simp [decodeOnly]) (by simp [decodeOnly]) (by decide) (by decide)).1 (by decide)

/-! ## The analyzer loop -/

theorem pluginStep_calls (u : GoString → Option JSONValue) (sample : FileSample)
    (acc : LoopState) (p : AnalysisPlugin) :
    (pluginStep u sample acc p).calls = acc.calls ++ [Call.processFile p.Name sample] := by
  unfold pluginStep
  rcases p.ProcessFile sample with ⟨output, susp, err⟩
  cases err with
  | some e => rfl
  | none =>
    simp only
    by_cases ho : output = []
    · simp [ho]
    · simp only [ne_eq, ho, not_false_eq_true, if_true]
      cases u output <;> simp

theorem foldl_pluginStep_calls (u : GoString → Option JSONValue) (sample : FileSample)
    (plugins : List AnalysisPlugin) (acc : LoopState) :
    (plugins.foldl (pluginStep u sample) acc).calls
      = acc.calls ++ plugins.map (fun p => Call.processFile p.Name sample) := by
  induction plugins generalizing acc with
  | nil => simp
  | cons p ps ih => simp [List.foldl_cons, ih, pluginStep_calls]

theorem pluginStep_suspicious (u : GoString → Option JSONValue) (sample : FileSample)
    (acc : LoopState) (p : AnalysisPlugin) :
    (pluginStep u sample acc p).suspicious = (acc.suspicious || flagsFile u sample p) ∧
    (pluginStep u sample acc p).verdict.SuspiciousVia
      = acc.verdict.SuspiciousVia ++ (if flagsFile u sample p then [p.Name] else []) := by
  unfold pluginStep flagsFile
  rcases p.ProcessFile sample with ⟨output, susp, err⟩
  cases err with
  | some e => simp
  | none =>
    simp only
    by_cases ho : output = []
    · cases susp <;> cases hs : acc.suspicious <;> simp [ho, hs]
    · have hne : output.isEmpty = false := by cases output <;> simp_all
      simp only [ne_eq, ho, not_false_eq_true, if_true, hne]
      cases u output <;> cases susp <;> cases hs : acc.suspicious <;> simp [hs]

theorem foldl_pluginStep_suspicious (u : GoString → Option JSONValue) (sample : FileSample)
    (plugins : List AnalysisPlugin) (acc : LoopState) :
    (plugins.foldl (pluginStep u sample) acc).suspicious
      = (acc.suspicious || plugins.any (flagsFile u sample)) ∧
    (plugins.foldl (pluginStep u sample) acc).verdict.SuspiciousVia
      = acc.verdict.SuspiciousVia
        ++ (plugins.filter (flagsFile u sample)).map (fun p => p.Name) := by
  induction plugins generalizing acc with
  | nil => simp
  | cons p ps ih =>
    obtain ⟨h1, h2⟩ := pluginStep_suspicious u sample acc p
    obtain ⟨i1, i2⟩ := ih (pluginStep u sample acc p)
    simp only [List.foldl_cons, i1, i2, h1, h2, List.any_cons, List.filter_cons]
    constructor
    · simp [Bool.or_assoc]
    · cases flagsFile u sample p <;> simp

theorem pluginStep_congr (u : GoString → Option JSONValue) (sample : FileSample)
    (a b : LoopState) (p : AnalysisPlugin) (hv : a.verdict = b.verdict)
    (hs : a.suspicious = b.suspicious) :
    (pluginStep u sample a p).verdict = (pluginStep u sample b p).verdict ∧
    (pluginStep u sample a p).suspicious = (pluginStep u sample b p).suspicious := by
  unfold pluginStep
  rcases p.ProcessFile sample with ⟨output, susp, err⟩
  cases err with
  | some e => exact ⟨hv, hs⟩
  | none =>
    simp only
    by_cases ho : output = []
    · simp [ho, hv, hs]
    · simp only [ne_eq, ho, not_false_eq_true, if_true]
      cases u output <;> simp [hv, hs]

theorem foldl_pluginStep_congr (u : GoString → Option JSONValue) (sample : FileSample)
    (plugins : List AnalysisPlugin) (a b : LoopState) (hv : a.verdict = b.verdict)
    (hs : a.suspicious = b.suspicious) :
    (plugins.foldl (pluginStep u sample) a).verdict
      = (plugins.foldl (pluginStep u sample) b).verdict ∧
    (plugins.foldl (pluginStep u sample) a).suspicious
      = (plugins.foldl (pluginStep u sample) b).suspicious := by
  induction plugins generalizing a b with
  | nil => exact ⟨hv, hs⟩
  | cons p ps ih =>
    obtain ⟨h1, h2⟩ := pluginStep_congr u sample a b p hv hs
    exact ih _ _ h1 h2

theorem pluginStep_failing (u : GoString → Option JSONValue) (sample : FileSample)
    (acc : LoopState) (p : AnalysisPlugin) (h : (p.ProcessFile sample).2.2 ≠ none) :
    (pluginStep u sample acc p).verdict = acc.verdict ∧
    (pluginStep u sample acc p).suspicious = acc.suspicious := by
  unfold pluginStep
  rcases hp : p.ProcessFile sample with ⟨output, susp, err⟩
  rw [hp] at h
  cases err with
  | some e => exact ⟨rfl, rfl⟩
  | none => exact absurd rfl h

theorem analyzerCalls_append (a b : List Call) :
    analyzerCalls (a ++ b) = analyzerCalls a ++ analyzerCalls b := by
  induction a with
  | nil => rfl
  | cons c cs ih => cases c <;> simp [analyzerCalls, ih]

theorem otherCalls_append (a b : List Call) :
    otherCalls (a ++ b) = otherCalls a ++ otherCalls b := by
  induction a with
  | nil => rfl
  | cons c cs ih => cases c <;> simp [otherCalls, ih]

theorem handOffCalls_append (a b : List Call) :
    handOffCalls (a ++ b) = handOffCalls a ++ handOffCalls b := by
  induction a with
  | nil => rfl
  | cons c cs ih => cases c <;> simp [handOffCalls, ih]

theorem calls_map_processFile (sample : FileSample) (plugins : List AnalysisPlugin) :
    analyzerCalls (plugins.map (fun p => Call.processFile p.Name sample))
        = plugins.map (fun p => (p.Name, sample)) ∧
    otherCalls (plugins.map (fun p => Call.processFile p.Name sample)) = [] ∧
    handOffCalls (plugins.map (fun p => Call.processFile p.Name sample)) = [] := by
  induction plugins with
  | nil => exact ⟨rfl, rfl, rfl⟩
  | cons p ps ih => simp [analyzerCalls, otherCalls, handOffCalls, ih]

theorem scanVerdict_calls (reg : Registry) (u : GoString → Option JSONValue)
    (env : DispatchEnv) (fiev : FileInfoEvent) (sampleStat : FileStat) (hashes : HashInfo) :
    (scanVerdict reg u env fiev sampleStat hashes).2
      = reg.AnalysisPlugins.map
          (fun p => Call.processFile p.Name
            { FD := env.fd, Info := sampleStat, OrigPath := fiev.FilePath }) := by
  simp [scanVerdict, foldl_pluginStep_calls]

/-! ## The verdict store -/

theorem lookup_mapSet_self {β : Type} (m : List (GoString × β)) (k : GoString) (v : β) :
    (mapSet m k v).lookup k = some v := by
  unfold mapSet
  induction m with
  | nil => simp [List.lookup]
  | cons e m ih =>
    by_cases h : e.1 = k
    · simpa [List.filter_cons, h] using ih
    · have hne : (e.1 != k) = true := by simpa using h
      have hk : (k == e.1) = false := by
        simpa using fun e1 : k = e.1 => h e1.symm
      rcases e with ⟨a, b⟩
      simp only [List.filter_cons, hne, if_true, List.cons_append, List.lookup, hk] at ih ⊢
      exact ih

theorem lookup_mem {β : Type} (m : List (GoString × β)) (k : GoString) (v : β)
    (h : m.lookup k = some v) : (k, v) ∈ m := by
  induction m with
  | nil => simp [List.lookup] at h
  | cons e m ih =>
    rcases e with ⟨a, b⟩
    by_cases hk : k = a
    · subst hk
      simp only [List.lookup, beq_self_eq_true, Option.some.injEq] at h
      simp [h]
    · have hk2 : (k == a) = false := by simpa using hk
      simp only [List.lookup, hk2] at h
      exact List.mem_cons_of_mem _ (ih h)

theorem CreateSampleEntry_ok (marshal : MarshalFn) (fault : Option GoError) (db db1 : SampleDB)
    (fv : FileVerdict) (h : CreateSampleEntry marshal fault db fv = (none, db1)) :
    db1.find? fv.Hashes.Sha512 = some fv := by
  unfold CreateSampleEntry at h
  cases hm : marshal fv with
  | error e => simp [hm] at h
  | ok enc =>
    cases fault with
    | some e => simp [hm] at h
    | none =>
      by_cases hk : fv.Hashes.Sha512 = []
      · simp [hm, hk] at h
      · simp only [hm, hk, if_false, Prod.mk.injEq, true_and] at h
        subst h
        simp [SampleDB.find?, lookup_mapSet_self]

theorem CreateSampleEntry_cases (marshal : MarshalFn) (fault : Option GoError) (db : SampleDB)
    (fv : FileVerdict) :
    (∃ e, CreateSampleEntry marshal fault db fv = (some e, db)) ∨
    (∃ db1, CreateSampleEntry marshal fault db fv = (none, db1)) := by
  unfold CreateSampleEntry
  cases marshal fv with
  | error e => exact Or.inl ⟨e, rfl⟩
  | ok enc =>
    cases fault with
    | some e => exact Or.inl ⟨e, rfl⟩
    | none =>
      by_cases hk : fv.Hashes.Sha512 = []
      · exact Or.inl ⟨go "key required", by simp [hk]⟩
      · exact Or.inr ⟨{ bucket := some (mapSet (db.bucket.getD []) fv.Hashes.Sha512 fv) },
          by simp [hk]⟩

theorem handOff_cases (s : Submitter) (uploader : Option Uploader) (verdict : FileVerdict)
    (filePath msg : GoString) :
    (∃ u, uploader = some u ∧ verdict.Suspicious = true ∧
      handOff s uploader verdict filePath msg
        = (Call.enqueue verdict filePath, u.Enqueue verdict filePath)) ∨
    ((uploader = none ∨ verdict.Suspicious = false) ∧
      handOff s uploader verdict filePath msg = (Call.submit msg, s.Submit msg)) := by
  unfold handOff
  cases uploader with
  | none => exact Or.inr ⟨Or.inl rfl, rfl⟩
  | some u =>
    cases hs : verdict.Suspicious with
    | true => exact Or.inl ⟨u, rfl, rfl, by simp⟩
    | false => exact Or.inr ⟨Or.inr rfl, by simp⟩

/-- The outcomes of lines 97 to 145, one by one. -/
theorem recordAndReport_cases (marshal : MarshalFn) (env : DispatchEnv) (fiev : FileInfoEvent)
    (s : Submitter) (uploader : Option Uploader) (verdict : FileVerdict) (db : SampleDB) :
    (∃ e, CreateSampleEntry marshal env.firstWriteFault db verdict = (some e, db) ∧
      recordAndReport marshal env fiev s uploader verdict db = (some e, db, [])) ∨
    (∃ db1 e, CreateSampleEntry marshal env.firstWriteFault db verdict = (none, db1) ∧
      attachMetaFile env verdict = .error e ∧
      recordAndReport marshal env fiev s uploader verdict db
        = (some e, db1, [Call.put verdict])) ∨
    (∃ db1 verdict1 e, CreateSampleEntry marshal env.firstWriteFault db verdict = (none, db1) ∧
      attachMetaFile env verdict = .ok verdict1 ∧ marshal verdict1 = .error e ∧
      recordAndReport marshal env fiev s uploader verdict db
        = (some e, db1, [Call.put verdict])) ∨
    (∃ db1 verdict1 msg e,
      CreateSampleEntry marshal env.firstWriteFault db verdict = (none, db1) ∧
      attachMetaFile env verdict = .ok verdict1 ∧ marshal verdict1 = .ok msg ∧
      (handOff s uploader verdict1 fiev.FilePath msg).2 = some e ∧
      recordAndReport marshal env fiev s uploader verdict db
        = (some e, db1, [Call.put verdict, (handOff s uploader verdict1 fiev.FilePath msg).1])) ∨
    (∃ db1 verdict1 msg e,
      CreateSampleEntry marshal env.firstWriteFault db verdict = (none, db1) ∧
      attachMetaFile env verdict = .ok verdict1 ∧ marshal verdict1 = .ok msg ∧
      (handOff s uploader verdict1 fiev.FilePath msg).2 = none ∧
      CreateSampleEntry marshal env.secondWriteFault db1 (markReported verdict1)
        = (some e, db1) ∧
      recordAndReport marshal env fiev s uploader verdict db
        = (some e, db1, [Call.put verdict, (handOff s uploader verdict1 fiev.FilePath msg).1])) ∨
    (∃ db1 verdict1 msg db2,
      CreateSampleEntry marshal env.firstWriteFault db verdict = (none, db1) ∧
      attachMetaFile env verdict = .ok verdict1 ∧ marshal verdict1 = .ok msg ∧
      (handOff s uploader verdict1 fiev.FilePath msg).2 = none ∧
      CreateSampleEntry marshal env.secondWriteFault db1 (markReported verdict1)
        = (none, db2) ∧
      recordAndReport marshal env fiev s uploader verdict db
        = (none, db2, [Call.put verdict, (handOff s uploader verdict1 fiev.FilePath msg).1,
            Call.put (markReported verdict1)])) := by
  rcases CreateSampleEntry_cases marshal env.firstWriteFault db verdict with ⟨e, h1⟩ | ⟨db1, h1⟩
  · exact Or.inl ⟨e, h1, by simp [recordAndReport, h1]⟩
  · right
    cases h2 : attachMetaFile env verdict with
    | error e => exact Or.inl ⟨db1, e, h1, rfl, by simp [recordAndReport, h1, h2]⟩
    | ok verdict1 =>
      right
      cases h3 : marshal verdict1 with
      | error e => exact Or.inl ⟨db1, verdict1, e, h1, rfl, h3, by simp [recordAndReport, h1, h2, h3]⟩
      | ok msg =>
        right
        rcases h4 : handOff s uploader verdict1 fiev.FilePath msg with ⟨call, r⟩
        cases r with
        | some e =>
          exact Or.inl ⟨db1, verdict1, msg, e, h1, rfl, h3, by simp [h4],
            by simp [recordAndReport, h1, h2, h3, h4]⟩
        | none =>
          right
          rcases CreateSampleEntry_cases marshal env.secondWriteFault db1
            (markReported verdict1) with ⟨e, h5⟩ | ⟨db2, h5⟩
          · exact Or.inl ⟨db1, verdict1, msg, e, h1, rfl, h3, by simp [h4], h5,
              by simp [recordAndReport, h1, h2, h3, h4, h5]⟩
          · exact Or.inr ⟨db1, verdict1, msg, db2, h1, rfl, h3, by simp [h4], h5,
              by simp [recordAndReport, h1, h2, h3, h4, h5]⟩

/-! ## `PluginIterator`, phase by phase -/

theorem handOff_kind (s : Submitter) (uploader : Option Uploader) (verdict : FileVerdict)
    (filePath msg : GoString) :
    (handOff s uploader verdict filePath msg).1 = Call.enqueue verdict filePath ∨
    (handOff s uploader verdict filePath msg).1 = Call.submit msg := by
  rcases handOff_cases s uploader verdict filePath msg with ⟨u, _, _, h⟩ | ⟨_, h⟩
  · exact Or.inl (by rw [h])
  · exact Or.inr (by rw [h])

theorem recordAndReport_analyzerCalls (marshal : MarshalFn) (env : DispatchEnv)
    (fiev : FileInfoEvent) (s : Submitter) (uploader : Option Uploader) (verdict : FileVerdict)
    (db : SampleDB) :
    analyzerCalls (recordAndReport marshal env fiev s uploader verdict db).2.2 = [] := by
  rcases recordAndReport_cases marshal env fiev s uploader verdict db with
    ⟨e, _, h⟩ | ⟨db1, e, _, _, h⟩ | ⟨db1, v1, e, _, _, _, h⟩ | ⟨db1, v1, msg, e, _, _, _, _, h⟩ |
    ⟨db1, v1, msg, e, _, _, _, _, _, h⟩ | ⟨db1, v1, msg, db2, _, _, _, _, _, h⟩
  · rw [h]; rfl
  · rw [h]; rfl
  · rw [h]; rfl
  all_goals
    rw [h]
    rcases handOff_kind s uploader v1 fiev.FilePath msg with hk | hk <;> rw [hk] <;> rfl

theorem openAndLookup_ok_inv (reg : Registry) (env : DispatchEnv) (db : SampleDB)
    (sampleStat : FileStat) (hashes : HashInfo)
    (h : openAndLookup reg env db = .ok (sampleStat, hashes)) :
    env.statResult = .ok sampleStat ∧ env.hashResult = .ok hashes := by
  unfold openAndLookup at h
  cases ho : env.openErr with
  | some e => simp [ho] at h
  | none =>
    cases hs : env.statResult with
    | error e => simp [ho, hs] at h
    | ok st =>
      cases hh : env.hashResult with
      | error e => simp [ho, hs, hh] at h
      | ok hs2 =>
        simp only [ho, hs, hh] at h
        split at h
        · exact absurd h (by simp)
        · split at h
          · exact absurd h (by simp)
          · simp only [Except.ok.injEq, Prod.mk.injEq] at h
            simp [h.1, h.2]

theorem openAndLookup_plugins (reg : Registry) (plugins : List AnalysisPlugin)
    (env : DispatchEnv) (db : SampleDB) :
    openAndLookup { reg with AnalysisPlugins := plugins } env db = openAndLookup reg env db :=
  rfl

theorem openAndLookup_fresh (reg : Registry) (env : DispatchEnv) (db : SampleDB)
    (sampleStat : FileStat) (hashes : HashInfo) (entry : FileVerdict)
    (hopen : env.openErr = none) (hstat : env.statResult = .ok sampleStat)
    (hhash : env.hashResult = .ok hashes) (hview : env.viewFault = none)
    (hne : entry.Hashes.Sha512 ≠ [])
    (hfind : db.find? hashes.Sha512 = some entry)
    (hfresh : timeSub env.now1 entry.Time < reg.rescanTimeframe) :
    openAndLookup reg env db = .error none := by
  unfold SampleDB.find? at hfind
  cases hb : db.bucket with
  | none => simp [hb] at hfind
  | some entries =>
    simp only [hb] at hfind
    simp [openAndLookup, hopen, hstat, hhash, GetSampleEntry, hview, hb, hfind, hne, hfresh]

theorem openAndLookup_stale (reg : Registry) (env : DispatchEnv) (db : SampleDB)
    (sampleStat : FileStat) (hashes : HashInfo)
    (hopen : env.openErr = none) (hstat : env.statResult = .ok sampleStat)
    (hhash : env.hashResult = .ok hashes) (hview : env.viewFault = none)
    (hstale : db.find? hashes.Sha512 = none ∨
      ∃ entry, db.find? hashes.Sha512 = some entry ∧
        reg.rescanTimeframe ≤ timeSub env.now1 entry.Time) :
    openAndLookup reg env db = .ok (sampleStat, hashes) := by
  unfold SampleDB.find? at hstale
  cases hb : db.bucket with
  | none =>
    simp [openAndLookup, hopen, hstat, hhash, GetSampleEntry, hview, hb, emptyVerdict]
  | some entries =>
    simp only [hb] at hstale
    rcases hstale with hnone | ⟨entry, hsome, hold⟩
    · simp [openAndLookup, hopen, hstat, hhash, GetSampleEntry, hview, hb, hnone, emptyVerdict]
    · have : ¬ timeSub env.now1 entry.Time < reg.rescanTimeframe := not_lt.mpr hold
      simp [openAndLookup, hopen, hstat, hhash, GetSampleEntry, hview, hb, hsome, this]

theorem PluginIterator_early (reg : Registry) (u : GoString → Option JSONValue)
    (marshal : MarshalFn) (env : DispatchEnv) (fiev : FileInfoEvent) (s : Submitter)
    (uploader : Option Uploader) (db : SampleDB) (r : Option GoError)
    (h : openAndLookup reg env db = .error r) :
    PluginIterator reg u marshal env fiev s uploader db = (r, db, []) := by
  simp [PluginIterator, h]

theorem PluginIterator_scan (reg : Registry) (u : GoString → Option JSONValue)
    (marshal : MarshalFn) (env : DispatchEnv) (fiev : FileInfoEvent) (s : Submitter)
    (uploader : Option Uploader) (db : SampleDB) (sampleStat : FileStat) (hashes : HashInfo)
    (h : openAndLookup reg env db = .ok (sampleStat, hashes)) :
    PluginIterator reg u marshal env fiev s uploader db
      = ((recordAndReport marshal env fiev s uploader
            (scanVerdict reg u env fiev sampleStat hashes).1 db).1,
         (recordAndReport marshal env fiev s uploader
            (scanVerdict reg u env fiev sampleStat hashes).1 db).2.1,
         (scanVerdict reg u env fiev sampleStat hashes).2 ++
           (recordAndReport marshal env fiev s uploader
             (scanVerdict reg u env fiev sampleStat hashes).1 db).2.2) := by
  simp [PluginIterator, h]

theorem wellFormed_find (db : SampleDB) (hwf : db.WellFormed) (k : GoString)
    (entry : FileVerdict) (h : db.find? k = some entry) :
    entry.Hashes.Sha512 = k ∧ k ≠ [] := by
  unfold SampleDB.find? at h
  cases hb : db.bucket with
  | none => simp [hb] at h
  | some entries =>
    simp only [hb] at h
    exact hwf entries hb k entry (lookup_mem entries k entry h)

theorem attachMetaFile_fields (env : DispatchEnv) (v v1 : FileVerdict)
    (h : attachMetaFile env v = .ok v1) :
    v1.Suspicious = v.Suspicious ∧ v1.SuspiciousVia = v.SuspiciousVia ∧
    v1.Reported = v.Reported ∧ v1.Time = v.Time ∧ v1.Hashes = v.Hashes := by
  unfold attachMetaFile at h
  cases hm : env.metaFile with
  | none =>
    simp only [hm, Except.ok.injEq] at h
    subst h
    exact ⟨rfl, rfl, rfl, rfl, rfl⟩
  | some r =>
    cases r with
    | error e => simp [hm] at h
    | ok content =>
      simp only [hm, Except.ok.injEq] at h
      subst h
      exact ⟨rfl, rfl, rfl, rfl, rfl⟩

theorem pluginStep_reported (u : GoString → Option JSONValue) (sample : FileSample)
    (acc : LoopState) (p : AnalysisPlugin) :
    (pluginStep u sample acc p).verdict.Reported = acc.verdict.Reported := by
  unfold pluginStep
  rcases p.ProcessFile sample with ⟨output, susp, err⟩
  cases err with
  | some e => rfl
  | none =>
    simp only
    by_cases ho : output = []
    · cases susp <;> simp [ho]
    · simp only [ne_eq, ho, not_false_eq_true, if_true]
      cases u output <;> cases susp <;> simp

theorem foldl_pluginStep_reported (u : GoString → Option JSONValue) (sample : FileSample)
    (plugins : List AnalysisPlugin) (acc : LoopState) :
    (plugins.foldl (pluginStep u sample) acc).verdict.Reported = acc.verdict.Reported := by
  induction plugins generalizing acc with
  | nil => rfl
  | cons p ps ih => simp [List.foldl_cons, ih, pluginStep_reported]

theorem scanVerdict_fields (reg : Registry) (u : GoString → Option JSONValue)
    (env : DispatchEnv) (fiev : FileInfoEvent) (sampleStat : FileStat) (hashes : HashInfo) :
    (scanVerdict reg u env fiev sampleStat hashes).1.Time = env.now2 ∧
    (scanVerdict reg u env fiev sampleStat hashes).1.Hashes = hashes ∧
    (scanVerdict reg u env fiev sampleStat hashes).1.Reported = false ∧
    (scanVerdict reg u env fiev sampleStat hashes).1.Suspicious
      = reg.AnalysisPlugins.any
          (flagsFile u { FD := env.fd, Info := sampleStat, OrigPath := fiev.FilePath }) ∧
    (scanVerdict reg u env fiev sampleStat hashes).1.SuspiciousVia
      = (reg.AnalysisPlugins.filter
          (flagsFile u { FD := env.fd, Info := sampleStat, OrigPath := fiev.FilePath })).map
          (fun p => p.Name) := by
  refine ⟨rfl, rfl, ?_, ?_, ?_⟩
  · simp only [scanVerdict]
    rw [foldl_pluginStep_reported]
    rfl
  · simp only [scanVerdict]
    rw [(foldl_pluginStep_suspicious u _ _ _).1]
    rfl
  · simp only [scanVerdict]
    rw [(foldl_pluginStep_suspicious u _ _ _).2]
    rfl

theorem CreateSampleEntry_ok_key (marshal : MarshalFn) (fault : Option GoError)
    (db db1 : SampleDB) (fv : FileVerdict)
    (h : CreateSampleEntry marshal fault db fv = (none, db1)) : fv.Hashes.Sha512 ≠ [] := by
  intro hk
  unfold CreateSampleEntry at h
  cases hm : marshal fv with
  | error e => simp [hm] at h
  | ok enc =>
    cases fault with
    | some e => simp [hm] at h
    | none => simp [hm, hk] at h

theorem PluginIterator_analyzerCalls (reg : Registry) (u : GoString → Option JSONValue)
    (marshal : MarshalFn) (env : DispatchEnv) (fiev : FileInfoEvent) (s : Submitter)
    (uploader : Option Uploader) (db : SampleDB) (sampleStat : FileStat) (hashes : HashInfo)
    (h : openAndLookup reg env db = .ok (sampleStat, hashes)) :
    analyzerCalls (PluginIterator reg u marshal env fiev s uploader db).2.2
      = reg.AnalysisPlugins.map
          (fun p => (p.Name, { FD := env.fd, Info := sampleStat, OrigPath := fiev.FilePath })) := by
  rw [PluginIterator_scan _ _ _ _ _ _ _ _ _ _ h]
  simp only [analyzerCalls_append, recordAndReport_analyzerCalls, List.append_nil,
    scanVerdict_calls]
  exact (calls_map_processFile _ _).1

/-- After a scan whose first store write succeeds, the store holds an entry
for the SHA-512 with the scan time, whatever happens later in the dispatch. -/
theorem PluginIterator_leaves_entry (reg : Registry) (u : GoString → Option JSONValue)
    (marshal : MarshalFn) (env : DispatchEnv) (fiev : FileInfoEvent) (s : Submitter)
    (uploader : Option Uploader) (db : SampleDB) (sampleStat : FileStat) (hashes : HashInfo)
    (h : openAndLookup reg env db = .ok (sampleStat, hashes))
    (hwrite : (CreateSampleEntry marshal env.firstWriteFault db
      (scanVerdict reg u env fiev sampleStat hashes).1).1 = none) :
    ∃ entry, (PluginIterator reg u marshal env fiev s uploader db).2.1.find? hashes.Sha512
        = some entry ∧
      entry.Time = env.now2 ∧ entry.Hashes.Sha512 = hashes.Sha512 ∧ hashes.Sha512 ≠ [] := by
  rw [PluginIterator_scan _ _ _ _ _ _ _ _ _ _ h]
  obtain ⟨ht, hh, _, _, _⟩ := scanVerdict_fields reg u env fiev sampleStat hashes
  generalize (scanVerdict reg u env fiev sampleStat hashes).1 = verdict at *
  have key : ∀ db1, CreateSampleEntry marshal env.firstWriteFault db verdict = (none, db1) →
      db1.find? hashes.Sha512 = some verdict ∧ hashes.Sha512 ≠ [] := by
    intro db1 h1
    have := CreateSampleEntry_ok marshal _ db db1 verdict h1
    have hk := CreateSampleEntry_ok_key marshal _ db db1 verdict h1
    rw [hh] at this hk
    exact ⟨this, hk⟩
  rcases recordAndReport_cases marshal env fiev s uploader verdict db with
    ⟨e, h1, _⟩ | ⟨db1, e, h1, _, hr⟩ | ⟨db1, v1, e, h1, _, _, hr⟩ |
    ⟨db1, v1, msg, e, h1, _, _, _, hr⟩ | ⟨db1, v1, msg, e, h1, _, _, _, _, hr⟩ |
    ⟨db1, v1, msg, db2, h1, ha, _, _, h5, hr⟩
  · rw [h1] at hwrite; exact absurd hwrite (by simp)
  · rw [hr]; exact ⟨verdict, (key db1 h1).1, ht, by rw [hh], (key db1 h1).2⟩
  · rw [hr]; exact ⟨verdict, (key db1 h1).1, ht, by rw [hh], (key db1 h1).2⟩
  · rw [hr]; exact ⟨verdict, (key db1 h1).1, ht, by rw [hh], (key db1 h1).2⟩
  · rw [hr]; exact ⟨verdict, (key db1 h1).1, ht, by rw [hh], (key db1 h1).2⟩
  · rw [hr]
    obtain ⟨_, _, _, at4, at5⟩ := attachMetaFile_fields env verdict v1 ha
    have h2 := CreateSampleEntry_ok marshal _ db1 db2 (markReported v1) h5
    have hm : (markReported v1).Hashes = hashes := by
      simp only [markReported]; rw [at5, hh]
    rw [hm] at h2
    refine ⟨markReported v1, h2, ?_, by rw [hm], (key db1 h1).2⟩
    simp only [markReported]; rw [at4, ht]

theorem dispatchAll_fresh (reg : Registry) (u : GoString → Option JSONValue)
    (marshal : MarshalFn) (s : Submitter) (uploader : Option Uploader) (sha : GoString)
    (t : GoTime) (rest : List (DispatchEnv × FileInfoEvent)) (db : SampleDB)
    (hentry : ∃ entry, db.find? sha = some entry ∧ entry.Time = t ∧ entry.Hashes.Sha512 ≠ [])
    (hrest : ∀ d ∈ rest, d.1.openErr = none ∧ (∃ st, d.1.statResult = .ok st) ∧
      (∃ h, d.1.hashResult = .ok h ∧ h.Sha512 = sha) ∧ d.1.viewFault = none ∧
      timeSub d.1.now1 t < reg.rescanTimeframe) :
    dispatchAll reg u marshal s uploader rest db = (db, []) := by
  induction rest with
  | nil => rfl
  | cons d rest ih =>
    rcases d with ⟨env, fiev⟩
    obtain ⟨ho, ⟨st, hs⟩, ⟨h, hh, hsha⟩, hv, hfresh⟩ := hrest (env, fiev) (by simp)
    obtain ⟨entry, hfind, ht, hne⟩ := hentry
    have hl := openAndLookup_fresh reg env db st h entry ho hs hh hv hne
      (by rw [hsha]; exact hfind) (by rw [ht]; exact hfresh)
    simp only [dispatchAll, PluginIterator_early _ u marshal _ fiev s uploader _ _ hl]
    rw [ih (fun d hd => hrest d (by simp [hd]))]
    rfl

/-! ## The store invariant -/

theorem mem_mapSet {β : Type} (m : List (GoString × β)) (k : GoString) (v : β)
    (e : GoString × β) (h : e ∈ mapSet m k v) : e ∈ m ∨ e = (k, v) := by
  unfold mapSet at h
  rcases List.mem_append.mp h with h1 | h1
  · exact Or.inl (List.mem_filter.mp h1).1
  · exact Or.inr (List.mem_singleton.mp h1)

theorem CreateSampleEntry_wellFormed (marshal : MarshalFn) (fault : Option GoError)
    (db : SampleDB) (fv : FileVerdict) (hwf : db.WellFormed) :
    (CreateSampleEntry marshal fault db fv).2.WellFormed := by
  unfold CreateSampleEntry
  cases marshal fv with
  | error e => exact hwf
  | ok enc =>
    cases fault with
    | some e => exact hwf
    | none =>
      by_cases hk : fv.Hashes.Sha512 = []
      · simpa [hk] using hwf
      · simp only [hk, if_false]
        intro entries hb k v hm
        simp only [Option.some.injEq] at hb
        subst hb
        rcases mem_mapSet _ _ _ _ hm with h1 | h1
        · cases hbk : db.bucket with
          | none => simp [hbk] at h1
          | some old =>
            simp only [hbk, Option.getD_some] at h1
            exact hwf old hbk k v h1
        · simp only [Prod.mk.injEq] at h1
          obtain ⟨rfl, rfl⟩ := h1
          exact ⟨rfl, hk⟩

theorem recordAndReport_wellFormed (marshal : MarshalFn) (env : DispatchEnv)
    (fiev : FileInfoEvent) (s : Submitter) (uploader : Option Uploader) (verdict : FileVerdict)
    (db : SampleDB) (hwf : db.WellFormed) :
    (recordAndReport marshal env fiev s uploader verdict db).2.1.WellFormed := by
  have w1 := CreateSampleEntry_wellFormed marshal env.firstWriteFault db verdict hwf
  rcases recordAndReport_cases marshal env fiev s uploader verdict db with
    ⟨e, _, h⟩ | ⟨db1, e, h1, _, h⟩ | ⟨db1, v1, e, h1, _, _, h⟩ |
    ⟨db1, v1, msg, e, h1, _, _, _, h⟩ | ⟨db1, v1, msg, e, h1, _, _, _, _, h⟩ |
    ⟨db1, v1, msg, db2, h1, _, _, _, h5, h⟩
  · rw [h]; exact hwf
  · rw [h]; rw [h1] at w1; exact w1
  · rw [h]; rw [h1] at w1; exact w1
  · rw [h]; rw [h1] at w1; exact w1
  · rw [h]; rw [h1] at w1; exact w1
  · rw [h]
    rw [h1] at w1
    have w2 := CreateSampleEntry_wellFormed marshal env.secondWriteFault db1 (markReported v1) w1
    rw [h5] at w2
    exact w2

/-- `PluginIterator` keeps the invariant of the store. -/
theorem PluginIterator_wellFormed (reg : Registry) (u : GoString → Option JSONValue)
    (marshal : MarshalFn) (env : DispatchEnv) (fiev : FileInfoEvent) (s : Submitter)
    (uploader : Option Uploader) (db : SampleDB) (hwf : db.WellFormed) :
    (PluginIterator reg u marshal env fiev s uploader db).2.1.WellFormed := by
  cases h : openAndLookup reg env db with
  | error r => rw [PluginIterator_early _ _ _ _ _ _ _ _ _ h]; exact hwf
  | ok x =>
    rcases x with ⟨sampleStat, hashes⟩
    rw [PluginIterator_scan _ _ _ _ _ _ _ _ _ _ h]
    exact recordAndReport_wellFormed _ _ _ _ _ _ _ hwf

/-! ## The calls of a dispatch -/

theorem recordAndReport_calls_mem (marshal : MarshalFn) (env : DispatchEnv)
    (fiev : FileInfoEvent) (s : Submitter) (uploader : Option Uploader) (verdict : FileVerdict)
    (db : SampleDB) (c : Call)
    (hc : c ∈ (recordAndReport marshal env fiev s uploader verdict db).2.2) :
    c = Call.put verdict ∨
    ∃ v1 msg, attachMetaFile env verdict = .ok v1 ∧ marshal v1 = .ok msg ∧
      (c = (handOff s uploader v1 fiev.FilePath msg).1 ∨
        (c = Call.put (markReported v1) ∧
          (handOff s uploader v1 fiev.FilePath msg).2 = none)) := by
  rcases recordAndReport_cases marshal env fiev s uploader verdict db with
    ⟨e, _, hr⟩ | ⟨db1, e, _, _, hr⟩ | ⟨db1, v1, e, _, _, _, hr⟩ |
    ⟨db1, v1, msg, e, _, ha, hm, _, hr⟩ | ⟨db1, v1, msg, e, _, ha, hm, _, _, hr⟩ |
    ⟨db1, v1, msg, db2, _, ha, hm, hn, _, hr⟩
  · rw [hr] at hc; exact absurd hc (by simp)
  · rw [hr] at hc; exact Or.inl (List.mem_singleton.mp hc)
  · rw [hr] at hc; exact Or.inl (List.mem_singleton.mp hc)
  · rw [hr] at hc
    rcases List.mem_cons.mp hc with h | h
    · exact Or.inl h
    · exact Or.inr ⟨v1, msg, ha, hm, Or.inl (List.mem_singleton.mp h)⟩
  · rw [hr] at hc
    rcases List.mem_cons.mp hc with h | h
    · exact Or.inl h
    · exact Or.inr ⟨v1, msg, ha, hm, Or.inl (List.mem_singleton.mp h)⟩
  · rw [hr] at hc
    rcases List.mem_cons.mp hc with h | h
    · exact Or.inl h
    · rcases List.mem_cons.mp h with h | h
      · exact Or.inr ⟨v1, msg, ha, hm, Or.inl h⟩
      · exact Or.inr ⟨v1, msg, ha, hm, Or.inr ⟨List.mem_singleton.mp h, hn⟩⟩

theorem scanVerdict_calls_mem (reg : Registry) (u : GoString → Option JSONValue)
    (env : DispatchEnv) (fiev : FileInfoEvent) (sampleStat : FileStat) (hashes : HashInfo)
    (c : Call) (hc : c ∈ (scanVerdict reg u env fiev sampleStat hashes).2) :
    ∃ name sample, c = Call.processFile name sample := by
  rw [scanVerdict_calls] at hc
  obtain ⟨p, _, rfl⟩ := List.mem_map.mp hc
  exact ⟨_, _, rfl⟩

theorem PluginIterator_calls_mem (reg : Registry) (u : GoString → Option JSONValue)
    (marshal : MarshalFn) (env : DispatchEnv) (fiev : FileInfoEvent) (s : Submitter)
    (uploader : Option Uploader) (db : SampleDB) (c : Call)
    (hc : c ∈ (PluginIterator reg u marshal env fiev s uploader db).2.2)
    (hnp : ∀ name sample, c ≠ Call.processFile name sample) :
    ∃ sampleStat hashes, openAndLookup reg env db = .ok (sampleStat, hashes) ∧
      c ∈ (recordAndReport marshal env fiev s uploader
            (scanVerdict reg u env fiev sampleStat hashes).1 db).2.2 := by
  cases h : openAndLookup reg env db with
  | error r =>
    rw [PluginIterator_early _ _ _ _ _ _ _ _ _ h] at hc
    exact absurd hc (by simp)
  | ok x =>
    rcases x with ⟨sampleStat, hashes⟩
    rw [PluginIterator_scan _ _ _ _ _ _ _ _ _ _ h] at hc
    rcases List.mem_append.mp hc with h1 | h1
    · obtain ⟨name, sample, he⟩ := scanVerdict_calls_mem _ _ _ _ _ _ c h1
      exact absurd he (hnp name sample)
    · exact ⟨sampleStat, hashes, rfl, h1⟩

/-- Every verdict `PluginIterator` stores or enqueues carries the suspicious
flag and the list of flagging analyzers of the verdict built by the scan. -/
theorem PluginIterator_verdicts (reg : Registry) (u : GoString → Option JSONValue)
    (marshal : MarshalFn) (env : DispatchEnv) (fiev : FileInfoEvent) (s : Submitter)
    (uploader : Option Uploader) (db : SampleDB) (sampleStat : FileStat) (hashes : HashInfo)
    (h : openAndLookup reg env db = .ok (sampleStat, hashes)) (v : FileVerdict)
    (hv : Call.put v ∈ (PluginIterator reg u marshal env fiev s uploader db).2.2 ∨
      ∃ p, Call.enqueue v p ∈ (PluginIterator reg u marshal env fiev s uploader db).2.2) :
    v.Suspicious = (scanVerdict reg u env fiev sampleStat hashes).1.Suspicious ∧
    v.SuspiciousVia = (scanVerdict reg u env fiev sampleStat hashes).1.SuspiciousVia := by
  have hgen : ∀ c, c ∈ (PluginIterator reg u marshal env fiev s uploader db).2.2 →
      (c = Call.put v ∨ ∃ p, c = Call.enqueue v p) →
      v.Suspicious = (scanVerdict reg u env fiev sampleStat hashes).1.Suspicious ∧
      v.SuspiciousVia = (scanVerdict reg u env fiev sampleStat hashes).1.SuspiciousVia := by
    intro c hc hshape
    have hnp : ∀ name sample, c ≠ Call.processFile name sample := by
      intro name sample he
      rcases hshape with h1 | ⟨p, h1⟩ <;> rw [h1] at he <;> exact absurd he (by simp)
    obtain ⟨st2, hs2, hl2, hmem⟩ := PluginIterator_calls_mem _ _ _ _ _ _ _ _ c hc hnp
    rw [h] at hl2
    simp only [Except.ok.injEq, Prod.mk.injEq] at hl2
    obtain ⟨rfl, rfl⟩ := hl2
    rcases recordAndReport_calls_mem _ _ _ _ _ _ _ c hmem with h1 | ⟨v1, msg, ha, _, h1⟩
    · rcases hshape with h2 | ⟨p, h2⟩
      · rw [h2] at h1
        simp only [Call.put.injEq] at h1
        rw [h1]; exact ⟨rfl, rfl⟩
      · rw [h2] at h1; exact absurd h1 (by simp)
    · obtain ⟨a1, a2, _, _, _⟩ := attachMetaFile_fields env _ v1 ha
      rcases h1 with h1 | ⟨h1, _⟩
      · rcases handOff_kind s uploader v1 fiev.FilePath msg with hh | hh <;> rw [hh] at h1
        · rcases hshape with h2 | ⟨p, h2⟩
          · rw [h2] at h1; exact absurd h1 (by simp)
          · rw [h2] at h1
            simp only [Call.enqueue.injEq] at h1
            rw [h1.1]; exact ⟨a1, a2⟩
        · rcases hshape with h2 | ⟨p, h2⟩ <;> rw [h2] at h1 <;> exact absurd h1 (by simp)
      · rcases hshape with h2 | ⟨p, h2⟩
        · rw [h2] at h1
          simp only [Call.put.injEq] at h1
          rw [h1]; exact ⟨a1, a2⟩
        · rw [h2] at h1; exact absurd h1 (by simp)
  rcases hv with hv | ⟨p, hv⟩
  · exact hgen _ hv (Or.inl rfl)
  · exact hgen _ hv (Or.inr ⟨p, rfl⟩)

/-! ## Skipped analyzers and the hand-off -/

theorem scanVerdict_skip_failing (u : GoString → Option JSONValue) (env : DispatchEnv)
    (fiev : FileInfoEvent) (sampleStat : FileStat) (hashes : HashInfo)
    (pre post : List AnalysisPlugin) (bad : AnalysisPlugin) (rt : GoDuration)
    (sensor : GoString)
    (hbad : (bad.ProcessFile
      { FD := env.fd, Info := sampleStat, OrigPath := fiev.FilePath }).2.2 ≠ none) :
    (scanVerdict (Registry.mk (pre ++ bad :: post) rt sensor) u env fiev sampleStat hashes).1
      = (scanVerdict (Registry.mk (pre ++ post) rt sensor) u env fiev sampleStat hashes).1 := by
  simp only [scanVerdict, List.foldl_append, List.foldl_cons]
  obtain ⟨h1, h2⟩ := pluginStep_failing u
    { FD := env.fd, Info := sampleStat, OrigPath := fiev.FilePath }
    (List.foldl (pluginStep u { FD := env.fd, Info := sampleStat, OrigPath := fiev.FilePath })
      { verdict := emptyVerdict, suspicious := false, calls := [] } pre) bad hbad
  obtain ⟨g1, g2⟩ := foldl_pluginStep_congr u
    { FD := env.fd, Info := sampleStat, OrigPath := fiev.FilePath } post _ _ h1 h2
  rw [g1, g2]

theorem otherCalls_recordAndReport (marshal : MarshalFn) (env : DispatchEnv)
    (fiev : FileInfoEvent) (s : Submitter) (uploader : Option Uploader) (verdict : FileVerdict)
    (db : SampleDB) :
    otherCalls (recordAndReport marshal env fiev s uploader verdict db).2.2
      = (recordAndReport marshal env fiev s uploader verdict db).2.2 := by
  rcases recordAndReport_cases marshal env fiev s uploader verdict db with
    ⟨e, _, h⟩ | ⟨db1, e, _, _, h⟩ | ⟨db1, v1, e, _, _, _, h⟩ | ⟨db1, v1, msg, e, _, _, _, _, h⟩ |
    ⟨db1, v1, msg, e, _, _, _, _, _, h⟩ | ⟨db1, v1, msg, db2, _, _, _, _, _, h⟩
  · rw [h]; rfl
  · rw [h]; rfl
  · rw [h]; rfl
  all_goals
    rw [h]
    rcases handOff_kind s uploader v1 fiev.FilePath msg with hk | hk <;> rw [hk] <;> rfl

theorem handOffCalls_recordAndReport (marshal : MarshalFn) (env : DispatchEnv)
    (fiev : FileInfoEvent) (s : Submitter) (uploader : Option Uploader)
    (verdict verdict1 : FileVerdict) (db : SampleDB) (msg : GoString)
    (hwrite : (CreateSampleEntry marshal env.firstWriteFault db verdict).1 = none)
    (hattach : attachMetaFile env verdict = .ok verdict1)
    (hmsg : marshal verdict1 = .ok msg) :
    handOffCalls (recordAndReport marshal env fiev s uploader verdict db).2.2
      = [(handOff s uploader verdict1 fiev.FilePath msg).1] := by
  rcases recordAndReport_cases marshal env fiev s uploader verdict db with
    ⟨e, h1, _⟩ | ⟨db1, e, _, ha, _⟩ | ⟨db1, v1, e, _, ha, hm, _⟩ |
    ⟨db1, v1, m, e, _, ha, hm, _, h⟩ | ⟨db1, v1, m, e, _, ha, hm, _, _, h⟩ |
    ⟨db1, v1, m, db2, _, ha, hm, _, _, h⟩
  · rw [h1] at hwrite; exact absurd hwrite (by simp)
  · rw [hattach] at ha; exact absurd ha (by simp)
  · rw [hattach] at ha
    simp only [Except.ok.injEq] at ha
    subst ha
    rw [hmsg] at hm; exact absurd hm (by simp)
  all_goals
    rw [hattach] at ha
    simp only [Except.ok.injEq] at ha
    subst ha
    rw [hmsg] at hm
    simp only [Except.ok.injEq] at hm
    subst hm
    rw [h]
    rcases handOff_kind s uploader verdict1 fiev.FilePath msg with hk | hk <;> rw [hk] <;> rfl

theorem handOff_submit (s : Submitter) (uploader : Option Uploader) (verdict : FileVerdict)
    (filePath msg m : GoString)
    (h : (handOff s uploader verdict filePath msg).1 = Call.submit m) :
    (handOff s uploader verdict filePath msg).2 = s.Submit m := by
  rcases handOff_cases s uploader verdict filePath msg with ⟨u, _, _, hh⟩ | ⟨_, hh⟩
  · rw [hh] at h; exact absurd h (by simp)
  · rw [hh] at h ⊢
    simp only [Call.submit.injEq] at h
    rw [h]

theorem handOff_enqueue (s : Submitter) (uploader : Option Uploader) (verdict : FileVerdict)
    (filePath msg : GoString) (v : FileVerdict) (p : GoString)
    (h : (handOff s uploader verdict filePath msg).1 = Call.enqueue v p) :
    ∃ u, uploader = some u ∧ (handOff s uploader verdict filePath msg).2 = u.Enqueue v p := by
  rcases handOff_cases s uploader verdict filePath msg with ⟨u, hu, _, hh⟩ | ⟨_, hh⟩
  · rw [hh] at h ⊢
    simp only [Call.enqueue.injEq] at h
    exact ⟨u, hu, by rw [h.1, h.2]⟩
  · rw [hh] at h; exact absurd h (by simp)

theorem handOff_not_put (s : Submitter) (uploader : Option Uploader) (verdict : FileVerdict)
    (filePath msg : GoString) (v : FileVerdict) :
    (handOff s uploader verdict filePath msg).1 ≠ Call.put v := by
  rcases handOff_kind s uploader verdict filePath msg with h | h <;> rw [h] <;> simp

/-- A call to the submitter or the uploader that returns an error ends the
dispatch with that error, and the store then holds the verdict of the scan. -/
theorem recordAndReport_failed_handOff (marshal : MarshalFn) (env : DispatchEnv)
    (fiev : FileInfoEvent) (s : Submitter) (uploader : Option Uploader) (verdict : FileVerdict)
    (db : SampleDB) (c : Call) (e : GoError)
    (hc : c ∈ (recordAndReport marshal env fiev s uploader verdict db).2.2)
    (hfail : (∃ m, c = Call.submit m ∧ s.Submit m = some e) ∨
      (∃ up v p, uploader = some up ∧ c = Call.enqueue v p ∧ up.Enqueue v p = some e)) :
    (recordAndReport marshal env fiev s uploader verdict db).1 = some e ∧
    (recordAndReport marshal env fiev s uploader verdict db).2.1.find? verdict.Hashes.Sha512
      = some verdict := by
  have hnp : c ≠ Call.put verdict ∧ ∀ v1, c ≠ Call.put (markReported v1) := by
    rcases hfail with ⟨m, h, _⟩ | ⟨up, v, p, _, h, _⟩ <;> rw [h] <;> simp
  have hres : ∀ v1 msg, c = (handOff s uploader v1 fiev.FilePath msg).1 →
      (handOff s uploader v1 fiev.FilePath msg).2 = some e := by
    intro v1 msg hcall
    rcases hfail with ⟨m, h, hs⟩ | ⟨up, v, p, hu, h, hs⟩
    · rw [handOff_submit s uploader v1 fiev.FilePath msg m (by rw [← hcall, h]), hs]
    · obtain ⟨u, hu2, hr⟩ := handOff_enqueue s uploader v1 fiev.FilePath msg v p
        (by rw [← hcall, h])
      rw [hu] at hu2
      simp only [Option.some.injEq] at hu2
      subst hu2
      rw [hr, hs]
  rcases recordAndReport_cases marshal env fiev s uploader verdict db with
    ⟨e1, _, hr⟩ | ⟨db1, e1, _, _, hr⟩ | ⟨db1, v1, e1, _, _, _, hr⟩ |
    ⟨db1, v1, msg, e1, h1, _, _, hh, hr⟩ | ⟨db1, v1, msg, e1, _, _, _, hh, _, hr⟩ |
    ⟨db1, v1, msg, db2, _, _, _, hh, _, hr⟩
  · rw [hr] at hc; exact absurd hc (by simp)
  · rw [hr] at hc; exact absurd (List.mem_singleton.mp hc) hnp.1
  · rw [hr] at hc; exact absurd (List.mem_singleton.mp hc) hnp.1
  · rw [hr] at hc
    rcases List.mem_cons.mp hc with h | h
    · exact absurd h hnp.1
    · have := hres v1 msg (List.mem_singleton.mp h)
      rw [hh] at this
      simp only [Option.some.injEq] at this
      subst this
      rw [hr]
      exact ⟨rfl, CreateSampleEntry_ok marshal _ db db1 verdict h1⟩
  · rw [hr] at hc
    rcases List.mem_cons.mp hc with h | h
    · exact absurd h hnp.1
    · have := hres v1 msg (List.mem_singleton.mp h)
      rw [hh] at this
      exact absurd this (by simp)
  · rw [hr] at hc
    rcases List.mem_cons.mp hc with h | h
    · exact absurd h hnp.1
    · rcases List.mem_cons.mp h with h | h
      · have := hres v1 msg h
        rw [hh] at this
        exact absurd this (by simp)
      · exact absurd (List.mem_singleton.mp h) (hnp.2 v1)

/-- A verdict stored with `Reported = true` is the last of three calls: the
store of the unreported verdict, a call to the submitter or the uploader that
returned nil, and the store of the reported verdict. -/
theorem recordAndReport_reported (marshal : MarshalFn) (env : DispatchEnv)
    (fiev : FileInfoEvent) (s : Submitter) (uploader : Option Uploader) (verdict : FileVerdict)
    (db : SampleDB) (v : FileVerdict) (hv0 : verdict.Reported = false)
    (hc : Call.put v ∈ (recordAndReport marshal env fiev s uploader verdict db).2.2)
    (hrep : v.Reported = true) :
    ∃ call, (recordAndReport marshal env fiev s uploader verdict db).2.2
        = [Call.put verdict, call, Call.put v] ∧
      ((∃ m, call = Call.submit m ∧ s.Submit m = none) ∨
        (∃ up vd p, uploader = some up ∧ call = Call.enqueue vd p ∧ up.Enqueue vd p = none)) := by
  have hne : Call.put v ≠ Call.put verdict := by
    intro h
    simp only [Call.put.injEq] at h
    rw [h, hv0] at hrep
    exact absurd hrep (by simp)
  rcases recordAndReport_cases marshal env fiev s uploader verdict db with
    ⟨e1, _, hr⟩ | ⟨db1, e1, _, _, hr⟩ | ⟨db1, v1, e1, _, _, _, hr⟩ |
    ⟨db1, v1, msg, e1, h1, _, _, hh, hr⟩ | ⟨db1, v1, msg, e1, _, _, _, hh, _, hr⟩ |
    ⟨db1, v1, msg, db2, _, _, _, hh, _, hr⟩
  · rw [hr] at hc; exact absurd hc (by simp)
  · rw [hr] at hc; exact absurd (List.mem_singleton.mp hc) hne
  · rw [hr] at hc; exact absurd (List.mem_singleton.mp hc) hne
  · rw [hr] at hc
    rcases List.mem_cons.mp hc with h | h
    · exact absurd h hne
    · exact absurd (List.mem_singleton.mp h).symm (handOff_not_put _ _ _ _ _ _)
  · rw [hr] at hc
    rcases List.mem_cons.mp hc with h | h
    · exact absurd h hne
    · exact absurd (List.mem_singleton.mp h).symm (handOff_not_put _ _ _ _ _ _)
  · rw [hr] at hc
    rcases List.mem_cons.mp hc with h | h
    · exact absurd h hne
    · rcases List.mem_cons.mp h with h | h
      · exact absurd h.symm (handOff_not_put _ _ _ _ _ _)
      · have hv : v = markReported v1 := by
          simpa using List.mem_singleton.mp h
        subst hv
        refine ⟨(handOff s uploader v1 fiev.FilePath msg).1, by rw [hr], ?_⟩
        rcases handOff_cases s uploader v1 fiev.FilePath msg with ⟨u, hu, _, hk⟩ | ⟨_, hk⟩
        · rw [hk] at hh ⊢
          exact Or.inr ⟨u, v1, fiev.FilePath, hu, rfl, hh⟩
        · rw [hk] at hh ⊢
          exact Or.inl ⟨msg, rfl, hh⟩

/-! ## Analyzer dispatch: claims C5 to C10 -/

/-- C5: on a file that can be opened and hashed, with a readable store: when
the store holds an entry for the file's SHA-512 with
`now - entry.Time < rescanTimeframe`, `PluginIterator` returns nil, leaves the
store as it was and calls nothing (no analyzer, no submit, no upload); when
there is no entry, or `now - entry.Time >= rescanTimeframe`, the analyzers
invoked are exactly the registered ones, each once, in registration order. -/
theorem C5_rescan_window (reg : Registry) (unmarshalAny : GoString → Option JSONValue)
    (marshal : MarshalFn) (env : DispatchEnv) (fiev : FileInfoEvent) (s : Submitter)
    (uploader : Option Uploader) (db : SampleDB) (sampleStat : FileStat) (hashes : HashInfo)
    (hwf : db.WellFormed)
    (hopen : env.openErr = none) (hstat : env.statResult = .ok sampleStat)
    (hhash : env.hashResult = .ok hashes) (hview : env.viewFault = none) :
    (∀ entry, db.find? hashes.Sha512 = some entry →
      timeSub env.now1 entry.Time < reg.rescanTimeframe →
      PluginIterator reg unmarshalAny marshal env fiev s uploader db = (none, db, [])) ∧
    ((db.find? hashes.Sha512 = none ∨
        ∃ entry, db.find? hashes.Sha512 = some entry ∧
          reg.rescanTimeframe ≤ timeSub env.now1 entry.Time) →
      analyzerCalls (PluginIterator reg unmarshalAny marshal env fiev s uploader db).2.2
        = reg.AnalysisPlugins.map
            (fun p => (p.Name, { FD := env.fd, Info := sampleStat, OrigPath := fiev.FilePath }))) := by
  constructor
  · intro entry hfind hfresh
    have hne : entry.Hashes.Sha512 ≠ [] := by
      obtain ⟨h1, h2⟩ := wellFormed_find db hwf _ entry hfind
      rw [h1]; exact h2
    exact PluginIterator_early _ _ _ _ _ _ _ _ _
      (openAndLookup_fresh reg env db sampleStat hashes entry hopen hstat hhash hview hne hfind
        hfresh)
  · intro hstale
    exact PluginIterator_analyzerCalls _ _ _ _ _ _ _ _ _ _
      (openAndLookup_stale reg env db sampleStat hashes hopen hstat hhash hview hstale)

theorem testDB_wellFormed : testDB.WellFormed := by
  intro entries hb k v hm
  simp only [testDB, Option.some.injEq] at hb
  subst hb
  simp only [List.mem_singleton, Prod.mk.injEq] at hm
  obtain ⟨rfl, rfl⟩ := hm
  exact ⟨rfl, by decide⟩

theorem emptyDB_wellFormed : emptyDB.WellFormed := by
  intro entries hb
  simp [emptyDB] at hb

/-- Witness of C5 on the steps of `TestRescanTimeframe`: with an entry scanned
at time 20 and the clock at 30, nothing is called and the store is unchanged;
on the empty store the test plugin is invoked once. -/
theorem C5_witness_rescan_timeframe :
    PluginIterator (testRegistry [testPlugin]) testUnmarshal testMarshal (testEnv 30 40)
        testEvent dummySubmitter none testDB = (none, testDB, []) ∧
    analyzerCalls (PluginIterator (testRegistry [testPlugin]) testUnmarshal testMarshal
        (testEnv 10 20) testEvent dummySubmitter none emptyDB).2.2
      = [testPlugin].map
          (fun p => (p.Name, { FD := 3, Info := { ModTime := 1000, Size := 7 },
                               OrigPath := testEvent.FilePath })) :=
  ⟨(C5_rescan_window (testRegistry [testPlugin]) testUnmarshal testMarshal (testEnv 30 40)
      testEvent dummySubmitter none testDB { ModTime := 1000, Size := 7 } testHashes
      testDB_wellFormed rfl rfl rfl rfl).1
      { emptyVerdict with Hashes := testHashes, Time := 20, Reported := true }
      (by simp [SampleDB.find?, testDB, List.lookup]) (by decide),
   (C5_rescan_window (testRegistry [testPlugin]) testUnmarshal testMarshal (testEnv 10 20)
      testEvent dummySubmitter none emptyDB { ModTime := 1000, Size := 7 } testHashes
      emptyDB_wellFormed rfl rfl rfl rfl).2 (Or.inl rfl)⟩

/-- C6 (as stated, refuted): two dispatches of the same file, ten nanoseconds
apart and so within one rescan window of 72 hours, invoke the analyzer twice
when the store write of the first dispatch fails, since no entry is left for
the second dispatch to find. -/
theorem C6_counterexample_failed_store_write :
    timeSub (testEnv 30 40).now1 (writeFaultEnv 10 20).now2
      < (testRegistry [testPlugin]).rescanTimeframe ∧
    (analyzerCalls (dispatchAll (testRegistry [testPlugin]) testUnmarshal testMarshal
      dummySubmitter none [(writeFaultEnv 10 20, testEvent), (testEnv 30 40, testEvent)]
      emptyDB).2).length = 2 := by
  decide

/-- C6 (amended): in a sequence of dispatches, one after the other, of files
with the same SHA-512, where the first dispatch finds no entry younger than the
rescan time and its store write succeeds, and every later dispatch starts less
than the rescan time after the scan time of the first: the analyzers are
invoked exactly once each, in registration order, by the first dispatch. -/
theorem C6_one_scan_per_window (reg : Registry) (unmarshalAny : GoString → Option JSONValue)
    (marshal : MarshalFn) (s : Submitter) (uploader : Option Uploader) (db : SampleDB)
    (env0 : DispatchEnv) (fiev0 : FileInfoEvent) (rest : List (DispatchEnv × FileInfoEvent))
    (sampleStat : FileStat) (hashes : HashInfo)
    (hopen : env0.openErr = none) (hstat : env0.statResult = .ok sampleStat)
    (hhash : env0.hashResult = .ok hashes) (hview : env0.viewFault = none)
    (hstale : db.find? hashes.Sha512 = none ∨
      ∃ entry, db.find? hashes.Sha512 = some entry ∧
        reg.rescanTimeframe ≤ timeSub env0.now1 entry.Time)
    (hwrite : (CreateSampleEntry marshal env0.firstWriteFault db
      (scanVerdict reg unmarshalAny env0 fiev0 sampleStat hashes).1).1 = none)
    (hrest : ∀ d ∈ rest, d.1.openErr = none ∧ (∃ st, d.1.statResult = .ok st) ∧
      (∃ h, d.1.hashResult = .ok h ∧ h.Sha512 = hashes.Sha512) ∧ d.1.viewFault = none ∧
      timeSub d.1.now1 env0.now2 < reg.rescanTimeframe) :
    analyzerCalls
        (dispatchAll reg unmarshalAny marshal s uploader ((env0, fiev0) :: rest) db).2
      = reg.AnalysisPlugins.map
          (fun p => (p.Name,
            { FD := env0.fd, Info := sampleStat, OrigPath := fiev0.FilePath })) := by
  have hl := openAndLookup_stale reg env0 db sampleStat hashes hopen hstat hhash hview hstale
  obtain ⟨entry, hfind, ht, hsha, hne⟩ :=
    PluginIterator_leaves_entry reg unmarshalAny marshal env0 fiev0 s uploader db sampleStat
      hashes hl hwrite
  have hcalls := PluginIterator_analyzerCalls reg unmarshalAny marshal env0 fiev0 s uploader db
    sampleStat hashes hl
  have hrest2 := dispatchAll_fresh reg unmarshalAny marshal s uploader hashes.Sha512 env0.now2
    rest (PluginIterator reg unmarshalAny marshal env0 fiev0 s uploader db).2.1
    ⟨entry, hfind, ht, by rw [hsha]; exact hne⟩ hrest
  simp only [dispatchAll, hrest2, List.append_nil]
  exact hcalls

/-- Witness of C6 on the first two steps of `TestRescanTimeframe`: two
dispatches of the same file invoke the test plugin once. -/
theorem C6_witness_two_dispatches :
    analyzerCalls
        (dispatchAll (testRegistry [testPlugin]) testUnmarshal testMarshal dummySubmitter none
          ((testEnv 10 20, testEvent) :: [(testEnv 30 40, testEvent)]) emptyDB).2
      = [testPlugin].map
          (fun p => (p.Name, { FD := 3, Info := { ModTime := 1000, Size := 7 },
                               OrigPath := testEvent.FilePath })) :=
  C6_one_scan_per_window (testRegistry [testPlugin]) testUnmarshal testMarshal dummySubmitter
    none emptyDB (testEnv 10 20) testEvent [(testEnv 30 40, testEvent)]
    { ModTime := 1000, Size := 7 } testHashes rfl rfl rfl rfl (Or.inl rfl) (by decide)
    (by
      intro d hd
      simp only [List.mem_singleton] at hd
      subst hd
      exact ⟨rfl, ⟨_, rfl⟩, ⟨_, rfl, rfl⟩, rfl, by decide⟩)

/-- C7 (as stated, refuted): an analyzer whose `ProcessFile` returns
`suspicious = true` without error, but with a reason that is not JSON, is
invoked by a dispatch that reaches the analyzer loop, and the verdict stored
for the file is not suspicious and names no analyzer. -/
theorem C7_counterexample_garbled_reason :
    (garbledPlugin.ProcessFile
      { FD := 3, Info := { ModTime := 1000, Size := 7 }, OrigPath := testEvent.FilePath }).2
      = (true, none) ∧
    (analyzerCalls (PluginIterator (testRegistry [garbledPlugin]) testUnmarshal testMarshal
      (testEnv 10 20) testEvent dummySubmitter none emptyDB).2.2).map (fun c => c.1)
      = [garbledPlugin.Name] ∧
    ((PluginIterator (testRegistry [garbledPlugin]) testUnmarshal testMarshal
      (testEnv 10 20) testEvent dummySubmitter none emptyDB).2.1.find? testHashes.Sha512).map
        (fun v => (v.Suspicious, v.SuspiciousVia)) = some (false, []) := by
  decide

/-- C7 (amended): in a dispatch that reaches the analyzer loop, the verdict is
suspicious if and only if some registered analyzer returned `suspicious = true`
together with no error and a reason that is empty or decodes as JSON, and
`SuspiciousVia` lists the names of exactly those analyzers, in registration
order; every verdict the dispatch stores or enqueues carries the same two
fields. -/
theorem C7_suspicious_iff_flagged (reg : Registry) (unmarshalAny : GoString → Option JSONValue)
    (marshal : MarshalFn) (env : DispatchEnv) (fiev : FileInfoEvent) (s : Submitter)
    (uploader : Option Uploader) (db : SampleDB) (sampleStat : FileStat) (hashes : HashInfo)
    (hloop : openAndLookup reg env db = .ok (sampleStat, hashes)) :
    ((scanVerdict reg unmarshalAny env fiev sampleStat hashes).1.Suspicious = true ↔
      ∃ p ∈ reg.AnalysisPlugins,
        flagsFile unmarshalAny
          { FD := env.fd, Info := sampleStat, OrigPath := fiev.FilePath } p = true) ∧
    (scanVerdict reg unmarshalAny env fiev sampleStat hashes).1.SuspiciousVia
      = (reg.AnalysisPlugins.filter
          (flagsFile unmarshalAny
            { FD := env.fd, Info := sampleStat, OrigPath := fiev.FilePath })).map
          (fun p => p.Name) ∧
    ∀ v, (Call.put v ∈ (PluginIterator reg unmarshalAny marshal env fiev s uploader db).2.2 ∨
        ∃ p, Call.enqueue v p
          ∈ (PluginIterator reg unmarshalAny marshal env fiev s uploader db).2.2) →
      v.Suspicious = (scanVerdict reg unmarshalAny env fiev sampleStat hashes).1.Suspicious ∧
      v.SuspiciousVia
        = (scanVerdict reg unmarshalAny env fiev sampleStat hashes).1.SuspiciousVia := by
  obtain ⟨_, _, _, h4, h5⟩ := scanVerdict_fields reg unmarshalAny env fiev sampleStat hashes
  refine ⟨?_, h5, ?_⟩
  · rw [h4, List.any_eq_true]
  · intro v hv
    exact PluginIterator_verdicts reg unmarshalAny marshal env fiev s uploader db sampleStat
      hashes hloop v hv

/-- Witness of C7: with the plugins `test`, `garbled`, `failing` and `flagging`
registered, the verdict is suspicious through the flagging plugin alone. -/
theorem C7_witness_flagging_plugin :
    ((scanVerdict (testRegistry [testPlugin, garbledPlugin, failingPlugin, flaggingPlugin])
        testUnmarshal (testEnv 10 20) testEvent { ModTime := 1000, Size := 7 }
        testHashes).1.Suspicious = true ↔
      ∃ p ∈ [testPlugin, garbledPlugin, failingPlugin, flaggingPlugin],
        flagsFile testUnmarshal
          { FD := 3, Info := { ModTime := 1000, Size := 7 },
            OrigPath := testEvent.FilePath } p = true) ∧
    (scanVerdict (testRegistry [testPlugin, garbledPlugin, failingPlugin, flaggingPlugin])
        testUnmarshal (testEnv 10 20) testEvent { ModTime := 1000, Size := 7 }
        testHashes).1.SuspiciousVia = [flaggingPlugin.Name] :=
  ⟨(C7_suspicious_iff_flagged
      (testRegistry [testPlugin, garbledPlugin, failingPlugin, flaggingPlugin]) testUnmarshal
      testMarshal (testEnv 10 20) testEvent dummySubmitter none emptyDB
      { ModTime := 1000, Size := 7 } testHashes rfl).1,
   (C7_suspicious_iff_flagged
      (testRegistry [testPlugin, garbledPlugin, failingPlugin, flaggingPlugin]) testUnmarshal
      testMarshal (testEnv 10 20) testEvent dummySubmitter none emptyDB
      { ModTime := 1000, Size := 7 } testHashes rfl).2.1.trans (by decide)⟩

/-- C8: an analyzer whose `ProcessFile` returns an error changes nothing but
the list of analyzers invoked: the error returned by `PluginIterator`, the
store afterwards, the verdicts stored and the calls to submitter and uploader
are those of the same dispatch without that analyzer in the list; and when the
dispatch reaches the loop, every analyzer of the list, the later ones
included, is invoked, and the scan yields the same verdict. -/
theorem C8_failing_analyzer_is_skipped (unmarshalAny : GoString → Option JSONValue)
    (marshal : MarshalFn) (env : DispatchEnv) (fiev : FileInfoEvent) (s : Submitter)
    (uploader : Option Uploader) (db : SampleDB) (pre post : List AnalysisPlugin)
    (bad : AnalysisPlugin) (rt : GoDuration) (sensor : GoString)
    (hbad : ∀ sampleStat, env.statResult = .ok sampleStat →
      (bad.ProcessFile
        { FD := env.fd, Info := sampleStat, OrigPath := fiev.FilePath }).2.2 ≠ none) :
    (PluginIterator (Registry.mk (pre ++ bad :: post) rt sensor) unmarshalAny marshal env fiev
        s uploader db).1
      = (PluginIterator (Registry.mk (pre ++ post) rt sensor) unmarshalAny marshal env fiev
          s uploader db).1 ∧
    (PluginIterator (Registry.mk (pre ++ bad :: post) rt sensor) unmarshalAny marshal env fiev
        s uploader db).2.1
      = (PluginIterator (Registry.mk (pre ++ post) rt sensor) unmarshalAny marshal env fiev
          s uploader db).2.1 ∧
    otherCalls (PluginIterator (Registry.mk (pre ++ bad :: post) rt sensor) unmarshalAny
        marshal env fiev s uploader db).2.2
      = otherCalls (PluginIterator (Registry.mk (pre ++ post) rt sensor) unmarshalAny
          marshal env fiev s uploader db).2.2 ∧
    ∀ sampleStat hashes,
      openAndLookup (Registry.mk (pre ++ bad :: post) rt sensor) env db
          = .ok (sampleStat, hashes) →
      analyzerCalls (PluginIterator (Registry.mk (pre ++ bad :: post) rt sensor) unmarshalAny
          marshal env fiev s uploader db).2.2
        = (pre ++ bad :: post).map
            (fun p => (p.Name,
              { FD := env.fd, Info := sampleStat, OrigPath := fiev.FilePath })) ∧
      (scanVerdict (Registry.mk (pre ++ bad :: post) rt sensor) unmarshalAny env fiev
          sampleStat hashes).1
        = (scanVerdict (Registry.mk (pre ++ post) rt sensor) unmarshalAny env fiev
            sampleStat hashes).1 := by
  have hsame : openAndLookup (Registry.mk (pre ++ bad :: post) rt sensor) env db
      = openAndLookup (Registry.mk (pre ++ post) rt sensor) env db := rfl
  cases h : openAndLookup (Registry.mk (pre ++ bad :: post) rt sensor) env db with
  | error r =>
    have h2 := hsame ▸ h
    rw [PluginIterator_early _ _ _ _ _ _ _ _ _ h, PluginIterator_early _ _ _ _ _ _ _ _ _ h2]
    exact ⟨rfl, rfl, rfl, fun _ _ hx => absurd hx (by simp)⟩
  | ok x =>
    rcases x with ⟨sampleStat, hashes⟩
    have h2 := hsame ▸ h
    have hstat := (openAndLookup_ok_inv _ _ _ _ _ h).1
    have hv := scanVerdict_skip_failing unmarshalAny env fiev sampleStat hashes pre post bad rt
      sensor (hbad sampleStat hstat)
    refine ⟨?_, ?_, ?_, ?_⟩
    · rw [PluginIterator_scan _ _ _ _ _ _ _ _ _ _ h, PluginIterator_scan _ _ _ _ _ _ _ _ _ _ h2,
        hv]
    · rw [PluginIterator_scan _ _ _ _ _ _ _ _ _ _ h, PluginIterator_scan _ _ _ _ _ _ _ _ _ _ h2,
        hv]
    · rw [PluginIterator_scan _ _ _ _ _ _ _ _ _ _ h, PluginIterator_scan _ _ _ _ _ _ _ _ _ _ h2,
        hv]
      simp only [otherCalls_append, scanVerdict_calls, (calls_map_processFile _ _).2.1]
    · intro st2 hs2 hx
      simp only [Except.ok.injEq, Prod.mk.injEq] at hx
      obtain ⟨rfl, rfl⟩ := hx
      exact ⟨PluginIterator_analyzerCalls _ _ _ _ _ _ _ _ _ _ h, hv⟩

/-- Witness of C8: the failing plugin between the test plugin and the flagging
plugin leaves the result of the dispatch as it is without it. -/
theorem C8_witness_failing_plugin :
    (PluginIterator (Registry.mk ([testPlugin] ++ failingPlugin :: [flaggingPlugin])
        259200000000000 (go "sensor")) testUnmarshal testMarshal (testEnv 10 20) testEvent
        dummySubmitter none emptyDB).1
      = (PluginIterator (Registry.mk ([testPlugin] ++ [flaggingPlugin])
          259200000000000 (go "sensor")) testUnmarshal testMarshal (testEnv 10 20) testEvent
          dummySubmitter none emptyDB).1 ∧
    analyzerCalls (PluginIterator (Registry.mk ([testPlugin] ++ failingPlugin :: [flaggingPlugin])
        259200000000000 (go "sensor")) testUnmarshal testMarshal (testEnv 10 20) testEvent
        dummySubmitter none emptyDB).2.2
      = ([testPlugin] ++ failingPlugin :: [flaggingPlugin]).map
          (fun p => (p.Name, { FD := 3, Info := { ModTime := 1000, Size := 7 },
                               OrigPath := testEvent.FilePath })) :=
  ⟨(C8_failing_analyzer_is_skipped testUnmarshal testMarshal (testEnv 10 20) testEvent
      dummySubmitter none emptyDB [testPlugin] [flaggingPlugin] failingPlugin 259200000000000
      (go "sensor") (fun _ _ => by simp [failingPlugin])).1,
   ((C8_failing_analyzer_is_skipped testUnmarshal testMarshal (testEnv 10 20) testEvent
      dummySubmitter none emptyDB [testPlugin] [flaggingPlugin] failingPlugin 259200000000000
      (go "sensor") (fun _ _ => by simp [failingPlugin])).2.2.2
      { ModTime := 1000, Size := 7 } testHashes rfl).1⟩

/-- C9 (as stated, refuted): a scan that completes (the test plugin is invoked)
while the store write after it fails hands the verdict to neither the
submitter nor the uploader. -/
theorem C9_counterexample_failed_store_write :
    (analyzerCalls (PluginIterator (testRegistry [testPlugin]) testUnmarshal testMarshal
      (writeFaultEnv 10 20) testEvent dummySubmitter (some testUploader) emptyDB).2.2).length
      = 1 ∧
    (handOffCalls (PluginIterator (testRegistry [testPlugin]) testUnmarshal testMarshal
      (writeFaultEnv 10 20) testEvent dummySubmitter (some testUploader) emptyDB).2.2).length
      = 0 ∧
    (PluginIterator (testRegistry [testPlugin]) testUnmarshal testMarshal
      (writeFaultEnv 10 20) testEvent dummySubmitter (some testUploader) emptyDB).1
      = some (go "database not open") := by
  decide

/-- C9 (amended): in a dispatch whose scan completes and whose first store
write, metafile read and JSON encoding succeed, exactly one call goes to the
submitter or the uploader: `Enqueue` with the verdict and the file path when an
uploader is configured and the verdict is suspicious, and `Submit` with the
JSON text of the verdict in every other case. -/
theorem C9_uploader_or_submitter (reg : Registry) (unmarshalAny : GoString → Option JSONValue)
    (marshal : MarshalFn) (env : DispatchEnv) (fiev : FileInfoEvent) (s : Submitter)
    (uploader : Option Uploader) (db : SampleDB) (sampleStat : FileStat) (hashes : HashInfo)
    (verdict1 : FileVerdict) (msg : GoString)
    (hloop : openAndLookup reg env db = .ok (sampleStat, hashes))
    (hwrite : (CreateSampleEntry marshal env.firstWriteFault db
      (scanVerdict reg unmarshalAny env fiev sampleStat hashes).1).1 = none)
    (hattach : attachMetaFile env (scanVerdict reg unmarshalAny env fiev sampleStat hashes).1
      = .ok verdict1)
    (hmsg : marshal verdict1 = .ok msg) :
    verdict1.Suspicious = (scanVerdict reg unmarshalAny env fiev sampleStat hashes).1.Suspicious ∧
    ((uploader ≠ none ∧ verdict1.Suspicious = true) →
      handOffCalls (PluginIterator reg unmarshalAny marshal env fiev s uploader db).2.2
        = [Call.enqueue verdict1 fiev.FilePath]) ∧
    (¬ (uploader ≠ none ∧ verdict1.Suspicious = true) →
      handOffCalls (PluginIterator reg unmarshalAny marshal env fiev s uploader db).2.2
        = [Call.submit msg]) := by
  have hcalls : handOffCalls (PluginIterator reg unmarshalAny marshal env fiev s uploader db).2.2
      = [(handOff s uploader verdict1 fiev.FilePath msg).1] := by
    rw [PluginIterator_scan _ _ _ _ _ _ _ _ _ _ hloop]
    simp only [handOffCalls_append, scanVerdict_calls, (calls_map_processFile _ _).2.2,
      List.nil_append]
    exact handOffCalls_recordAndReport marshal env fiev s uploader _ verdict1 db msg hwrite
      hattach hmsg
  refine ⟨(attachMetaFile_fields env _ verdict1 hattach).1, ?_, ?_⟩
  · rintro ⟨hu, hs⟩
    rw [hcalls]
    rcases handOff_cases s uploader verdict1 fiev.FilePath msg with ⟨u, _, _, h⟩ | ⟨h1, h⟩
    · rw [h]
    · rcases h1 with h1 | h1
      · exact absurd h1 hu
      · rw [hs] at h1; exact absurd h1 (by simp)
  · intro hn
    rw [hcalls]
    rcases handOff_cases s uploader verdict1 fiev.FilePath msg with ⟨u, hu, hs, h⟩ | ⟨_, h⟩
    · exact absurd ⟨by simp [hu], hs⟩ hn
    · rw [h]

/-- Witness of C9: with an uploader configured and the flagging plugin
registered, the one call is `Enqueue` with the verdict and the file path. -/
theorem C9_witness_suspicious_upload :
    handOffCalls (PluginIterator (testRegistry [flaggingPlugin]) testUnmarshal testMarshal
        (testEnv 10 20) testEvent dummySubmitter (some testUploader) emptyDB).2.2
      = [Call.enqueue
          (scanVerdict (testRegistry [flaggingPlugin]) testUnmarshal (testEnv 10 20) testEvent
            { ModTime := 1000, Size := 7 } testHashes).1 testEvent.FilePath] :=
  (C9_uploader_or_submitter (testRegistry [flaggingPlugin]) testUnmarshal testMarshal
    (testEnv 10 20) testEvent dummySubmitter (some testUploader) emptyDB
    { ModTime := 1000, Size := 7 } testHashes
    (scanVerdict (testRegistry [flaggingPlugin]) testUnmarshal (testEnv 10 20) testEvent
      { ModTime := 1000, Size := 7 } testHashes).1
    (go "\x7b\"Sha512\":\"65019286\"\x7d") rfl (by decide) rfl rfl).2.1
    ⟨by simp, by decide⟩

/-- C10: when a call of `Submit` or `Enqueue` made by a dispatch returns an
error, `PluginIterator` returns that error and the store holds an entry for
the SHA-512 of the file with `Reported = false`; and a verdict is stored with
`Reported = true` only as the last of three calls, after the store of the
unreported verdict and a call of `Submit` or `Enqueue` that returned nil. -/
theorem C10_failed_hand_off_stays_unreported (reg : Registry)
    (unmarshalAny : GoString → Option JSONValue) (marshal : MarshalFn) (env : DispatchEnv)
    (fiev : FileInfoEvent) (s : Submitter) (uploader : Option Uploader) (db : SampleDB) :
    (∀ e,
      ((∃ m, Call.submit m ∈ (PluginIterator reg unmarshalAny marshal env fiev s uploader db).2.2
          ∧ s.Submit m = some e) ∨
       (∃ up v p, uploader = some up ∧
          Call.enqueue v p ∈ (PluginIterator reg unmarshalAny marshal env fiev s uploader db).2.2
          ∧ up.Enqueue v p = some e)) →
      (PluginIterator reg unmarshalAny marshal env fiev s uploader db).1 = some e ∧
      ∃ hashes entry, env.hashResult = .ok hashes ∧
        (PluginIterator reg unmarshalAny marshal env fiev s uploader db).2.1.find? hashes.Sha512
          = some entry ∧
        entry.Reported = false) ∧
    (∀ v, Call.put v ∈ (PluginIterator reg unmarshalAny marshal env fiev s uploader db).2.2 →
      v.Reported = true →
      ∃ scanned v0 call,
        (PluginIterator reg unmarshalAny marshal env fiev s uploader db).2.2
          = scanned ++ [Call.put v0, call, Call.put v] ∧
        v0.Reported = false ∧
        ((∃ m, call = Call.submit m ∧ s.Submit m = none) ∨
          (∃ up vd p, uploader = some up ∧ call = Call.enqueue vd p ∧
            up.Enqueue vd p = none))) := by
  constructor
  · intro e hfail
    have hex : ∃ c, c ∈ (PluginIterator reg unmarshalAny marshal env fiev s uploader db).2.2 ∧
        ((∃ m, c = Call.submit m ∧ s.Submit m = some e) ∨
          (∃ up v p, uploader = some up ∧ c = Call.enqueue v p ∧ up.Enqueue v p = some e)) := by
      rcases hfail with ⟨m, hm, hs⟩ | ⟨up, v, p, hu, hm, hs⟩
      · exact ⟨_, hm, Or.inl ⟨m, rfl, hs⟩⟩
      · exact ⟨_, hm, Or.inr ⟨up, v, p, hu, rfl, hs⟩⟩
    obtain ⟨c, hc, hshape⟩ := hex
    have hnp : ∀ name sample, c ≠ Call.processFile name sample := by
      intro name sample he
      rcases hshape with ⟨m, h, _⟩ | ⟨up, v, p, _, h, _⟩ <;> rw [h] at he <;>
        exact absurd he (by simp)
    obtain ⟨st, hs, hl, hmem⟩ := PluginIterator_calls_mem _ _ _ _ _ _ _ _ c hc hnp
    obtain ⟨_, hh, hrep, _, _⟩ := scanVerdict_fields reg unmarshalAny env fiev st hs
    obtain ⟨r1, r2⟩ := recordAndReport_failed_handOff marshal env fiev s uploader _ db c e hmem
      hshape
    rw [PluginIterator_scan _ _ _ _ _ _ _ _ _ _ hl]
    rw [hh] at r2
    exact ⟨r1, hs, _, (openAndLookup_ok_inv _ _ _ _ _ hl).2, r2, hrep⟩
  · intro v hv hrep
    obtain ⟨st, hs, hl, hmem⟩ := PluginIterator_calls_mem _ _ _ _ _ _ _ _ (Call.put v) hv
      (by intro name sample he; exact absurd he (by simp))
    obtain ⟨_, _, hrep0, _, _⟩ := scanVerdict_fields reg unmarshalAny env fiev st hs
    obtain ⟨call, hcalls, hcall⟩ := recordAndReport_reported marshal env fiev s uploader _ db v
      hrep0 hmem hrep
    rw [PluginIterator_scan _ _ _ _ _ _ _ _ _ _ hl]
    exact ⟨_, _, call, by rw [hcalls], hrep0, hcall⟩

/-- Witness of C10: with the broker down, the dispatch of the test file
returns the error of `Submit` and leaves an unreported entry in the store. -/
theorem C10_witness_broker_down :
    (PluginIterator (testRegistry [testPlugin]) testUnmarshal testMarshal (testEnv 10 20)
        testEvent downSubmitter none emptyDB).1 = some (go "channel closed") ∧
    ∃ hashes entry, (testEnv 10 20).hashResult = .ok hashes ∧
      (PluginIterator (testRegistry [testPlugin]) testUnmarshal testMarshal (testEnv 10 20)
        testEvent downSubmitter none emptyDB).2.1.find? hashes.Sha512 = some entry ∧
      entry.Reported = false :=
  (C10_failed_hand_off_stays_unreported (testRegistry [testPlugin]) testUnmarshal testMarshal
    (testEnv 10 20) testEvent downSubmitter none emptyDB).1 (go "channel closed")
    (Or.inl ⟨go "\x7b\"Sha512\":\"65019286\"\x7d",
      List.mem_cons_of_mem _ (List.mem_cons_of_mem _ (List.mem_singleton.mpr rfl)), rfl⟩)

/-! ## Regular expressions as decompositions of the input -/

theorem isPrefixOf_iff_append (p s : GoString) :
    p.isPrefixOf s = true ↔ ∃ t, s = p ++ t := by
  rw [List.isPrefixOf_iff_prefix]
  constructor
  · rintro ⟨t, ht⟩
    exact ⟨t, ht.symm⟩
  · rintro ⟨t, ht⟩
    exact ⟨t, ht.symm⟩

theorem anySuffix_iff (p : GoString → Bool) (s : GoString) :
    anySuffix p s = true ↔ ∃ pre rest, s = pre ++ rest ∧ p rest = true := by
  induction s with
  | nil =>
    simp only [anySuffix]
    constructor
    · intro h
      exact ⟨[], [], rfl, h⟩
    · rintro ⟨pre, rest, h, hp⟩
      have h2 := List.append_eq_nil.mp h.symm
      rw [h2.2] at hp
      exact hp
  | cons c cs ih =>
    simp only [anySuffix, Bool.or_eq_true, ih]
    constructor
    · rintro (h | ⟨pre, rest, h, hp⟩)
      · exact ⟨[], c :: cs, rfl, h⟩
      · exact ⟨c :: pre, rest, by rw [h]; rfl, hp⟩
    · rintro ⟨pre, rest, h, hp⟩
      cases pre with
      | nil =>
        left
        rw [h]
        exact hp
      | cons d pre1 =>
        right
        simp only [List.cons_append, List.cons.injEq] at h
        exact ⟨pre1, rest, h.2, hp⟩

theorem go_executable_ne_nil : go "executable" ≠ [] := by decide
theorem go_shared_object_ne_nil : go "shared object" ≠ [] := by decide
theorem go_ELF_length : (go "ELF").length = 3 := by decide
theorem go_MachO_length : (go "Mach-O").length = 6 := by decide

/-- The sub-pattern `.*(executable|shared object)` matches at the start of the
input exactly when a line-feed-free run is followed by one of the two words. -/
theorem matchExecutableTail_iff (s : GoString) :
    matchExecutableTail s = true ↔
      ∃ mid b post, s = mid ++ b ++ post ∧ (b = go "executable" ∨ b = go "shared object") ∧
        newline ∉ mid := by
  induction s with
  | nil =>
    simp only [matchExecutableTail]
    constructor
    · intro h
      exact absurd h (by simp)
    · rintro ⟨mid, b, post, h, hb, -⟩
      have h2 := List.append_eq_nil.mp h.symm
      have h3 := List.append_eq_nil.mp h2.1
      rcases hb with hb | hb
      · exact absurd (hb ▸ h3.2) go_executable_ne_nil
      · exact absurd (hb ▸ h3.2) go_shared_object_ne_nil
  | cons c cs ih =>
    simp only [matchExecutableTail, Bool.or_eq_true, Bool.and_eq_true, ih, isPrefixOf_iff_append,
      bne_iff_ne, ne_eq]
    constructor
    · rintro ((⟨t, ht⟩ | ⟨t, ht⟩) | ⟨hc, mid, b, post, h, hb, hmid⟩)
      · exact ⟨[], go "executable", t, by simpa using ht, Or.inl rfl, by simp⟩
      · exact ⟨[], go "shared object", t, by simpa using ht, Or.inr rfl, by simp⟩
      · refine ⟨c :: mid, b, post, by rw [h]; simp, hb, ?_⟩
        intro hmem
        rcases List.mem_cons.mp hmem with h1 | h1
        · exact hc h1.symm
        · exact hmid h1
    · rintro ⟨mid, b, post, h, hb, hmid⟩
      cases mid with
      | nil =>
        left
        rcases hb with hb | hb
        · left
          exact ⟨post, by rw [h, hb]; simp⟩
        · right
          exact ⟨post, by rw [h, hb]; simp⟩
      | cons d mid1 =>
        right
        simp only [List.cons_append, List.cons.injEq] at h
        refine ⟨?_, mid1, b, post, h.2, hb, ?_⟩
        · intro hc
          apply hmid
          rw [← h.1, hc]
          exact List.mem_cons_self _ _
        · intro hmem
          exact hmid (List.mem_cons_of_mem _ hmem)

/-- The pattern `WinExecutables` matches at the start of the input exactly when
the input starts with one of its alternatives. -/
theorem matchWinExecutablesHere_iff (s : GoString) :
    matchWinExecutablesHere s = true ↔
      (∃ post, s = go "for MS Windows" ++ post) ∨
      (∃ a mid b post, s = a ++ mid ++ b ++ post ∧ (a = go "ELF" ∨ a = go "Mach-O") ∧
        (b = go "executable" ∨ b = go "shared object") ∧ newline ∉ mid) := by
  simp only [matchWinExecutablesHere, Bool.or_eq_true, Bool.and_eq_true, isPrefixOf_iff_append,
    matchExecutableTail_iff]
  constructor
  · rintro ((h | ⟨⟨t, ht⟩, mid, b, post, h, hb, hmid⟩) | ⟨⟨t, ht⟩, mid, b, post, h, hb, hmid⟩)
    · exact Or.inl h
    · right
      refine ⟨go "ELF", mid, b, post, ?_, Or.inl rfl, hb, hmid⟩
      rw [ht, List.drop_left' go_ELF_length] at h
      rw [ht, h]
      simp
    · right
      refine ⟨go "Mach-O", mid, b, post, ?_, Or.inr rfl, hb, hmid⟩
      rw [ht, List.drop_left' go_MachO_length] at h
      rw [ht, h]
      simp
  · rintro (h | ⟨a, mid, b, post, h, ha, hb, hmid⟩)
    · exact Or.inl (Or.inl h)
    · rcases ha with ha | ha
      · left
        right
        subst ha
        refine ⟨⟨mid ++ b ++ post, by rw [h]; simp⟩, mid, b, post, ?_, hb, hmid⟩
        rw [h]
        simp only [List.append_assoc]
        exact List.drop_left' go_ELF_length
      · right
        subst ha
        refine ⟨⟨mid ++ b ++ post, by rw [h]; simp⟩, mid, b, post, ?_, hb, hmid⟩
        rw [h]
        simp only [List.append_assoc]
        exact List.drop_left' go_MachO_length

/-! ## The magic filter: claim C11 -/

/-- C11. `AllowedMagicPattern` accepts a magic string exactly when it contains
`for MS Windows`, or contains `ELF` or `Mach-O` followed, with no line feed in
between, by `executable` or `shared object`. It accepts the magic string of a
Windows PE32 executable and rejects `Zorgo-Boink V5`, `ISO-8859 text, with very
long lines` and the empty string. -/
theorem C11_allowed_magic_pattern :
    (∀ m : GoString, AllowedMagicPattern m = true ↔
      ((∃ pre post, m = pre ++ go "for MS Windows" ++ post) ∨
       (∃ pre a mid b post, m = pre ++ a ++ mid ++ b ++ post ∧
          (a = go "ELF" ∨ a = go "Mach-O") ∧
          (b = go "executable" ∨ b = go "shared object") ∧ newline ∉ mid))) ∧
    AllowedMagicPattern (go "PE32 executable (GUI) Intel 80386, for MS Windows") = true ∧
    AllowedMagicPattern (go "Zorgo-Boink V5") = false ∧
    AllowedMagicPattern (go "ISO-8859 text, with very long lines") = false ∧
    AllowedMagicPattern (go "") = false := by
  refine ⟨?_, by decide, by decide, by decide, by decide⟩
  intro m
  have hdef : AllowedMagicPattern m = anySuffix matchWinExecutablesHere m := by
    simp [AllowedMagicPattern, allowedMagicPatterns]
  rw [hdef, anySuffix_iff]
  constructor
  · rintro ⟨pre, rest, h, hp⟩
    rcases (matchWinExecutablesHere_iff rest).mp hp with ⟨post, h1⟩ | ⟨a, mid, b, post, h1, ha, hb, hmid⟩
    · left
      exact ⟨pre, post, by rw [h, h1]; simp⟩
    · right
      exact ⟨pre, a, mid, b, post, by rw [h, h1]; simp, ha, hb, hmid⟩
  · rintro (⟨pre, post, h⟩ | ⟨pre, a, mid, b, post, h, ha, hb, hmid⟩)
    · refine ⟨pre, go "for MS Windows" ++ post, by rw [h]; simp, ?_⟩
      exact (matchWinExecutablesHere_iff _).mpr (Or.inl ⟨post, rfl⟩)
    · refine ⟨pre, a ++ mid ++ b ++ post, by rw [h]; simp, ?_⟩
      exact (matchWinExecutablesHere_iff _).mpr (Or.inr ⟨a, mid, b, post, rfl, ha, hb, hmid⟩)

/-! ## The payload patterns as decompositions of the path -/

theorem u8_le (a b : UInt8) : a ≤ b ↔ a.toNat ≤ b.toNat := Iff.rfl

theorem u8_lt (a b : UInt8) : a < b ↔ a.toNat < b.toNat := Iff.rfl

theorem isHex_iff (b : UInt8) :
    isHex b = true ↔
      (48 ≤ b.toNat ∧ b.toNat ≤ 57) ∨ (97 ≤ b.toNat ∧ b.toNat ≤ 102) ∨
        (65 ≤ b.toNat ∧ b.toNat ≤ 70) := by
  simp only [isHex, isDigit, Bool.or_eq_true, Bool.and_eq_true, decide_eq_true_eq, u8_le]
  have e0 : (48 : UInt8).toNat = 48 := rfl
  have e1 : (57 : UInt8).toNat = 57 := rfl
  have e2 : (97 : UInt8).toNat = 97 := rfl
  have e3 : (102 : UInt8).toNat = 102 := rfl
  have e4 : (65 : UInt8).toNat = 65 := rfl
  have e5 : (70 : UInt8).toNat = 70 := rfl
  rw [e0, e1, e2, e3, e4, e5]
  tauto

theorem isHex_ascii (b : UInt8) (h : isHex b = true) : b.toNat < 128 := by
  have := (isHex_iff b).mp h
  omega

theorem inRange_ascii (lo hi b : UInt8) (hb : b.toNat < 128) (hlo : 128 ≤ lo.toNat) :
    inRange lo hi b = false := by
  simp only [inRange, Bool.and_eq_false_iff, decide_eq_false_iff_not, u8_le]
  omega

/-- What follows a character does not change its width when it starts with an
ASCII byte: `utf8.DecodeRune` never takes an ASCII byte as a continuation. -/
theorem runeWidth_append (r t : GoString) (hr : r ≠ [])
    (ht : ∀ b, t.head? = some b → b.toNat < 128) : runeWidth (r ++ t) = runeWidth r := by
  have hcont : ∀ b, t.head? = some b → inRange 0x80 0xBF b = false :=
    fun b hb => inRange_ascii _ _ b (ht b hb) (by decide)
  cases r with
  | nil => exact absurd rfl hr
  | cons b0 r0 =>
    have hlo : ∀ b, t.head? = some b →
        inRange (if b0 = 0xE0 then 0xA0 else if b0 = 0xF0 then 0x90 else 0x80)
          (if b0 = 0xED then 0x9F else if b0 = 0xF4 then 0x8F else 0xBF) b = false := by
      intro b hb
      apply inRange_ascii _ _ b (ht b hb)
      split_ifs <;> decide
    by_cases h0 : b0 < 0xC2 ∨ 0xF4 < b0
    · simp only [List.cons_append, runeWidth, h0, if_true]
    · cases r0 with
      | nil =>
        cases t with
        | nil => rfl
        | cons b1 t1 =>
          simp only [List.cons_append, List.nil_append, runeWidth, h0, if_false,
            hlo b1 rfl, Bool.not_false, if_true]
      | cons b1 r1 =>
        cases r1 with
        | nil =>
          cases t with
          | nil => rfl
          | cons b2 t1 =>
            simp only [List.cons_append, List.nil_append, runeWidth, h0, if_false,
              hcont b2 rfl, Bool.not_false, if_true]
        | cons b2 r2 =>
          cases r2 with
          | nil =>
            cases t with
            | nil => rfl
            | cons b3 t1 =>
              simp only [List.cons_append, List.nil_append, runeWidth, h0, if_false,
                hcont b3 rfl, Bool.not_false, if_true]
          | cons b3 r3 =>
            simp only [List.cons_append, runeWidth, h0, if_false]

/-- The pattern `file\.[0-9]+$` matches at the start of the input exactly when
the input is `file.` and one or more decimal digits. -/
theorem matchV1Here_iff (s : GoString) :
    matchV1Here s = true ↔
      ∃ ds, s = go "file." ++ ds ∧ ds ≠ [] ∧ ∀ d ∈ ds, isDigit d = true := by
  have h5 : (go "file.").length = 5 := by decide
  simp only [matchV1Here, Bool.and_eq_true, isPrefixOf_iff_append, Bool.not_eq_true',
    List.isEmpty_eq_false, List.all_eq_true]
  constructor
  · rintro ⟨⟨⟨t, ht⟩, hne⟩, hall⟩
    rw [ht, List.drop_left' h5] at hne hall
    exact ⟨t, ht, hne, hall⟩
  · rintro ⟨ds, hs, hne, hall⟩
    rw [hs, List.drop_left' h5]
    exact ⟨⟨⟨ds, rfl⟩, hne⟩, hall⟩

theorem runeWidth_newline (r : GoString) : runeWidth (newline :: r) = 1 := by
  have h : newline < 0xC2 ∨ 0xF4 < newline := Or.inl (by decide)
  simp only [runeWidth, h, if_true]

/-- The pattern `[0-9a-fA-F]{2}.[0-9a-fA-F]{64}$` matches at the start of the
input exactly when the input is two hex digits, one character other than line
feed, and 64 hex digits. -/
theorem matchV2Here_iff (s : GoString) :
    matchV2Here s = true ↔
      ∃ h1 h2 r h64, s = h1 :: h2 :: (r ++ h64) ∧ isHex h1 = true ∧ isHex h2 = true ∧
        isOneRune r = true ∧ r ≠ [newline] ∧ h64.length = 64 ∧ ∀ b ∈ h64, isHex b = true := by
  constructor
  · intro h
    match s, h with
    | h1 :: h2 :: rest, h =>
      simp only [matchV2Here, Bool.and_eq_true, decide_eq_true_eq, bne_iff_ne, ne_eq,
        List.all_eq_true] at h
      obtain ⟨⟨⟨⟨⟨hh1, hh2⟩, hlen⟩, hw⟩, hnl⟩, hall⟩ := h
      have hsplit : rest.take (rest.length - 64) ++ rest.drop (rest.length - 64) = rest :=
        List.take_append_drop _ _
      have hl64 : (rest.drop (rest.length - 64)).length = 64 := by
        rw [List.length_drop]; omega
      have hlr : (rest.take (rest.length - 64)).length = rest.length - 64 := by
        rw [List.length_take]; omega
      have hrne : rest.take (rest.length - 64) ≠ [] := by
        intro e
        rw [e] at hlr
        simp only [List.length_nil] at hlr
        omega
      have hascii : ∀ b, (rest.drop (rest.length - 64)).head? = some b → b.toNat < 128 := by
        intro b hb
        exact isHex_ascii b (hall b (List.mem_of_mem_head? hb))
      have hwr := runeWidth_append _ _ hrne hascii
      rw [hsplit] at hwr
      refine ⟨h1, h2, rest.take (rest.length - 64), rest.drop (rest.length - 64), ?_, hh1, hh2,
        ?_, ?_, hl64, hall⟩
      · rw [hsplit]
      · simp only [isOneRune, Bool.and_eq_true, Bool.not_eq_true', List.isEmpty_eq_false,
          decide_eq_true_eq]
        exact ⟨hrne, by rw [← hwr, hw, hlr]⟩
      · intro e
        apply hnl
        rw [← hsplit, e]
        rfl
  · rintro ⟨h1, h2, r, h64, hs, hh1, hh2, hrune, hnl, hl64, hall⟩
    simp only [isOneRune, Bool.and_eq_true, Bool.not_eq_true', List.isEmpty_eq_false,
      decide_eq_true_eq] at hrune
    obtain ⟨hrne, hw⟩ := hrune
    have hascii : ∀ b, h64.head? = some b → b.toNat < 128 := by
      intro b hb
      exact isHex_ascii b (hall b (List.mem_of_mem_head? hb))
    have hwr := runeWidth_append r h64 hrne hascii
    have hlen : (r ++ h64).length = r.length + 64 := by rw [List.length_append, hl64]
    have hrpos : 0 < r.length := List.length_pos.mpr hrne
    have hdrop : (r ++ h64).drop ((r ++ h64).length - 64) = h64 := by
      rw [hlen, Nat.add_sub_cancel]
      exact List.drop_left' rfl
    have hhead : (r ++ h64).head? ≠ some newline := by
      cases r with
      | nil => exact absurd rfl hrne
      | cons c cs =>
        intro e
        simp only [List.cons_append, List.head?_cons, Option.some.injEq] at e
        subst e
        rw [runeWidth_newline] at hw
        simp only [List.length_cons] at hw
        have hcs : cs = [] := List.length_eq_zero.mp (by omega)
        exact hnl (by rw [hcs])
    rw [hs]
    simp only [matchV2Here, Bool.and_eq_true, decide_eq_true_eq, bne_iff_ne, ne_eq,
      List.all_eq_true, hdrop]
    exact ⟨⟨⟨⟨⟨hh1, hh2⟩, by omega⟩, by rw [hwr, hw, hlen, Nat.add_sub_cancel]⟩, hhead⟩, hall⟩

/-! ## The payload patterns: claim C12 -/

/-- C12, the claim as stated fails: the V2 payload pattern matches this path of
67 hex digits, which holds no separator at all, so it does not end with two hex
digits, a separator and 64 hex digits. The `.` of the pattern stands for any
character other than a line feed: with a line feed between the two groups of
hex digits the pattern does not match. -/
theorem C12_counterexample_no_separator :
    droppedFileV2Reg (go "abc" ++ testSha256) = true ∧
    droppedFileV2Reg (go "ab\n" ++ testSha256) = false ∧
    ¬ ∃ pre h1 h2 h64, go "abc" ++ testSha256 = pre ++ [h1, h2] ++ [slash] ++ h64 ∧
        isHex h1 = true ∧ isHex h2 = true ∧ h64.length = 64 ∧ ∀ b ∈ h64, isHex b = true := by
  refine ⟨by decide, by decide, ?_⟩
  rintro ⟨pre, h1, h2, h64, h, -⟩
  have hmem : slash ∈ go "abc" ++ testSha256 := by
    rw [h]
    simp
  revert hmem
  decide

/-- C12, amended. The V1 payload pattern matches a path exactly when the path
ends with `file.` followed by one or more decimal digits. The V2 payload
pattern matches a path exactly when the path ends with two hex digits, any one
character other than a line feed, and 64 hex digits; a hex digit is a decimal
digit or a letter `a` to `f` in either case. -/
theorem C12_payload_patterns (p : GoString) :
    (droppedFileV1Reg p = true ↔
      ∃ pre ds, p = pre ++ go "file." ++ ds ∧ ds ≠ [] ∧ ∀ d ∈ ds, isDigit d = true) ∧
    (droppedFileV2Reg p = true ↔
      ∃ pre h1 h2 r h64, p = pre ++ [h1, h2] ++ r ++ h64 ∧ isHex h1 = true ∧ isHex h2 = true ∧
        isOneRune r = true ∧ r ≠ [newline] ∧ h64.length = 64 ∧ ∀ b ∈ h64, isHex b = true) ∧
    (∀ b : UInt8, isDigit b = true ↔ 48 ≤ b.toNat ∧ b.toNat ≤ 57) ∧
    (∀ b : UInt8, isHex b = true ↔
      (48 ≤ b.toNat ∧ b.toNat ≤ 57) ∨ (97 ≤ b.toNat ∧ b.toNat ≤ 102) ∨
        (65 ≤ b.toNat ∧ b.toNat ≤ 70)) := by
  refine ⟨?_, ?_, ?_, isHex_iff⟩
  · simp only [droppedFileV1Reg, anySuffix_iff, matchV1Here_iff]
    constructor
    · rintro ⟨pre, rest, h, ds, hr, hne, hall⟩
      exact ⟨pre, ds, by rw [h, hr]; simp, hne, hall⟩
    · rintro ⟨pre, ds, h, hne, hall⟩
      exact ⟨pre, go "file." ++ ds, by rw [h]; simp, ds, rfl, hne, hall⟩
  · simp only [droppedFileV2Reg, anySuffix_iff, matchV2Here_iff]
    constructor
    · rintro ⟨pre, rest, h, h1, h2, r, h64, hr, hrest⟩
      exact ⟨pre, h1, h2, r, h64, by rw [h, hr]; simp, hrest⟩
    · rintro ⟨pre, h1, h2, r, h64, h, hrest⟩
      exact ⟨pre, h1 :: h2 :: (r ++ h64), by rw [h]; simp, h1, h2, r, h64, rfl, hrest⟩
  · intro b
    simp only [isDigit, Bool.and_eq_true, decide_eq_true_eq, u8_le]
    have e0 : (48 : UInt8).toNat = 48 := rfl
    have e1 : (57 : UInt8).toNat = 57 := rfl
    rw [e0, e1]

/-! ## `DeleteFileSet`: claims C13 and C14 -/

theorem DeleteFileSet_V1_nomatch (glob : GlobFn) (fs : FS) (p : GoString)
    (h : droppedFileV1Reg p = false) : DeleteFileSet glob fs p V1 = some (none, fs) := by
  simp [DeleteFileSet, h]

theorem filepathJoin_single (x : GoString) (hx : x ≠ []) : filepathJoin [x] = filepathClean x := by
  cases x with
  | nil => exact absurd rfl hx
  | cons b bs => simp [filepathJoin, List.dropWhile, joinSlash]

/-- On a clean path the name of the V1 metafile is the path with `.meta`
appended: `filepath.Join` has nothing to clean. -/
theorem filepathJoin_meta_of_clean (p : GoString) (hclean : filepathClean p = p) :
    filepathJoin [p ++ go ".meta"] = p ++ go ".meta" := by
  have hne : p ++ go ".meta" ≠ [] := by simp [go_meta]
  rw [filepathJoin_single _ hne]
  by_cases hroot : p = [slash]
  · subst hroot
    decide
  by_cases hdot : p = go "."
  · subst hdot
    decide
  obtain ⟨r, S, hS, hSne, hp⟩ := clean_dir_is_render p hclean hroot hdot
  cases S with
  | nil => exact absurd rfl hSne
  | cons last S1 =>
    obtain ⟨pre, hpre⟩ := render_cons r S1
    obtain ⟨-, -, h3, -, h5⟩ := hS
    have hlen : (last ++ go ".meta").length = last.length + 5 := by
      rw [List.length_append, go_meta]
      rfl
    have hc : CanonStack r ((last ++ go ".meta") :: S1) := by
      refine ⟨?_, ?_, ?_, ?_, h5⟩
      · simp [go_meta]
      · intro e
        have := congrArg List.length e
        rw [hlen, go_dot] at this
        simp at this
      · simp only [List.mem_append, not_or]
        exact ⟨h3, by decide⟩
      · intro e
        have := congrArg List.length e
        rw [hlen, go_dotdot] at this
        simp only [List.length_cons, List.length_nil] at this
        omega
    have hrender : p ++ go ".meta" = render r ((last ++ go ".meta") :: S1) := by
      rw [hp, hpre last, hpre (last ++ go ".meta")]
      simp
    rw [hrender]
    exact filepathClean_render r _ hc (by simp)

/-- C13. `DeleteFileSet` on a path that does not match the payload pattern of
its version (V1 or V2) removes nothing, whatever files exist, and returns nil. -/
theorem C13_non_matching_path_removes_nothing (glob : GlobFn) (fs : FS) (path : GoString)
    (version : FilestoreVersion)
    (hv : (version = V1 ∧ droppedFileV1Reg path = false) ∨
      (version = V2 ∧ droppedFileV2Reg path = false)) :
    DeleteFileSet glob fs path version = some (none, fs) := by
  rcases hv with ⟨hv, hp⟩ | ⟨hv, hp⟩
  · rw [hv]
    exact DeleteFileSet_V1_nomatch glob fs path hp
  · rw [hv]
    exact DeleteFileSet_V2_nomatch glob fs path hp

/-- C13 on the backlog of the watcher test: with version V2, the V1 payload
`ff/file.25`, its metafile and a JSON sidecar of that name all stay. -/
theorem C13_witness_backlog_file :
    ((V2 = V1 ∧ droppedFileV1Reg (go "/tmp/example/ff/file.25") = false) ∨
      (V2 = V2 ∧ droppedFileV2Reg (go "/tmp/example/ff/file.25") = false)) ∧
    osStat backlogFS (go "/tmp/example/ff/file.25") = true ∧
    osStat backlogFS (go "/tmp/example/ff/file.25.meta") = true ∧
    osStat backlogFS (go "/tmp/example/ff/file.25.1.json") = true ∧
    DeleteFileSet sidecarGlob backlogFS (go "/tmp/example/ff/file.25") V2
      = some (none, backlogFS) :=
  ⟨Or.inr ⟨rfl, by decide⟩, by decide, by decide, by decide,
    C13_non_matching_path_removes_nothing sidecarGlob backlogFS (go "/tmp/example/ff/file.25") V2
      (Or.inr ⟨rfl, by decide⟩)⟩

/-- C14. `DeleteFileSet` on a path that matches the payload pattern of its
version returns nil, whether or not the files existed, and afterwards the
payload is absent; for V1 the metafile `<path>.meta` (as `filepath.Join` names
it, the very string on a clean path) is absent; for V2 every file that
`filepath.Glob` reports for `<path>.*.json` is absent; and a file is present
afterwards exactly when it was present before and is none of these. -/
theorem C14_matching_path_removes_file_set (glob : GlobFn) (fs : FS) (path : GoString)
    (version : FilestoreVersion)
    (hv : (version = V1 ∧ droppedFileV1Reg path = true) ∨
      (version = V2 ∧ droppedFileV2Reg path = true)) :
    ∃ fs1, DeleteFileSet glob fs path version = some (none, fs1) ∧
      osStat fs1 path = false ∧
      (version = V1 →
        osStat fs1 (filepathJoin [path ++ go ".meta"]) = false ∧
        (filepathClean path = path → filepathJoin [path ++ go ".meta"] = path ++ go ".meta") ∧
        ∀ f, f ∈ fs1 ↔ f ∈ fs ∧ f.Path ≠ path ∧ f.Path ≠ filepathJoin [path ++ go ".meta"]) ∧
      (version = V2 →
        (∀ metaFiles, glob (osRemove fs path) (path ++ go ".*.json") = some metaFiles →
          (∀ m ∈ metaFiles, osStat fs1 m = false) ∧
          ∀ f, f ∈ fs1 ↔ f ∈ fs ∧ f.Path ≠ path ∧ f.Path ∉ metaFiles) ∧
        (glob (osRemove fs path) (path ++ go ".*.json") = none →
          ∀ f, f ∈ fs1 ↔ f ∈ fs ∧ f.Path ≠ path)) := by
  rcases hv with ⟨hv, hp⟩ | ⟨hv, hp⟩
  · subst hv
    refine ⟨_, DeleteFileSet_V1_match glob fs path hp, ?_, ?_, ?_⟩
    · apply osStat_false_of
      intro h
      have h1 := ((osStat_osRemove _ _ _).mp h).1
      exact ((osStat_osRemove _ _ _).mp h1).2 rfl
    · intro _
      refine ⟨osStat_osRemove_self _ _, filepathJoin_meta_of_clean path, ?_⟩
      intro f
      simp only [mem_osRemove]
      tauto
    · intro h
      exact absurd h V1_ne_V2
  · subst hv
    refine ⟨_, DeleteFileSet_V2_match glob fs path hp, ?_, ?_, ?_⟩
    · apply osStat_false_of
      intro h
      cases hg : glob (osRemove fs path) (path ++ go ".*.json") with
      | none =>
        rw [hg] at h
        exact ((osStat_osRemove _ _ _).mp h).2 rfl
      | some metaFiles =>
        rw [hg] at h
        have h1 := ((osStat_foldl_removeIfPresent _ _ _).mp h).1
        exact ((osStat_osRemove _ _ _).mp h1).2 rfl
    · intro h
      exact absurd h.symm V1_ne_V2
    · intro _
      constructor
      · intro metaFiles hg
        rw [hg]
        constructor
        · intro m hm
          apply osStat_false_of
          intro h
          exact ((osStat_foldl_removeIfPresent _ _ _).mp h).2 hm
        · intro f
          simp only [mem_foldl_removeIfPresent, mem_osRemove]
          tauto
      · intro hg f
        rw [hg]
        simp only [mem_osRemove]

/-- C14 on the payload of the ingest test and on a V1 payload: the payload and
its sidecar are gone and the file of another name stays. -/
theorem C14_witness_payload_and_sidecar :
    ((V2 = V1 ∧ droppedFileV1Reg testPayload = true) ∨
      (V2 = V2 ∧ droppedFileV2Reg testPayload = true)) ∧
    (∃ fs1, DeleteFileSet sidecarGlob
        [⟨testPayload, 0, 3⟩, ⟨testSidecar, 0, 3⟩, ⟨go "/tmp/files/other", 0, 1⟩] testPayload V2
          = some (none, fs1) ∧
      osStat fs1 testPayload = false ∧
      (V2 = V1 →
        osStat fs1 (filepathJoin [testPayload ++ go ".meta"]) = false ∧
        (filepathClean testPayload = testPayload →
          filepathJoin [testPayload ++ go ".meta"] = testPayload ++ go ".meta") ∧
        ∀ f, f ∈ fs1 ↔
          f ∈ [⟨testPayload, 0, 3⟩, ⟨testSidecar, 0, 3⟩, ⟨go "/tmp/files/other", 0, 1⟩] ∧
            f.Path ≠ testPayload ∧ f.Path ≠ filepathJoin [testPayload ++ go ".meta"]) ∧
      (V2 = V2 →
        (∀ metaFiles,
          sidecarGlob
            (osRemove [⟨testPayload, 0, 3⟩, ⟨testSidecar, 0, 3⟩, ⟨go "/tmp/files/other", 0, 1⟩]
              testPayload) (testPayload ++ go ".*.json") = some metaFiles →
          (∀ m ∈ metaFiles, osStat fs1 m = false) ∧
          ∀ f, f ∈ fs1 ↔
            f ∈ [⟨testPayload, 0, 3⟩, ⟨testSidecar, 0, 3⟩, ⟨go "/tmp/files/other", 0, 1⟩] ∧
              f.Path ≠ testPayload ∧ f.Path ∉ metaFiles) ∧
        (sidecarGlob
            (osRemove [⟨testPayload, 0, 3⟩, ⟨testSidecar, 0, 3⟩, ⟨go "/tmp/files/other", 0, 1⟩]
              testPayload) (testPayload ++ go ".*.json") = none →
          ∀ f, f ∈ fs1 ↔
            f ∈ [⟨testPayload, 0, 3⟩, ⟨testSidecar, 0, 3⟩, ⟨go "/tmp/files/other", 0, 1⟩] ∧
              f.Path ≠ testPayload))) ∧
    DeleteFileSet sidecarGlob
        [⟨testPayload, 0, 3⟩, ⟨testSidecar, 0, 3⟩, ⟨go "/tmp/files/other", 0, 1⟩] testPayload V2
      = some (none, [⟨go "/tmp/files/other", 0, 1⟩]) ∧
    DeleteFileSet sidecarGlob backlogFS (go "/tmp/example/ff/file.25") V1
      = some (none, [⟨go "/tmp/example/ff/file.25.1.json", 0, 3⟩,
          ⟨go "/tmp/example/ff/strange", 0, 3⟩]) :=
  ⟨Or.inr ⟨rfl, by decide⟩,
    C14_matching_path_removes_file_set sidecarGlob _ testPayload V2 (Or.inr ⟨rfl, by decide⟩),
    by decide, by decide⟩

/-! ## The stored bytes of the verdict store -/

theorem lookup_mapSet_other {β : Type} (m : List (GoString × β)) (k : GoString) (v : β)
    (k1 : GoString) (h : k1 ≠ k) : (mapSet m k v).lookup k1 = m.lookup k1 := by
  unfold mapSet
  have hk : (k1 == k) = false := by simpa using h
  induction m with
  | nil => simp [List.lookup, hk]
  | cons e m ih =>
    rcases e with ⟨a, b⟩
    by_cases ha : a = k
    · subst ha
      have hk1 : (k1 == a) = false := hk
      simpa [List.filter_cons, List.lookup, hk1] using ih
    · have hne : (a != k) = true := by simpa using ha
      simp only [List.filter_cons, hne, if_true, List.cons_append, List.lookup]
      cases hka : k1 == a
      · exact ih
      · rfl

theorem filter_key_mapSet {β : Type} (m : List (GoString × β)) (k : GoString) (v : β) :
    (mapSet m k v).filter (fun e => e.1 == k) = [(k, v)] := by
  unfold mapSet
  rw [List.filter_append, List.filter_filter]
  have h1 : m.filter (fun e => (e.1 == k) && (e.1 != k)) = [] := by
    rw [List.filter_eq_nil_iff]
    intro e _
    by_cases he : e.1 = k <;> simp [he]
  rw [h1]
  simp

theorem filter_other_mapSet {β : Type} (m : List (GoString × β)) (k : GoString) (v : β) :
    (mapSet m k v).filter (fun e => e.1 != k) = m.filter (fun e => e.1 != k) := by
  unfold mapSet
  rw [List.filter_append, List.filter_filter]
  simp

/-- A write that returns nil: the encoding succeeded, the key is not empty and
the bucket holds the encoding under the key. -/
theorem stored_bytes_of_create (marshal : MarshalFn) (fault : Option GoError)
    (db db1 : sampledb.DB) (fv : FileVerdict)
    (h : sampledb.CreateSampleEntry marshal fault db fv = (none, db1)) :
    ∃ encoded, marshal fv = .ok encoded ∧ fv.Hashes.Sha512 ≠ [] ∧
      db1.bucket = some (mapSet (db.bucket.getD []) fv.Hashes.Sha512 encoded) := by
  unfold sampledb.CreateSampleEntry at h
  cases hm : marshal fv with
  | error e => simp [hm] at h
  | ok enc =>
    cases fault with
    | some e => simp [hm] at h
    | none =>
      by_cases hk : fv.Hashes.Sha512 = []
      · simp [hm, hk] at h
      · simp only [hm, hk, if_false, Prod.mk.injEq, true_and] at h
        subst h
        exact ⟨enc, rfl, hk, rfl⟩

theorem stored_bytes_read (unmarshal : UnmarshalFn) (db : sampledb.DB)
    (entries : List (GoString × GoString)) (hb : db.bucket = some entries) (k : GoString) :
    sampledb.GetSampleEntry unmarshal none db k
      = if ((entries.lookup k).getD []).length = 0 then (emptyVerdict, none)
        else unmarshal ((entries.lookup k).getD []) := by
  simp only [sampledb.GetSampleEntry, hb]

/-! ## The decoded view of the stored bytes -/

theorem map_mapSet {β γ : Type} (f : β → γ) (m : List (GoString × β)) (k : GoString) (v : β) :
    (mapSet m k v).map (fun e => (e.1, f e.2))
      = mapSet (m.map (fun e => (e.1, f e.2))) k (f v) := by
  unfold mapSet
  rw [List.map_append, List.filter_map]
  rfl

theorem lookup_map_value {β γ : Type} (f : β → γ) (m : List (GoString × β)) (k : GoString) :
    (m.map (fun e => (e.1, f e.2))).lookup k = (m.lookup k).map f := by
  induction m with
  | nil => rfl
  | cons e m ih =>
    rcases e with ⟨a, b⟩
    simp only [List.map_cons, List.lookup]
    cases k == a
    · exact ih
    · rfl

/-- A write on the stored bytes, read through `json.Unmarshal`, is the write on
the decoded verdicts, provided the JSON text of the verdict decodes back to
the verdict. -/
theorem decoded_create (marshal : MarshalFn) (unmarshal : UnmarshalFn)
    (fault : Option GoError) (db : sampledb.DB) (v : FileVerdict)
    (hround : ∀ encoded, marshal v = .ok encoded → (unmarshal encoded).1 = v) :
    (sampledb.CreateSampleEntry marshal fault db v).1
      = (CreateSampleEntry marshal fault (sampledb.decoded unmarshal db) v).1 ∧
    sampledb.decoded unmarshal (sampledb.CreateSampleEntry marshal fault db v).2
      = (CreateSampleEntry marshal fault (sampledb.decoded unmarshal db) v).2 := by
  unfold sampledb.CreateSampleEntry CreateSampleEntry
  cases hm : marshal v with
  | error e => exact ⟨rfl, rfl⟩
  | ok encoded =>
    cases fault with
    | some e => exact ⟨rfl, rfl⟩
    | none =>
      by_cases hk : v.Hashes.Sha512 = []
      · simp only [hk, if_true, and_self]
      · simp only [hk, if_false, true_and]
        have hv := hround encoded hm
        have hmap := fun m : List (GoString × GoString) =>
          map_mapSet (fun d => (unmarshal d).1) m v.Hashes.Sha512 encoded
        simp only [hv] at hmap
        cases hb : db.bucket with
        | none =>
          simp only [sampledb.decoded, hb, Option.map_none', Option.getD_none, Option.map_some']
          rw [hmap]
          rfl
        | some entries =>
          simp only [sampledb.decoded, hb, Option.map_some', Option.getD_some]
          rw [hmap]

/-- A read of the stored bytes is the read of the decoded verdicts, provided
every stored value is a non-empty text that `json.Unmarshal` accepts. -/
theorem decoded_get (unmarshal : UnmarshalFn) (fault : Option GoError) (db : sampledb.DB)
    (hash : GoString)
    (hvalid : ∀ entries, db.bucket = some entries →
      ∀ e ∈ entries, e.2 ≠ [] ∧ (unmarshal e.2).2 = none) :
    sampledb.GetSampleEntry unmarshal fault db hash
      = GetSampleEntry fault (sampledb.decoded unmarshal db) hash := by
  unfold sampledb.GetSampleEntry GetSampleEntry
  cases fault with
  | some e => rfl
  | none =>
    cases hb : db.bucket with
    | none => simp [sampledb.decoded, hb]
    | some entries =>
      have hlook := lookup_map_value (fun d => (unmarshal d).1) entries hash
      simp only [sampledb.decoded, hb, Option.map_some']
      rw [hlook]
      cases hl : entries.lookup hash with
      | none => simp
      | some data =>
        obtain ⟨hne, herr⟩ := hvalid entries hb (hash, data) (lookup_mem entries hash data hl)
        have hlen : ¬ data.length = 0 := fun e => hne (List.length_eq_zero.mp e)
        simp only [Option.getD_some, hlen, if_false, Option.map_some']
        exact Prod.ext rfl herr

/-! ## The verdict store: claims C15 and C16 -/

/-- C15, the claim as stated fails: for a verdict without SHA-512 the write is
rejected (`Bucket.Put` requires a key), and the read that follows returns the
zero verdict, not the verdict written. And for a verdict whose file name holds
a byte that is not valid UTF-8 the write returns nil, the read returns no
error, and the verdict read holds another file name: the JSON text stored has
the replacement character in place of the byte. -/
theorem C15_counterexample_empty_key_and_raw_name :
    hashlessVerdict.Hashes.Sha512 = [] ∧
    sampledb.CreateSampleEntry flagMarshal none (sampledb.DB.mk none) hashlessVerdict
      = (some (go "key required"), sampledb.DB.mk none) ∧
    (sampledb.GetSampleEntry flagUnmarshal none
      (sampledb.CreateSampleEntry flagMarshal none (sampledb.DB.mk none) hashlessVerdict).2
      hashlessVerdict.Hashes.Sha512).1.Suspicious ≠ hashlessVerdict.Suspicious ∧
    (sampledb.GetSampleEntry flagUnmarshal none
      (sampledb.CreateSampleEntry flagMarshal none (sampledb.DB.mk (some [])) hashlessVerdict).2
      hashlessVerdict.Hashes.Sha512).1.Suspicious ≠ hashlessVerdict.Suspicious ∧
    rawNameVerdict.Hashes.Sha512 ≠ [] ∧
    (sampledb.CreateSampleEntry nameMarshal none (sampledb.DB.mk none) rawNameVerdict).1
      = none ∧
    (sampledb.GetSampleEntry nameUnmarshal none
      (sampledb.CreateSampleEntry nameMarshal none (sampledb.DB.mk none) rawNameVerdict).2
      rawNameVerdict.Hashes.Sha512).2 = none ∧
    (sampledb.GetSampleEntry nameUnmarshal none
      (sampledb.CreateSampleEntry nameMarshal none (sampledb.DB.mk none) rawNameVerdict).2
      rawNameVerdict.Hashes.Sha512).1.Filename
      = go "/data/" ++ [239, 191, 189] ++ go "/file.1" ∧
    (sampledb.GetSampleEntry nameUnmarshal none
      (sampledb.CreateSampleEntry nameMarshal none (sampledb.DB.mk none) rawNameVerdict).2
      rawNameVerdict.Hashes.Sha512).1.Filename ≠ rawNameVerdict.Filename := by
  refine ⟨rfl, by decide, by decide, by decide, by decide, by decide, by decide, by decide,
    by decide⟩

/-- C15, amended. When `CreateSampleEntry` returns nil for a verdict, the
SHA-512 of the verdict is not empty and `GetSampleEntry` on that SHA-512
returns what `json.Unmarshal` decodes from the JSON text `json.Marshal` gave
for the verdict; what it returns is the verdict itself, with a nil error,
exactly when that text is not empty and decodes back to the verdict. After the
write the store holds exactly one entry under that SHA-512, the one just
written, whatever was stored there before, and the entries under every other
key are unchanged and read as before. -/
theorem C15_store_round_trip (marshal : MarshalFn) (unmarshal : UnmarshalFn)
    (fault : Option GoError) (db db1 : sampledb.DB) (v : FileVerdict)
    (hput : sampledb.CreateSampleEntry marshal fault db v = (none, db1)) :
    ∃ encoded entries1,
      marshal v = .ok encoded ∧ v.Hashes.Sha512 ≠ [] ∧ db1.bucket = some entries1 ∧
      sampledb.GetSampleEntry unmarshal none db1 v.Hashes.Sha512
        = (if encoded.length = 0 then (emptyVerdict, none) else unmarshal encoded) ∧
      (sampledb.GetSampleEntry unmarshal none db1 v.Hashes.Sha512 = (v, none) ↔
        encoded ≠ [] ∧ unmarshal encoded = (v, none)) ∧
      entries1.filter (fun e => e.1 == v.Hashes.Sha512) = [(v.Hashes.Sha512, encoded)] ∧
      entries1.filter (fun e => e.1 != v.Hashes.Sha512)
        = (db.bucket.getD []).filter (fun e => e.1 != v.Hashes.Sha512) ∧
      (∀ k, k ≠ v.Hashes.Sha512 → entries1.lookup k = (db.bucket.getD []).lookup k) ∧
      (∀ k, k ≠ v.Hashes.Sha512 → db.bucket ≠ none →
        sampledb.GetSampleEntry unmarshal none db1 k
          = sampledb.GetSampleEntry unmarshal none db k) := by
  obtain ⟨encoded, hm, hk, hb⟩ := stored_bytes_of_create marshal fault db db1 v hput
  have hread : sampledb.GetSampleEntry unmarshal none db1 v.Hashes.Sha512
      = (if encoded.length = 0 then (emptyVerdict, none) else unmarshal encoded) := by
    rw [stored_bytes_read unmarshal db1 _ hb, lookup_mapSet_self]
    rfl
  refine ⟨encoded, _, hm, hk, hb, hread, ?_, filter_key_mapSet _ _ _, filter_other_mapSet _ _ _,
    fun k hne => lookup_mapSet_other _ _ _ k hne, ?_⟩
  · rw [hread]
    constructor
    · intro h
      by_cases hlen : encoded.length = 0
      · exfalso
        rw [if_pos hlen] at h
        have hv : emptyVerdict = v := congrArg Prod.fst h
        apply hk
        rw [← hv]
        rfl
      · rw [if_neg hlen] at h
        exact ⟨fun e => hlen (by rw [e]; rfl), h⟩
    · rintro ⟨hne, hround⟩
      have hlen : ¬ encoded.length = 0 := fun e => hne (List.length_eq_zero.mp e)
      rw [if_neg hlen, hround]
  · intro k hne hbucket
    cases hdb : db.bucket with
    | none => exact absurd hdb hbucket
    | some entries =>
      rw [stored_bytes_read unmarshal db1 _ hb, stored_bytes_read unmarshal db entries hdb,
        lookup_mapSet_other _ _ _ k hne, hdb]
      rfl

/-- C15 on two writes for one file: the store holds the verdict of the first
write, the second write returns nil, and the read then returns the verdict of
the second write. -/
theorem C15_witness_later_write_wins :
    sampledb.CreateSampleEntry flagMarshal none (sampledb.DB.mk none) (testVerdict false)
      = (none, sampledb.DB.mk (some [(testHashes.Sha512, flagText false testHashes.Sha512)])) ∧
    sampledb.GetSampleEntry flagUnmarshal none
        (sampledb.DB.mk (some [(testHashes.Sha512, flagText false testHashes.Sha512)]))
        testHashes.Sha512 = (testVerdict false, none) ∧
    sampledb.CreateSampleEntry flagMarshal none
        (sampledb.DB.mk (some [(testHashes.Sha512, flagText false testHashes.Sha512)]))
        (testVerdict true)
      = (none, sampledb.DB.mk (some [(testHashes.Sha512, flagText true testHashes.Sha512)])) ∧
    sampledb.GetSampleEntry flagUnmarshal none
        (sampledb.DB.mk (some [(testHashes.Sha512, flagText true testHashes.Sha512)]))
        testHashes.Sha512 = (testVerdict true, none) ∧
    ∃ encoded entries1,
      flagMarshal (testVerdict true) = .ok encoded ∧ (testVerdict true).Hashes.Sha512 ≠ [] ∧
      (sampledb.DB.mk (some [(testHashes.Sha512, flagText true testHashes.Sha512)])).bucket
        = some entries1 ∧
      sampledb.GetSampleEntry flagUnmarshal none
          (sampledb.DB.mk (some [(testHashes.Sha512, flagText true testHashes.Sha512)]))
          (testVerdict true).Hashes.Sha512
        = (if encoded.length = 0 then (emptyVerdict, none) else flagUnmarshal encoded) ∧
      (sampledb.GetSampleEntry flagUnmarshal none
          (sampledb.DB.mk (some [(testHashes.Sha512, flagText true testHashes.Sha512)]))
          (testVerdict true).Hashes.Sha512 = (testVerdict true, none) ↔
        encoded ≠ [] ∧ flagUnmarshal encoded = (testVerdict true, none)) ∧
      entries1.filter (fun e => e.1 == (testVerdict true).Hashes.Sha512)
        = [((testVerdict true).Hashes.Sha512, encoded)] ∧
      entries1.filter (fun e => e.1 != (testVerdict true).Hashes.Sha512)
        = ((sampledb.DB.mk
            (some [(testHashes.Sha512, flagText false testHashes.Sha512)])).bucket.getD []).filter
            (fun e => e.1 != (testVerdict true).Hashes.Sha512) ∧
      (∀ k, k ≠ (testVerdict true).Hashes.Sha512 → entries1.lookup k
        = ((sampledb.DB.mk
            (some [(testHashes.Sha512, flagText false testHashes.Sha512)])).bucket.getD []).lookup
            k) ∧
      (∀ k, k ≠ (testVerdict true).Hashes.Sha512 →
        (sampledb.DB.mk
            (some [(testHashes.Sha512, flagText false testHashes.Sha512)])).bucket ≠ none →
        sampledb.GetSampleEntry flagUnmarshal none
            (sampledb.DB.mk (some [(testHashes.Sha512, flagText true testHashes.Sha512)])) k
          = sampledb.GetSampleEntry flagUnmarshal none
              (sampledb.DB.mk (some [(testHashes.Sha512, flagText false testHashes.Sha512)]))
              k) :=
  ⟨by decide, rfl, by decide, rfl,
    C15_store_round_trip flagMarshal flagUnmarshal none
      (sampledb.DB.mk (some [(testHashes.Sha512, flagText false testHashes.Sha512)]))
      (sampledb.DB.mk (some [(testHashes.Sha512, flagText true testHashes.Sha512)]))
      (testVerdict true) (by decide)⟩

/-- C16. `GetSampleEntry` returns the zero verdict, whose SHA-512 is empty, both
on a store without the bucket `SAMPLES` (with the error `missing bucket`) and
for a key that is not in the bucket (with a nil error), read as decoded
verdicts or as stored bytes. On a file that can be opened and hashed, in either
case `PluginIterator` goes on to the scan: it invokes every registered
analyzer, and its result is that of the steps after the scan. -/
theorem C16_missing_bucket_and_missing_key (reg : Registry)
    (unmarshalAny : GoString → Option JSONValue) (marshal : MarshalFn) (env : DispatchEnv)
    (fiev : FileInfoEvent) (s : Submitter) (uploader : Option Uploader) (db : SampleDB)
    (sampleStat : FileStat) (hashes : HashInfo)
    (hopen : env.openErr = none) (hstat : env.statResult = .ok sampleStat)
    (hhash : env.hashResult = .ok hashes) (hview : env.viewFault = none)
    (hmiss : db.bucket = none ∨
      ∃ entries, db.bucket = some entries ∧ entries.lookup hashes.Sha512 = none) :
    emptyVerdict.Hashes.Sha512 = [] ∧
    (∀ hash, GetSampleEntry none (SampleDB.mk none) hash
      = (emptyVerdict, some (go "missing bucket"))) ∧
    (∀ entries hash, entries.lookup hash = none →
      GetSampleEntry none (SampleDB.mk (some entries)) hash = (emptyVerdict, none)) ∧
    (∀ unmarshal hash, sampledb.GetSampleEntry unmarshal none (sampledb.DB.mk none) hash
      = (emptyVerdict, some (go "missing bucket"))) ∧
    (∀ unmarshal entries hash, entries.lookup hash = none →
      sampledb.GetSampleEntry unmarshal none (sampledb.DB.mk (some entries)) hash
        = (emptyVerdict, none)) ∧
    (GetSampleEntry env.viewFault db hashes.Sha512).1 = emptyVerdict ∧
    analyzerCalls (PluginIterator reg unmarshalAny marshal env fiev s uploader db).2.2
      = reg.AnalysisPlugins.map
          (fun p => (p.Name, { FD := env.fd, Info := sampleStat, OrigPath := fiev.FilePath })) ∧
    PluginIterator reg unmarshalAny marshal env fiev s uploader db
      = ((recordAndReport marshal env fiev s uploader
            (scanVerdict reg unmarshalAny env fiev sampleStat hashes).1 db).1,
         (recordAndReport marshal env fiev s uploader
            (scanVerdict reg unmarshalAny env fiev sampleStat hashes).1 db).2.1,
         (scanVerdict reg unmarshalAny env fiev sampleStat hashes).2 ++
           (recordAndReport marshal env fiev s uploader
             (scanVerdict reg unmarshalAny env fiev sampleStat hashes).1 db).2.2) := by
  have hfind : db.find? hashes.Sha512 = none := by
    rcases hmiss with hb | ⟨entries, hb, hl⟩
    · simp [SampleDB.find?, hb]
    · simp [SampleDB.find?, hb, hl]
  have hok := openAndLookup_stale reg env db sampleStat hashes hopen hstat hhash hview
    (Or.inl hfind)
  refine ⟨rfl, fun _ => rfl, ?_, fun _ _ => rfl, ?_, ?_,
    PluginIterator_analyzerCalls _ _ _ _ _ _ _ _ _ _ hok,
    PluginIterator_scan _ _ _ _ _ _ _ _ _ _ hok⟩
  · intro entries hash hl
    simp [GetSampleEntry, hl]
  · intro unmarshal entries hash hl
    simp [sampledb.GetSampleEntry, hl]
  · rw [hview]
    rcases hmiss with hb | ⟨entries, hb, hl⟩
    · simp [GetSampleEntry, hb]
    · simp [GetSampleEntry, hb, hl]

/-- C16 on the first step of `TestRescanTimeframe`: on the store without bucket
the test plugin is invoked and the dispatch returns nil, leaving the entry of
the file in the store. -/
theorem C16_witness_first_dispatch :
    (PluginIterator (testRegistry [testPlugin]) testUnmarshal testMarshal (testEnv 10 20)
        testEvent dummySubmitter none emptyDB).1 = none ∧
    ((PluginIterator (testRegistry [testPlugin]) testUnmarshal testMarshal (testEnv 10 20)
        testEvent dummySubmitter none emptyDB).2.1.find? testHashes.Sha512).isSome = true ∧
    analyzerCalls (PluginIterator (testRegistry [testPlugin]) testUnmarshal testMarshal
        (testEnv 10 20) testEvent dummySubmitter none emptyDB).2.2
      = [testPlugin].map
          (fun p => (p.Name, { FD := 3, Info := { ModTime := 1000, Size := 7 },
                               OrigPath := testEvent.FilePath })) ∧
    analyzerCalls (PluginIterator (testRegistry [testPlugin]) testUnmarshal testMarshal
        (testEnv 10 20) testEvent dummySubmitter none (SampleDB.mk (some []))).2.2
      = [testPlugin].map
          (fun p => (p.Name, { FD := 3, Info := { ModTime := 1000, Size := 7 },
                               OrigPath := testEvent.FilePath })) :=
  ⟨rfl, rfl,
    (C16_missing_bucket_and_missing_key (testRegistry [testPlugin]) testUnmarshal testMarshal
      (testEnv 10 20) testEvent dummySubmitter none emptyDB { ModTime := 1000, Size := 7 }
      testHashes rfl rfl rfl rfl (Or.inl rfl)).2.2.2.2.2.2.1,
    (C16_missing_bucket_and_missing_key (testRegistry [testPlugin]) testUnmarshal testMarshal
      (testEnv 10 20) testEvent dummySubmitter none (SampleDB.mk (some []))
      { ModTime := 1000, Size := 7 } testHashes rfl rfl rfl rfl
      (Or.inr ⟨[], rfl, rfl⟩)).2.2.2.2.2.2.1⟩

/-! ## The space sweep when the `uint` arithmetic does not wrap around -/

theorem totalSize_cons (x : removableFile) (xs : List removableFile) :
    totalSize (x :: xs) = x.Size + totalSize xs := by
  simp [totalSize]

theorem totalSize_nonneg (xs : List removableFile) (hnn : ∀ x ∈ xs, 0 ≤ x.Size) :
    0 ≤ totalSize xs := by
  induction xs with
  | nil => simp [totalSize]
  | cons x xs ih =>
    rw [totalSize_cons]
    have h1 := hnn x (List.mem_cons_self _ _)
    have h2 := ih (fun y hy => hnn y (List.mem_cons_of_mem _ hy))
    omega

theorem toUint_of_fits (n : Int) (h0 : 0 ≤ n) (h1 : n < (uintModulus : Int)) :
    toUint n = n.toNat := by
  unfold toUint
  rw [Int.emod_eq_of_lt h0 h1]

/-- When the budget fits into `uint`, the limit the loop compares with is the
budget in bytes. -/
theorem spaceLimit_of_fits (maxSpace : Nat) (h : maxSpace * 1024 * 1024 < uintModulus) :
    spaceLimit maxSpace = maxSpace * 1024 * 1024 := by
  simp only [spaceLimit, uintModulus] at *
  omega

/-- One turn of the loop when the running sum does not wrap around: the sum
grows by the size of the file, and the file is removed exactly when the new sum
exceeds the limit. -/
theorem spaceSweepStep_of_fits (glob : GlobFn) (maxSpace : Nat) (st : SweepState)
    (x : removableFile) (h0 : 0 ≤ x.Size) (h1 : (st.sum : Int) + x.Size < (uintModulus : Int)) :
    spaceSweepStep glob maxSpace st x
      = if st.sum + x.Size.toNat > spaceLimit maxSpace then
          { sum := st.sum + x.Size.toNat, fs := removeWithSidecars glob st.fs x.Path,
            removed := st.removed ++ [x], kept := st.kept }
        else { sum := st.sum + x.Size.toNat, fs := st.fs, removed := st.removed,
               kept := st.kept ++ [x] } := by
  have hx : x.Size < (uintModulus : Int) := by omega
  have hmod : (st.sum + x.Size.toNat) % uintModulus = st.sum + x.Size.toNat := by
    apply Nat.mod_eq_of_lt
    have : ((st.sum + x.Size.toNat : Nat) : Int) < (uintModulus : Int) := by
      rw [Nat.cast_add, Int.toNat_of_nonneg h0]
      exact h1
    exact_mod_cast this
  simp only [spaceSweepStep, toUint_of_fits x.Size h0 hx, hmod]

/-- Once the running sum is over the limit, every further file is removed. -/
theorem spaceSweep_over (glob : GlobFn) (maxSpace : Nat) (xs : List removableFile) :
    ∀ st : SweepState, (∀ x ∈ xs, 0 ≤ x.Size) →
      (st.sum : Int) + totalSize xs < (uintModulus : Int) → spaceLimit maxSpace < st.sum →
      (xs.foldl (spaceSweepStep glob maxSpace) st).removed = st.removed ++ xs ∧
      (xs.foldl (spaceSweepStep glob maxSpace) st).kept = st.kept ∧
      ((xs.foldl (spaceSweepStep glob maxSpace) st).sum : Int) = st.sum + totalSize xs := by
  induction xs with
  | nil =>
    intro st _ _ _
    simp [totalSize]
  | cons x xs ih =>
    intro st hnn hfit hover
    have h0 := hnn x (List.mem_cons_self _ _)
    have hnn1 : ∀ y ∈ xs, 0 ≤ y.Size := fun y hy => hnn y (List.mem_cons_of_mem _ hy)
    have htot := totalSize_nonneg xs hnn1
    rw [totalSize_cons] at hfit
    have hstep := spaceSweepStep_of_fits glob maxSpace st x h0 (by omega)
    have hgt : st.sum + x.Size.toNat > spaceLimit maxSpace := by omega
    rw [if_pos hgt] at hstep
    rw [List.foldl_cons, hstep]
    have hcast : ((st.sum + x.Size.toNat : Nat) : Int) = st.sum + x.Size := by
      rw [Nat.cast_add, Int.toNat_of_nonneg h0]
    have hfit1 : ((st.sum + x.Size.toNat : Nat) : Int) + totalSize xs < (uintModulus : Int) := by
      rw [hcast]
      omega
    obtain ⟨i1, i2, i3⟩ := ih
      { sum := st.sum + x.Size.toNat, fs := removeWithSidecars glob st.fs x.Path,
        removed := st.removed ++ [x], kept := st.kept } hnn1 hfit1 hgt
    refine ⟨?_, ?_, ?_⟩
    · rw [i1]
      simp
    · rw [i2]
    · rw [i3, totalSize_cons]
      show ((st.sum + x.Size.toNat : Nat) : Int) + totalSize xs = _
      rw [hcast]
      omega

/-- The loop without wrap-around, from a running sum within the limit: the
files passed over are the first `k` files, the files removed are all the
others, and a prefix of the files keeps within the limit exactly when it has at
most `k` files. -/
theorem spaceSweep_kept_run (glob : GlobFn) (maxSpace : Nat) (xs : List removableFile) :
    ∀ st : SweepState, (∀ x ∈ xs, 0 ≤ x.Size) →
      (st.sum : Int) + totalSize xs < (uintModulus : Int) → st.sum ≤ spaceLimit maxSpace →
      ∃ k, k ≤ xs.length ∧
        (xs.foldl (spaceSweepStep glob maxSpace) st).removed = st.removed ++ xs.drop k ∧
        (xs.foldl (spaceSweepStep glob maxSpace) st).kept = st.kept ++ xs.take k ∧
        ((xs.foldl (spaceSweepStep glob maxSpace) st).sum : Int) = st.sum + totalSize xs ∧
        ∀ n, n ≤ xs.length →
          ((st.sum : Int) + totalSize (xs.take n) ≤ (spaceLimit maxSpace : Int) ↔ n ≤ k) := by
  induction xs with
  | nil =>
    intro st _ _ hst
    refine ⟨0, le_refl _, by simp, by simp, by simp [totalSize], ?_⟩
    intro n hn
    simp only [List.length_nil, Nat.le_zero] at hn
    subst hn
    simp only [List.take_nil, totalSize, List.map_nil, List.sum_nil, add_zero, le_refl, iff_true]
    exact_mod_cast hst
  | cons x xs ih =>
    intro st hnn hfit hst
    have h0 := hnn x (List.mem_cons_self _ _)
    have hnn1 : ∀ y ∈ xs, 0 ≤ y.Size := fun y hy => hnn y (List.mem_cons_of_mem _ hy)
    have htot := totalSize_nonneg xs hnn1
    rw [totalSize_cons] at hfit
    have hstep := spaceSweepStep_of_fits glob maxSpace st x h0 (by omega)
    have hcast : ((st.sum + x.Size.toNat : Nat) : Int) = st.sum + x.Size := by
      rw [Nat.cast_add, Int.toNat_of_nonneg h0]
    by_cases hgt : st.sum + x.Size.toNat > spaceLimit maxSpace
    · rw [if_pos hgt] at hstep
      have hfit1 : ((st.sum + x.Size.toNat : Nat) : Int) + totalSize xs
          < (uintModulus : Int) := by
        rw [hcast]
        omega
      obtain ⟨i1, i2, i3⟩ := spaceSweep_over glob maxSpace xs
        { sum := st.sum + x.Size.toNat, fs := removeWithSidecars glob st.fs x.Path,
          removed := st.removed ++ [x], kept := st.kept } hnn1 hfit1 hgt
      refine ⟨0, Nat.zero_le _, ?_, ?_, ?_, ?_⟩
      · rw [List.foldl_cons, hstep, i1]
        simp
      · rw [List.foldl_cons, hstep, i2]
        simp
      · rw [List.foldl_cons, hstep, i3, totalSize_cons]
        show ((st.sum + x.Size.toNat : Nat) : Int) + totalSize xs = _
        rw [hcast]
        omega
      · intro n hn
        cases n with
        | zero =>
          simp only [List.take_zero, totalSize, List.map_nil, List.sum_nil, add_zero, le_refl,
            iff_true]
          exact_mod_cast hst
        | succ m =>
          simp only [List.take_succ_cons, totalSize_cons]
          have hm : 0 ≤ totalSize (xs.take m) :=
            totalSize_nonneg _ (fun y hy => hnn1 y (List.mem_of_mem_take hy))
          have hgt2 : (spaceLimit maxSpace : Int) < st.sum + x.Size := by
            rw [← hcast]
            exact_mod_cast hgt
          constructor
          · intro h
            omega
          · intro h
            omega
    · rw [if_neg hgt] at hstep
      have hle : st.sum + x.Size.toNat ≤ spaceLimit maxSpace := by omega
      have hfit1 : ((st.sum + x.Size.toNat : Nat) : Int) + totalSize xs
          < (uintModulus : Int) := by
        rw [hcast]
        omega
      obtain ⟨k, hk, i1, i2, i3, i4⟩ := ih
        { sum := st.sum + x.Size.toNat, fs := st.fs, removed := st.removed,
          kept := st.kept ++ [x] } hnn1 hfit1 hle
      have i3a : ((List.foldl (spaceSweepStep glob maxSpace)
          { sum := st.sum + x.Size.toNat, fs := st.fs, removed := st.removed,
            kept := st.kept ++ [x] } xs).sum : Int)
          = ((st.sum + x.Size.toNat : Nat) : Int) + totalSize xs := i3
      have i4a : ∀ n, n ≤ xs.length →
          (((st.sum + x.Size.toNat : Nat) : Int) + totalSize (xs.take n)
            ≤ (spaceLimit maxSpace : Int) ↔ n ≤ k) := i4
      refine ⟨k + 1, by simp only [List.length_cons]; omega, ?_, ?_, ?_, ?_⟩
      · rw [List.foldl_cons, hstep, i1]
        simp
      · rw [List.foldl_cons, hstep, i2]
        simp
      · rw [List.foldl_cons, hstep, i3a, totalSize_cons, hcast]
        omega
      · intro n hn
        cases n with
        | zero =>
          simp only [List.take_zero, totalSize, List.map_nil, List.sum_nil, add_zero]
          constructor
          · intro _
            omega
          · intro _
            exact_mod_cast hst
        | succ m =>
          simp only [List.take_succ_cons, totalSize_cons]
          simp only [List.length_cons, Nat.add_le_add_iff_right] at hn
          have := i4a m hn
          rw [hcast] at this
          constructor
          · intro h
            have := this.mp (by omega)
            omega
          · intro h
            have := this.mpr (by omega)
            omega

theorem totalSize_append (xs ys : List removableFile) :
    totalSize (xs ++ ys) = totalSize xs + totalSize ys := by
  simp [totalSize]

theorem totalSize_take_le (xs : List removableFile) (hnn : ∀ x ∈ xs, 0 ≤ x.Size) (n : Nat) :
    totalSize (xs.take n) ≤ totalSize xs := by
  have h := totalSize_append (xs.take n) (xs.drop n)
  rw [List.take_append_drop] at h
  have h2 : 0 ≤ totalSize (xs.drop n) :=
    totalSize_nonneg _ (fun y hy => hnn y (List.mem_of_mem_drop hy))
  omega

/-- The loop of the space sweep when neither the budget nor the total size
wraps around in `uint`: the files passed over are the first `k` of the sorted
files, the files removed are the others, and the first `n` files keep within
the budget exactly when `n` is at most `k`. -/
theorem spaceSweepLoop_of_fits (glob : GlobFn) (maxSpace : Nat) (sorted : List removableFile)
    (fs : FS) (hbudget : maxSpace * 1024 * 1024 < uintModulus)
    (hnn : ∀ f ∈ sorted, 0 ≤ f.Size) (hfit : totalSize sorted < (uintModulus : Int)) :
    ∃ k, k ≤ sorted.length ∧
      (spaceSweepLoop glob maxSpace sorted fs).removed = sorted.drop k ∧
      (spaceSweepLoop glob maxSpace sorted fs).kept = sorted.take k ∧
      ∀ n, n ≤ sorted.length →
        (totalSize (sorted.take n) ≤ ((maxSpace * 1024 * 1024 : Nat) : Int) ↔ n ≤ k) := by
  obtain ⟨k, hk, i1, i2, -, i4⟩ := spaceSweep_kept_run glob maxSpace sorted
    { sum := 0, fs := fs, removed := [], kept := [] } hnn
    (by show ((0 : Nat) : Int) + totalSize sorted < _; omega) (Nat.zero_le _)
  refine ⟨k, hk, by simpa using i1, by simpa using i2, ?_⟩
  intro n hn
  have := i4 n hn
  rw [spaceLimit_of_fits maxSpace hbudget] at this
  simpa using this

/-- Without wrap-around the files the loop passes over keep within the budget. -/
theorem spaceSweepLoop_kept_le (glob : GlobFn) (maxSpace : Nat) (sorted : List removableFile)
    (fs : FS) (hbudget : maxSpace * 1024 * 1024 < uintModulus)
    (hnn : ∀ f ∈ sorted, 0 ≤ f.Size) (hfit : totalSize sorted < (uintModulus : Int)) :
    totalSize (spaceSweepLoop glob maxSpace sorted fs).kept
      ≤ ((maxSpace * 1024 * 1024 : Nat) : Int) := by
  obtain ⟨k, hk, -, i2, i4⟩ := spaceSweepLoop_of_fits glob maxSpace sorted fs hbudget hnn hfit
  rw [i2]
  exact (i4 k hk).mpr (le_refl k)

/-- Without wrap-around a second run of the loop over the files passed over,
in the same order, removes nothing. -/
theorem spaceSweepLoop_idempotent (glob : GlobFn) (maxSpace : Nat)
    (sorted : List removableFile) (fs fs2 : FS)
    (hbudget : maxSpace * 1024 * 1024 < uintModulus)
    (hnn : ∀ f ∈ sorted, 0 ≤ f.Size) (hfit : totalSize sorted < (uintModulus : Int)) :
    (spaceSweepLoop glob maxSpace (spaceSweepLoop glob maxSpace sorted fs).kept fs2).removed
      = [] := by
  obtain ⟨k, hk, -, i2, i4⟩ := spaceSweepLoop_of_fits glob maxSpace sorted fs hbudget hnn hfit
  have hle := (i4 k hk).mpr (le_refl k)
  rw [i2]
  have hnn2 : ∀ f ∈ sorted.take k, 0 ≤ f.Size := fun f hf => hnn f (List.mem_of_mem_take hf)
  have hfit2 : totalSize (sorted.take k) < (uintModulus : Int) :=
    lt_of_le_of_lt (totalSize_take_le sorted hnn k) hfit
  obtain ⟨j, hj, j1, -, j4⟩ :=
    spaceSweepLoop_of_fits glob maxSpace (sorted.take k) fs2 hbudget hnn2 hfit2
  have hall := (j4 (sorted.take k).length (le_refl _)).mp (by rw [List.take_length]; exact hle)
  rw [j1]
  exact List.drop_eq_nil_of_le hall

/-- In a list sorted by age no file among the first `k` is older than a file
after them. -/
theorem sorted_take_drop_age (sorted : List removableFile)
    (hsorted : sorted.Pairwise (fun a b => byAgeLess b a = false)) (k : Nat) :
    ∀ r ∈ sorted.take k, ∀ d ∈ sorted.drop k, r.Age ≤ d.Age := by
  intro r hr d hd
  rw [← List.take_append_drop k sorted, List.pairwise_append] at hsorted
  have := hsorted.2.2 r hr d hd
  simpa [byAgeLess] using this

theorem totalSize_perm (xs ys : List removableFile) (h : xs.Perm ys) :
    totalSize xs = totalSize ys := by
  unfold totalSize
  exact (h.map _).sum_eq

/-- The space sweep of one tick when neither the budget nor the total size of
the files wraps around in `uint`: of the files sorted by age the sweep passes
over the first `k` and removes the others, where the first `n` files keep
within the budget exactly when `n` is at most `k`; no file passed over is older
than a file removed; the files passed over keep within the budget; and a second
run of the loop over them removes nothing. -/
theorem spaceSweep_of_fits (glob : GlobFn) (sortFn : SortFn) (maxSpace : Nat)
    (walked : List WalkEntry) (fs fs2 : FS)
    (hsort : SortsByAge sortFn (walked.foldl collectRemovable []))
    (hbudget : maxSpace * 1024 * 1024 < uintModulus)
    (hnn : ∀ f ∈ walked.foldl collectRemovable [], 0 ≤ f.Size)
    (hfit : totalSize (walked.foldl collectRemovable []) < (uintModulus : Int)) :
    ∃ k, k ≤ (sortFn (walked.foldl collectRemovable [])).length ∧
      (spaceSweep glob sortFn maxSpace walked fs).removed
        = (sortFn (walked.foldl collectRemovable [])).drop k ∧
      (spaceSweep glob sortFn maxSpace walked fs).kept
        = (sortFn (walked.foldl collectRemovable [])).take k ∧
      (∀ n, n ≤ (sortFn (walked.foldl collectRemovable [])).length →
        (totalSize ((sortFn (walked.foldl collectRemovable [])).take n)
          ≤ ((maxSpace * 1024 * 1024 : Nat) : Int) ↔ n ≤ k)) ∧
      (∀ r ∈ (spaceSweep glob sortFn maxSpace walked fs).kept,
        ∀ d ∈ (spaceSweep glob sortFn maxSpace walked fs).removed, r.Age ≤ d.Age) ∧
      totalSize (spaceSweep glob sortFn maxSpace walked fs).kept
        ≤ ((maxSpace * 1024 * 1024 : Nat) : Int) ∧
      (spaceSweepLoop glob maxSpace (spaceSweep glob sortFn maxSpace walked fs).kept fs2).removed
        = [] := by
  obtain ⟨hperm, hsorted⟩ := hsort
  have hnn2 : ∀ f ∈ sortFn (walked.foldl collectRemovable []), 0 ≤ f.Size :=
    fun f hf => hnn f (hperm.mem_iff.mp hf)
  have hfit2 : totalSize (sortFn (walked.foldl collectRemovable [])) < (uintModulus : Int) := by
    rw [totalSize_perm _ _ hperm]
    exact hfit
  obtain ⟨k, hk, i1, i2, i4⟩ := spaceSweepLoop_of_fits glob maxSpace
    (sortFn (walked.foldl collectRemovable [])) fs hbudget hnn2 hfit2
  refine ⟨k, hk, i1, i2, i4, ?_,
    spaceSweepLoop_kept_le glob maxSpace _ fs hbudget hnn2 hfit2,
    spaceSweepLoop_idempotent glob maxSpace _ fs fs2 hbudget hnn2 hfit2⟩
  intro r hr d hd
  have hr2 : r ∈ (sortFn (walked.foldl collectRemovable [])).take k := by
    rw [← i2]
    exact hr
  have hd2 : d ∈ (sortFn (walked.foldl collectRemovable [])).drop k := by
    rw [← i1]
    exact hd
  exact sorted_take_drop_age _ hsorted k r hr2 d hd2

/-! ## The janitor's space sweep: claims C17 to C20 -/

/-- C17, failing inputs. With `maxSpace = 2^44` the limit `*MaxSpace*1024*1024`
wraps around to zero, and the only file, of one byte, is removed although its
size does not exceed the budget of `2^64` bytes. With `maxSpace = 1` and two
sparse files of `2^63 - 1` bytes that are newer than a file of one MiB and two
bytes, the running sum wraps around at the third file: it is passed over
although the sizes up to it exceed the budget, and it is older than the two
files removed. -/
theorem C17_failing_inputs_wrap_around :
    spaceLimit 17592186044416 = 0 ∧
    (spaceSweep sidecarGlob insertionSortByAge 17592186044416
        (walkOf (go "/tmp/example") tinyFS 1000) tinyFS).removed
      = [⟨900, go "/tmp/example/file.1", 1⟩] ∧
    (spaceSweep sidecarGlob insertionSortByAge 17592186044416
        (walkOf (go "/tmp/example") tinyFS 1000) tinyFS).fs = [] ∧
    ¬ (totalSize [⟨900, go "/tmp/example/file.1", 1⟩] > 17592186044416 * 1024 * 1024) ∧
    insertionSortByAge ((walkOf (go "/tmp/example") sparseFS 1000).foldl collectRemovable [])
      = [⟨700, go "/tmp/example/file.3", 9223372036854775807⟩,
         ⟨800, go "/tmp/example/file.2", 9223372036854775807⟩,
         ⟨900, go "/tmp/example/file.1", 1048578⟩] ∧
    (spaceSweep sidecarGlob insertionSortByAge 1
        (walkOf (go "/tmp/example") sparseFS 1000) sparseFS).removed
      = [⟨700, go "/tmp/example/file.3", 9223372036854775807⟩,
         ⟨800, go "/tmp/example/file.2", 9223372036854775807⟩] ∧
    (spaceSweep sidecarGlob insertionSortByAge 1
        (walkOf (go "/tmp/example") sparseFS 1000) sparseFS).kept
      = [⟨900, go "/tmp/example/file.1", 1048578⟩] ∧
    (spaceSweep sidecarGlob insertionSortByAge 1
        (walkOf (go "/tmp/example") sparseFS 1000) sparseFS).fs
      = [⟨go "/tmp/example/file.1", 100, 1048578⟩] ∧
    totalSize [⟨700, go "/tmp/example/file.3", 9223372036854775807⟩,
        ⟨800, go "/tmp/example/file.2", 9223372036854775807⟩,
        ⟨900, go "/tmp/example/file.1", 1048578⟩] > 1 * 1024 * 1024 := by
  refine ⟨by decide, by decide, by decide, by decide, by decide, by decide, by decide,
    by decide, by decide⟩

/-- C18, the claim as stated fails: with five files of 900 000 bytes and
`maxSpace = 2`, the sweep removes `file.3` as well, since three files come to
2 700 000 bytes and the limit is 2 097 152 bytes. -/
theorem C18_counterexample_third_file_removed :
    osStat janitorFS (go "/tmp/example/file.3") = true ∧
    osStat (spaceSweep sidecarGlob insertionSortByAge 2
      (walkOf (go "/tmp/example") janitorFS 1000) janitorFS).fs (go "/tmp/example/file.3")
      = false ∧
    (spaceSweep sidecarGlob insertionSortByAge 2
      (walkOf (go "/tmp/example") janitorFS 1000) janitorFS).removed.length = 3 := by
  refine ⟨by decide, by decide, by decide⟩

/-- C18, amended. With five payload files of 900 000 bytes each, taken newest
first, and `maxSpace = 2`, the loop of the space sweep passes over the two
newest files and removes the three oldest, each with its sidecars. -/
theorem C18_five_files_two_remain (glob : GlobFn) (fs : FS) (f1 f2 f3 f4 f5 : removableFile)
    (h1 : f1.Size = 900000) (h2 : f2.Size = 900000) (h3 : f3.Size = 900000)
    (h4 : f4.Size = 900000) (h5 : f5.Size = 900000) :
    (spaceSweepLoop glob 2 [f5, f4, f3, f2, f1] fs).kept = [f5, f4] ∧
    (spaceSweepLoop glob 2 [f5, f4, f3, f2, f1] fs).removed = [f3, f2, f1] ∧
    (spaceSweepLoop glob 2 [f5, f4, f3, f2, f1] fs).fs
      = removeWithSidecars glob
          (removeWithSidecars glob (removeWithSidecars glob fs f3.Path) f2.Path) f1.Path := by
  have e : toUint 900000 = 900000 := by decide
  have l : spaceLimit 2 = 2097152 := by decide
  have s5 : spaceSweepStep glob 2 { sum := 0, fs := fs, removed := [], kept := [] } f5
      = { sum := 900000, fs := fs, removed := [], kept := [f5] } := by
    simp [spaceSweepStep, h5, e, l, uintModulus]
  have s4 : spaceSweepStep glob 2 { sum := 900000, fs := fs, removed := [], kept := [f5] } f4
      = { sum := 1800000, fs := fs, removed := [], kept := [f5, f4] } := by
    simp [spaceSweepStep, h4, e, l, uintModulus]
  have s3 : spaceSweepStep glob 2
      { sum := 1800000, fs := fs, removed := [], kept := [f5, f4] } f3
      = { sum := 2700000, fs := removeWithSidecars glob fs f3.Path, removed := [f3],
          kept := [f5, f4] } := by
    simp [spaceSweepStep, h3, e, l, uintModulus]
  have s2 : spaceSweepStep glob 2
      { sum := 2700000, fs := removeWithSidecars glob fs f3.Path, removed := [f3],
        kept := [f5, f4] } f2
      = { sum := 3600000,
          fs := removeWithSidecars glob (removeWithSidecars glob fs f3.Path) f2.Path,
          removed := [f3, f2], kept := [f5, f4] } := by
    simp [spaceSweepStep, h2, e, l, uintModulus]
  have s1 : spaceSweepStep glob 2
      { sum := 3600000,
        fs := removeWithSidecars glob (removeWithSidecars glob fs f3.Path) f2.Path,
        removed := [f3, f2], kept := [f5, f4] } f1
      = { sum := 4500000,
          fs := removeWithSidecars glob
            (removeWithSidecars glob (removeWithSidecars glob fs f3.Path) f2.Path) f1.Path,
          removed := [f3, f2, f1], kept := [f5, f4] } := by
    simp [spaceSweepStep, h1, e, l, uintModulus]
  simp only [spaceSweepLoop, List.foldl_cons, List.foldl_nil, s5, s4, s3, s2, s1, and_self]

/-- C18 on the directory of `TestJanitorSpace`: after the sweep `file.4` and
`file.5` remain with their metafiles, and `file.1`, `file.2` and `file.3` are
gone with theirs. -/
theorem C18_witness_janitor_space_test :
    insertionSortByAge ((walkOf (go "/tmp/example") janitorFS 1000).foldl collectRemovable [])
      = [⟨500, go "/tmp/example/file.5", 900000⟩, ⟨600, go "/tmp/example/file.4", 900000⟩,
         ⟨700, go "/tmp/example/file.3", 900000⟩, ⟨800, go "/tmp/example/file.2", 900000⟩,
         ⟨900, go "/tmp/example/file.1", 900000⟩] ∧
    (spaceSweep sidecarGlob insertionSortByAge 2
      (walkOf (go "/tmp/example") janitorFS 1000) janitorFS).fs
      = [⟨go "/tmp/example/file.4", 400, 900000⟩, ⟨go "/tmp/example/file.4.meta", 400, 3⟩,
         ⟨go "/tmp/example/file.5", 500, 900000⟩, ⟨go "/tmp/example/file.5.meta", 500, 3⟩] ∧
    ((spaceSweepLoop sidecarGlob 2
        [⟨500, go "/tmp/example/file.5", 900000⟩, ⟨600, go "/tmp/example/file.4", 900000⟩,
         ⟨700, go "/tmp/example/file.3", 900000⟩, ⟨800, go "/tmp/example/file.2", 900000⟩,
         ⟨900, go "/tmp/example/file.1", 900000⟩] janitorFS).kept
      = [⟨500, go "/tmp/example/file.5", 900000⟩, ⟨600, go "/tmp/example/file.4", 900000⟩] ∧
    (spaceSweepLoop sidecarGlob 2
        [⟨500, go "/tmp/example/file.5", 900000⟩, ⟨600, go "/tmp/example/file.4", 900000⟩,
         ⟨700, go "/tmp/example/file.3", 900000⟩, ⟨800, go "/tmp/example/file.2", 900000⟩,
         ⟨900, go "/tmp/example/file.1", 900000⟩] janitorFS).removed
      = [⟨700, go "/tmp/example/file.3", 900000⟩, ⟨800, go "/tmp/example/file.2", 900000⟩,
         ⟨900, go "/tmp/example/file.1", 900000⟩] ∧
    (spaceSweepLoop sidecarGlob 2
        [⟨500, go "/tmp/example/file.5", 900000⟩, ⟨600, go "/tmp/example/file.4", 900000⟩,
         ⟨700, go "/tmp/example/file.3", 900000⟩, ⟨800, go "/tmp/example/file.2", 900000⟩,
         ⟨900, go "/tmp/example/file.1", 900000⟩] janitorFS).fs
      = removeWithSidecars sidecarGlob
          (removeWithSidecars sidecarGlob
            (removeWithSidecars sidecarGlob janitorFS (go "/tmp/example/file.3"))
            (go "/tmp/example/file.2")) (go "/tmp/example/file.1")) :=
  ⟨by decide, by decide,
    C18_five_files_two_remain sidecarGlob janitorFS ⟨900, go "/tmp/example/file.1", 900000⟩
      ⟨800, go "/tmp/example/file.2", 900000⟩ ⟨700, go "/tmp/example/file.3", 900000⟩
      ⟨600, go "/tmp/example/file.4", 900000⟩ ⟨500, go "/tmp/example/file.5", 900000⟩
      rfl rfl rfl rfl rfl⟩

/-- C19, failing input. With `maxSpace = 1` and two sparse files of `2^63 - 1`
bytes that are newer than a file of one MiB and two bytes, the running sum
wraps around at the third file, so that the sweep passes it over: the files
retained then exceed the budget of 1 048 576 bytes, and a second sweep over
them removes the file. -/
theorem C19_failing_input_sum_wraps :
    (spaceSweep sidecarGlob insertionSortByAge 1
        (walkOf (go "/tmp/example") sparseFS 1000) sparseFS).kept
      = [⟨900, go "/tmp/example/file.1", 1048578⟩] ∧
    (spaceSweep sidecarGlob insertionSortByAge 1
        (walkOf (go "/tmp/example") sparseFS 1000) sparseFS).fs
      = [⟨go "/tmp/example/file.1", 100, 1048578⟩] ∧
    totalSize (spaceSweep sidecarGlob insertionSortByAge 1
        (walkOf (go "/tmp/example") sparseFS 1000) sparseFS).kept > 1 * 1024 * 1024 ∧
    (spaceSweepLoop sidecarGlob 1
        (spaceSweep sidecarGlob insertionSortByAge 1
          (walkOf (go "/tmp/example") sparseFS 1000) sparseFS).kept
        (spaceSweep sidecarGlob insertionSortByAge 1
          (walkOf (go "/tmp/example") sparseFS 1000) sparseFS).fs).removed
      = [⟨900, go "/tmp/example/file.1", 1048578⟩] ∧
    (spaceSweep sidecarGlob insertionSortByAge 1
        (walkOf (go "/tmp/example") [⟨go "/tmp/example/file.1", 100, 1048578⟩] 1000)
        [⟨go "/tmp/example/file.1", 100, 1048578⟩]).fs = [] := by
  refine ⟨by decide, by decide, by decide, by decide, by decide⟩

/-- C20, the claim as stated fails: with `maxSpace = 1` a single file of exactly
1 048 576 bytes is retained, since its running sum does not exceed the limit,
and the retained size equals the budget instead of being strictly less. -/
theorem C20_counterexample_exact_budget :
    (spaceSweep sidecarGlob insertionSortByAge 1
        (walkOf (go "/tmp/example") exactFS 1000) exactFS).kept
      = [⟨900, go "/tmp/example/file.1", 1048576⟩] ∧
    (spaceSweep sidecarGlob insertionSortByAge 1
        (walkOf (go "/tmp/example") exactFS 1000) exactFS).fs = exactFS ∧
    ¬ (totalSize (spaceSweep sidecarGlob insertionSortByAge 1
        (walkOf (go "/tmp/example") exactFS 1000) exactFS).kept < 1 * 1024 * 1024) := by
  refine ⟨by decide, by decide, by decide⟩

/-- C20, amended. After a space sweep in which neither the budget
`maxSpace * 1024 * 1024` nor the total size of the files wraps around in
`uint`, the retained files have a cumulative size of at most the budget: they
are the longest run of files from the newest on whose running sum does not
exceed the budget, so a file whose running sum equals the budget is retained
and the first file whose running sum exceeds it is removed, with every file
after it. -/
theorem C20_retained_within_budget (glob : GlobFn) (maxSpace : Nat)
    (sorted : List removableFile) (fs : FS)
    (hbudget : maxSpace * 1024 * 1024 < uintModulus)
    (hnn : ∀ f ∈ sorted, 0 ≤ f.Size) (hfit : totalSize sorted < (uintModulus : Int)) :
    totalSize (spaceSweepLoop glob maxSpace sorted fs).kept
      ≤ ((maxSpace * 1024 * 1024 : Nat) : Int) ∧
    ∃ k, k ≤ sorted.length ∧
      (spaceSweepLoop glob maxSpace sorted fs).kept = sorted.take k ∧
      (spaceSweepLoop glob maxSpace sorted fs).removed = sorted.drop k ∧
      ∀ n, n ≤ sorted.length →
        (totalSize (sorted.take n) ≤ ((maxSpace * 1024 * 1024 : Nat) : Int) ↔ n ≤ k) := by
  refine ⟨spaceSweepLoop_kept_le glob maxSpace sorted fs hbudget hnn hfit, ?_⟩
  obtain ⟨k, hk, i1, i2, i4⟩ := spaceSweepLoop_of_fits glob maxSpace sorted fs hbudget hnn hfit
  exact ⟨k, hk, i2, i1, i4⟩

/-- C20 on a file of exactly one MiB under a budget of one MiB, and on the
directory of `TestJanitorSpace` under a budget of two MiB. -/
theorem C20_witness_exact_budget :
    (1 * 1024 * 1024 < uintModulus) ∧
    (∀ f ∈ [(⟨900, go "/tmp/example/file.1", 1048576⟩ : removableFile)], 0 ≤ f.Size) ∧
    (totalSize [⟨900, go "/tmp/example/file.1", 1048576⟩] < (uintModulus : Int)) ∧
    (totalSize (spaceSweepLoop sidecarGlob 1 [⟨900, go "/tmp/example/file.1", 1048576⟩]
        exactFS).kept ≤ ((1 * 1024 * 1024 : Nat) : Int) ∧
      ∃ k, k ≤ [(⟨900, go "/tmp/example/file.1", 1048576⟩ : removableFile)].length ∧
        (spaceSweepLoop sidecarGlob 1 [⟨900, go "/tmp/example/file.1", 1048576⟩] exactFS).kept
          = [(⟨900, go "/tmp/example/file.1", 1048576⟩ : removableFile)].take k ∧
        (spaceSweepLoop sidecarGlob 1 [⟨900, go "/tmp/example/file.1", 1048576⟩]
            exactFS).removed
          = [(⟨900, go "/tmp/example/file.1", 1048576⟩ : removableFile)].drop k ∧
        ∀ n, n ≤ [(⟨900, go "/tmp/example/file.1", 1048576⟩ : removableFile)].length →
          (totalSize ([(⟨900, go "/tmp/example/file.1", 1048576⟩ : removableFile)].take n)
            ≤ ((1 * 1024 * 1024 : Nat) : Int) ↔ n ≤ k)) ∧
    totalSize (spaceSweepLoop sidecarGlob 1 [⟨900, go "/tmp/example/file.1", 1048576⟩]
        exactFS).kept = 1048576 ∧
    totalSize (spaceSweep sidecarGlob insertionSortByAge 2
        (walkOf (go "/tmp/example") janitorFS 1000) janitorFS).kept = 1800000 :=
  ⟨by decide, by decide, by decide,
    C20_retained_within_budget sidecarGlob 1 [⟨900, go "/tmp/example/file.1", 1048576⟩] exactFS
      (by decide) (by decide) (by decide),
    by decide, by decide⟩

/-! ## Sidecar names and payload names: claim C30 -/

theorem anySuffix_or (p q : GoString → Bool) (s : GoString) :
    anySuffix (fun t => p t || q t) s = (anySuffix p s || anySuffix q s) := by
  induction s with
  | nil => rfl
  | cons c cs ih =>
    simp only [anySuffix, ih]
    cases p (c :: cs) <;> cases q (c :: cs) <;> cases anySuffix p cs <;>
      cases anySuffix q cs <;> rfl

theorem droppedFileReg_eq (p : GoString) :
    droppedFileReg p = (droppedFileV1Reg p || droppedFileV2Reg p) :=
  anySuffix_or matchV1Here matchV2Here p

/-- The sidecar pattern matches exactly the names that end in `.json` or in
`.meta`. -/
theorem metafileReg_iff (p : GoString) :
    metafileReg p = true ↔ ∃ pre, p = pre ++ go ".json" ∨ p = pre ++ go ".meta" := by
  simp only [metafileReg, anySuffix_iff, matchMetafileHere, Bool.or_eq_true, beq_iff_eq]
  constructor
  · rintro ⟨pre, rest, h, hr | hr⟩
    · exact ⟨pre, Or.inl (by rw [h, hr])⟩
    · exact ⟨pre, Or.inr (by rw [h, hr])⟩
  · rintro ⟨pre, h | h⟩
    · exact ⟨pre, go ".json", h, Or.inl rfl⟩
    · exact ⟨pre, go ".meta", h, Or.inr rfl⟩

/-- A name matched by the sidecar pattern ends in the letter `n` or `a` and has
a dot among its last five bytes. -/
theorem metafile_tail (p : GoString) (h : metafileReg p = true) :
    ∃ pre ext c, p = pre ++ ext ++ [c] ∧ isDigit c = false ∧ (46 : UInt8) ∈ ext ++ [c] ∧
      (ext ++ [c]).length = 5 := by
  obtain ⟨pre, h1 | h1⟩ := (metafileReg_iff p).mp h
  · exact ⟨pre, [46, 106, 115, 111], 110, by rw [h1]; simp; decide, by decide, by decide,
      by decide⟩
  · exact ⟨pre, [46, 109, 101, 116], 97, by rw [h1]; simp; decide, by decide, by decide,
      by decide⟩

theorem metafile_not_V1 (p : GoString) (h : metafileReg p = true) :
    droppedFileV1Reg p = false := by
  obtain ⟨pre, ext, c, hp, hc, -, -⟩ := metafile_tail p h
  cases hv : droppedFileV1Reg p with
  | false => rfl
  | true =>
    exfalso
    simp only [droppedFileV1Reg, anySuffix_iff, matchV1Here_iff] at hv
    obtain ⟨pre1, rest, h1, ds, hr, hne, hall⟩ := hv
    have hds : ds = ds.dropLast ++ [ds.getLast hne] := (List.dropLast_append_getLast hne).symm
    have hd := hall (ds.getLast hne) (List.getLast_mem hne)
    have heq : (pre1 ++ go "file." ++ ds.dropLast) ++ [ds.getLast hne] = (pre ++ ext) ++ [c] := by
      rw [← hp, h1, hr, List.append_assoc, List.append_assoc, ← hds]
    have h2 := (List.append_inj' heq rfl).2
    simp only [List.cons.injEq, and_true] at h2
    rw [h2, hc] at hd
    exact absurd hd (by decide)

theorem metafile_not_V2 (p : GoString) (h : metafileReg p = true) :
    droppedFileV2Reg p = false := by
  obtain ⟨pre, ext, c, hp, -, hdot, hlen⟩ := metafile_tail p h
  cases hv : droppedFileV2Reg p with
  | false => rfl
  | true =>
    exfalso
    simp only [droppedFileV2Reg, anySuffix_iff, matchV2Here_iff] at hv
    obtain ⟨pre1, rest, h1, a, b, r, h64, hr, -, -, -, -, hl64, hall⟩ := hv
    have hs1 : (ext ++ [c]) <:+ p := ⟨pre, by rw [hp]; simp⟩
    have hs2 : h64 <:+ p := ⟨pre1 ++ a :: b :: r, by rw [h1, hr]; simp⟩
    have hsuf : (ext ++ [c]) <:+ h64 :=
      List.suffix_of_suffix_length_le hs1 hs2 (by rw [hlen, hl64]; decide)
    have hmem : (46 : UInt8) ∈ h64 := hsuf.subset hdot
    exact absurd (hall 46 hmem) (by decide)

/-- A name the sidecar pattern matches is not one the scanner takes for a
payload. -/
theorem metafile_not_dropped (p : GoString) (h : metafileReg p = true) :
    droppedFileReg p = false := by
  rw [droppedFileReg_eq, metafile_not_V1 p h, metafile_not_V2 p h]
  rfl

/-- C30. A name that the sidecar pattern `\.(json|meta)$` matches is matched by
neither payload pattern; the union pattern of the backlog scanner matches
exactly the names that the V1 or the V2 pattern matches; so the backlog scanner
takes no sidecar name for a payload, and the janitor passes over no payload
name as a sidecar. -/
theorem C30_sidecar_and_payload_names_disjoint (p : GoString) :
    (metafileReg p = true → droppedFileV1Reg p = false ∧ droppedFileV2Reg p = false) ∧
    (droppedFileReg p = true ↔ droppedFileV1Reg p = true ∨ droppedFileV2Reg p = true) ∧
    (metafileReg p = true → droppedFileReg p = false) ∧
    (droppedFileReg p = true → metafileReg p = false) := by
  have h1 : metafileReg p = true → droppedFileV1Reg p = false ∧ droppedFileV2Reg p = false :=
    fun h => ⟨metafile_not_V1 p h, metafile_not_V2 p h⟩
  have h2 : droppedFileReg p = true ↔ droppedFileV1Reg p = true ∨ droppedFileV2Reg p = true := by
    rw [droppedFileReg_eq, Bool.or_eq_true]
  have h3 : metafileReg p = true → droppedFileReg p = false := by
    intro h
    obtain ⟨a, b⟩ := h1 h
    rw [droppedFileReg_eq, a, b]
    rfl
  refine ⟨h1, h2, h3, ?_⟩
  intro h
  cases hm : metafileReg p with
  | false => rfl
  | true =>
    rw [h3 hm] at h
    exact absurd h (by decide)

/-- C30 on the names of the backlog test: the payloads are matched by the union
pattern and not by the sidecar pattern, their sidecars the other way round. -/
theorem C30_witness_backlog_names :
    droppedFileReg (go "/tmp/example/ff/file.25") = true ∧
    metafileReg (go "/tmp/example/ff/file.25") = false ∧
    metafileReg (go "/tmp/example/ff/file.25.meta") = true ∧
    droppedFileReg (go "/tmp/example/ff/file.25.meta") = false ∧
    droppedFileReg testPayload = true ∧ metafileReg testPayload = false ∧
    metafileReg testSidecar = true ∧ droppedFileReg testSidecar = false :=
  ⟨by decide, by decide, by decide,
    (C30_sidecar_and_payload_names_disjoint (go "/tmp/example/ff/file.25.meta")).2.2.1
      (by decide),
    by decide, by decide, by decide, by decide⟩

/-! ## Removing a file with its sidecars -/

theorem osStat_of_mem (fs : FS) (f : FileEntry) (h : f ∈ fs) : osStat fs f.Path = true :=
  (osStat_iff fs f.Path).mpr ⟨f, h, rfl⟩

/-- What `DeleteFileSet` takes away, whatever the version: it creates no file,
and a file that is gone went with the path the call was made on. -/
theorem DeleteFileSet_gone (glob : GlobFn) (fs fs1 : FS) (q : GoString) (sv : FilestoreVersion)
    (x : Option GoError) (h : DeleteFileSet glob fs q sv = some (x, fs1)) :
    (∀ f ∈ fs1, f ∈ fs) ∧ (∀ f ∈ fs, f ∉ fs1 → DeletedWith glob q f.Path) := by
  by_cases h1 : sv = V1
  · subst h1
    cases hm : droppedFileV1Reg q with
    | false =>
      rw [DeleteFileSet_V1_nomatch glob fs q hm] at h
      simp only [Option.some.injEq, Prod.mk.injEq] at h
      rw [← h.2]
      exact ⟨fun f hf => hf, fun f hf hn => absurd hf hn⟩
    | true =>
      rw [DeleteFileSet_V1_match glob fs q hm] at h
      simp only [Option.some.injEq, Prod.mk.injEq] at h
      rw [← h.2]
      refine ⟨fun f hf => ?_, fun f hf hn => ?_⟩
      · exact ((mem_osRemove _ _ f).mp ((mem_osRemove _ _ f).mp hf).1).1
      · by_contra hno
        unfold DeletedWith at hno
        push_neg at hno
        exact hn ((mem_osRemove _ _ f).mpr ⟨(mem_osRemove _ _ f).mpr ⟨hf, hno.1⟩, hno.2.1⟩)
  · by_cases h2 : sv = V2
    · subst h2
      cases hm : droppedFileV2Reg q with
      | false =>
        rw [DeleteFileSet_V2_nomatch glob fs q hm] at h
        simp only [Option.some.injEq, Prod.mk.injEq] at h
        rw [← h.2]
        exact ⟨fun f hf => hf, fun f hf hn => absurd hf hn⟩
      | true =>
        rw [DeleteFileSet_V2_match glob fs q hm] at h
        simp only [Option.some.injEq, Prod.mk.injEq] at h
        rw [← h.2]
        cases hg : glob (osRemove fs q) (q ++ go ".*.json") with
        | none =>
          refine ⟨fun f hf => ((mem_osRemove _ _ f).mp hf).1, fun f hf hn => ?_⟩
          by_contra hno
          unfold DeletedWith at hno
          push_neg at hno
          exact hn ((mem_osRemove _ _ f).mpr ⟨hf, hno.1⟩)
        | some res =>
          refine ⟨fun f hf => ?_, fun f hf hn => ?_⟩
          · exact ((mem_osRemove _ _ f).mp ((mem_foldl_removeIfPresent res _ f).mp hf).1).1
          · by_contra hno
            unfold DeletedWith at hno
            push_neg at hno
            exact hn ((mem_foldl_removeIfPresent res _ f).mpr
              ⟨(mem_osRemove _ _ f).mpr ⟨hf, hno.1⟩, hno.2.2 _ res hg⟩)
    · exfalso
      simp [DeleteFileSet, h1, h2] at h

/-- The cases of the walk function of the scanner. -/
theorem scanStep_cases (env : ScanEnv) (sv : FilestoreVersion) (st st1 : ScanState)
    (e : ScanEntry) (err : Option GoError) (h : scanStep env sv st e = some (st1, err)) :
    (st1 = st ∧ (err = none → e.IsRegular = true → droppedFileReg e.path = false)) ∨
    (err = none ∧ e.IsRegular = true ∧ droppedFileReg e.path = true ∧
      AllowedMagicPattern (env.MagicFromFile e.path) = false ∧
      st1.files = st.files ∧
      ∃ x, DeleteFileSet env.glob st.fs e.path sv = some (x, st1.fs)) ∨
    (err = none ∧ e.IsRegular = true ∧ droppedFileReg e.path = true ∧
      AllowedMagicPattern (env.MagicFromFile e.path) = true ∧
      osStat st.fs e.path = true ∧ st1.fs = st.fs ∧ st1.files = st.files ++ [e.path]) := by
  unfold scanStep at h
  split at h
  · simp only [Option.some.injEq, Prod.mk.injEq] at h
    rename_i herr
    left
    refine ⟨h.1.symm, fun hn => ?_⟩
    rw [← h.2] at hn
    rw [hn] at herr
    simp at herr
  · split at h
    · simp only [Option.some.injEq, Prod.mk.injEq] at h
      left
      refine ⟨h.1.symm, fun hn => ?_⟩
      rw [← h.2] at hn
      simp at hn
    · rename_i hpresent
      split at h
      · rename_i hreg
        have hstat : osStat st.fs e.path = true := by
          cases hs : osStat st.fs e.path with
          | true => rfl
          | false => rw [hreg, hs] at hpresent; simp at hpresent
        split at h
        · rename_i hdrop
          split at h
          · rename_i hmagic
            right; left
            cases hd : DeleteFileSet env.glob st.fs e.path sv with
            | none => rw [hd] at h; simp at h
            | some r =>
              obtain ⟨x, fs1⟩ := r
              rw [hd] at h
              simp only [Option.some.injEq, Prod.mk.injEq] at h
              refine ⟨h.2.symm, hreg, hdrop, by simpa using hmagic, ?_, x, ?_⟩
              · rw [← h.1]
              · rw [← h.1]
          · rename_i hmagic
            simp only [Option.some.injEq, Prod.mk.injEq] at h
            right; right
            refine ⟨h.2.symm, hreg, hdrop, by simpa using hmagic, hstat, ?_, ?_⟩
            · rw [← h.1]
            · rw [← h.1]
        · rename_i hdrop
          simp only [Option.some.injEq, Prod.mk.injEq] at h
          left
          exact ⟨h.1.symm, fun _ _ => by simpa using hdrop⟩
      · rename_i hreg
        simp only [Option.some.injEq, Prod.mk.injEq] at h
        left
        refine ⟨h.1.symm, fun _ hr => ?_⟩
        exact absurd hr hreg

/-- One step of `scanWalk`. -/
theorem scanWalk_cons (env : ScanEnv) (sv : FilestoreVersion) (e : ScanEntry)
    (rest : List ScanEntry) (st st2 : ScanState) (err : Option GoError)
    (h : scanWalk env sv (e :: rest) st = some (st2, err)) :
    ∃ st1 err1, scanStep env sv st e = some (st1, err1) ∧
      ((err1 ≠ none ∧ st2 = st1 ∧ err = err1) ∨
       (err1 = none ∧ scanWalk env sv rest st1 = some (st2, err))) := by
  unfold scanWalk at h
  cases hs : scanStep env sv st e with
  | none => rw [hs] at h; simp at h
  | some r =>
    obtain ⟨st1, err1⟩ := r
    rw [hs] at h
    cases err1 with
    | some er =>
      simp only [Option.some.injEq, Prod.mk.injEq] at h
      exact ⟨st1, some er, rfl, Or.inl ⟨by simp, h.1.symm, h.2.symm⟩⟩
    | none =>
      exact ⟨st1, none, rfl, Or.inr ⟨rfl, h⟩⟩

/-- The walk of the scanner creates no file, and a file that is gone went with
a payload-shaped regular file of a magic that is not allowed. -/
theorem scanWalk_frame (env : ScanEnv) (sv : FilestoreVersion) (walked : List ScanEntry) :
    ∀ (st st2 : ScanState) (err : Option GoError),
      scanWalk env sv walked st = some (st2, err) →
      (∀ g ∈ st2.fs, g ∈ st.fs) ∧
      (∀ g ∈ st.fs, g ∉ st2.fs →
        ∃ e ∈ walked, e.IsRegular = true ∧ droppedFileReg e.path = true ∧
          AllowedMagicPattern (env.MagicFromFile e.path) = false ∧
          DeletedWith env.glob e.path g.Path) := by
  induction walked with
  | nil =>
    intro st st2 err h
    simp only [scanWalk, Option.some.injEq, Prod.mk.injEq] at h
    rw [← h.1]
    exact ⟨fun g hg => hg, fun g hg hn => absurd hg hn⟩
  | cons e rest ih =>
    intro st st2 err h
    obtain ⟨st1, err1, hstep, hrest⟩ := scanWalk_cons env sv e rest st st2 err h
    have hone : (∀ g ∈ st1.fs, g ∈ st.fs) ∧
        (∀ g ∈ st.fs, g ∉ st1.fs →
          e.IsRegular = true ∧ droppedFileReg e.path = true ∧
            AllowedMagicPattern (env.MagicFromFile e.path) = false ∧
            DeletedWith env.glob e.path g.Path) := by
      rcases scanStep_cases env sv st st1 e err1 hstep with hc | hc | hc
      · rw [hc.1]
        exact ⟨fun g hg => hg, fun g hg hn => absurd hg hn⟩
      · obtain ⟨-, hreg, hdrop, hmagic, -, x, hdel⟩ := hc
        have hg := DeleteFileSet_gone env.glob st.fs st1.fs e.path sv x hdel
        exact ⟨hg.1, fun g hgm hn => ⟨hreg, hdrop, hmagic, hg.2 g hgm hn⟩⟩
      · rw [hc.2.2.2.2.2.1]
        exact ⟨fun g hg => hg, fun g hg hn => absurd hg hn⟩
    rcases hrest with ⟨-, h2, -⟩ | ⟨-, hw⟩
    · rw [h2]
      refine ⟨hone.1, fun g hg hn => ?_⟩
      exact ⟨e, List.mem_cons_self _ _, hone.2 g hg hn⟩
    · obtain ⟨i1, i2⟩ := ih st1 st2 err hw
      refine ⟨fun g hg => hone.1 g (i1 g hg), fun g hg hn => ?_⟩
      by_cases hg1 : g ∈ st1.fs
      · obtain ⟨e1, he1, hr⟩ := i2 g hg1 hn
        exact ⟨e1, List.mem_cons_of_mem _ he1, hr⟩
      · exact ⟨e, List.mem_cons_self _ _, hone.2 g hg hg1⟩

/-- A payload-shaped file of an allowed magic outlasts the deletion of the file
set of another path, when `filepath.Glob` reports sidecar names only. -/
theorem kept_through_delete (glob : GlobFn) (fs fs1 : FS) (q f : GoString)
    (sv : FilestoreVersion) (x : Option GoError) (magic : GoString → GoString)
    (hdel : DeleteFileSet glob fs q sv = some (x, fs1))
    (hq : AllowedMagicPattern (magic q) = false) (hclean : filepathClean q = q)
    (hglob : ∀ fs0 p res, glob fs0 (p ++ go ".*.json") = some res →
      ∀ m ∈ res, metafileReg m = true)
    (hdrop : droppedFileReg f = true) (hf : AllowedMagicPattern (magic f) = true)
    (hstat : osStat fs f = true) : osStat fs1 f = true := by
  obtain ⟨g, hg, hgp⟩ := (osStat_iff fs f).mp hstat
  by_cases hg1 : g ∈ fs1
  · exact (osStat_iff fs1 f).mpr ⟨g, hg1, hgp⟩
  · exfalso
    have hgone := (DeleteFileSet_gone glob fs fs1 q sv x hdel).2 g hg hg1
    rw [hgp] at hgone
    have hnm : ¬ metafileReg f = true := by
      intro hm
      rw [metafile_not_dropped f hm] at hdrop
      exact absurd hdrop (by decide)
    rcases hgone with h1 | h1 | ⟨fs0, res, hres, hmem⟩
    · rw [h1, hq] at hf
      exact absurd hf (by decide)
    · rw [filepathJoin_meta_of_clean q hclean] at h1
      exact hnm ((metafileReg_iff f).mpr ⟨q, Or.inr h1⟩)
    · exact hnm (hglob fs0 q res hres f hmem)

/-- The files the walk of the scanner collects are payload-shaped regular files
of an allowed magic that the walk turned to, and they are on disk when the
walk ends. -/
theorem scanWalk_files (env : ScanEnv) (sv : FilestoreVersion) (walked : List ScanEntry)
    (hglob : ∀ fs0 p res, env.glob fs0 (p ++ go ".*.json") = some res →
      ∀ m ∈ res, metafileReg m = true) :
    ∀ (st st2 : ScanState) (err : Option GoError),
      (∀ e ∈ walked, e.IsRegular = true → filepathClean e.path = e.path) →
      scanWalk env sv walked st = some (st2, err) →
      (∀ f ∈ st.files, droppedFileReg f = true ∧
        AllowedMagicPattern (env.MagicFromFile f) = true ∧ osStat st.fs f = true) →
      ∀ f ∈ st2.files, droppedFileReg f = true ∧
        AllowedMagicPattern (env.MagicFromFile f) = true ∧ osStat st2.fs f = true ∧
        (f ∈ st.files ∨ ∃ e ∈ walked, e.path = f ∧ e.IsRegular = true) := by
  induction walked with
  | nil =>
    intro st st2 err _ h hinv f hf
    simp only [scanWalk, Option.some.injEq, Prod.mk.injEq] at h
    rw [← h.1] at hf ⊢
    obtain ⟨a, b, c⟩ := hinv f hf
    exact ⟨a, b, c, Or.inl hf⟩
  | cons e rest ih =>
    intro st st2 err hclean h hinv f hf
    obtain ⟨st1, err1, hstep, hrest⟩ := scanWalk_cons env sv e rest st st2 err h
    have hone : ∀ f ∈ st1.files, droppedFileReg f = true ∧
        AllowedMagicPattern (env.MagicFromFile f) = true ∧ osStat st1.fs f = true ∧
        (f ∈ st.files ∨ (e.path = f ∧ e.IsRegular = true)) := by
      intro f hf1
      rcases scanStep_cases env sv st st1 e err1 hstep with hc | hc | hc
      · rw [hc.1] at hf1 ⊢
        obtain ⟨a, b, c⟩ := hinv f hf1
        exact ⟨a, b, c, Or.inl hf1⟩
      · obtain ⟨-, hreg, -, hmagic, hfiles, x, hdel⟩ := hc
        rw [hfiles] at hf1
        obtain ⟨a, b, c⟩ := hinv f hf1
        refine ⟨a, b, ?_, Or.inl hf1⟩
        exact kept_through_delete env.glob st.fs st1.fs e.path f sv x env.MagicFromFile hdel
          hmagic (hclean e (List.mem_cons_self _ _) hreg) hglob a b c
      · obtain ⟨-, hreg, hdrop, hmagic, hstat, hfs, hfiles⟩ := hc
        rw [hfiles] at hf1
        rw [hfs]
        simp only [List.mem_append, List.mem_singleton] at hf1
        rcases hf1 with hf1 | hf1
        · obtain ⟨a, b, c⟩ := hinv f hf1
          exact ⟨a, b, c, Or.inl hf1⟩
        · rw [hf1]
          exact ⟨hdrop, hmagic, hstat, Or.inr ⟨rfl, hreg⟩⟩
    rcases hrest with ⟨-, h2, -⟩ | ⟨-, hw⟩
    · rw [h2] at hf ⊢
      obtain ⟨a, b, c, d⟩ := hone f hf
      refine ⟨a, b, c, ?_⟩
      rcases d with d | d
      · exact Or.inl d
      · exact Or.inr ⟨e, List.mem_cons_self _ _, d⟩
    · obtain ⟨a, b, c, d⟩ := ih st1 st2 err
        (fun e1 he1 => hclean e1 (List.mem_cons_of_mem _ he1)) hw
        (fun f1 hf1 => ⟨(hone f1 hf1).1, (hone f1 hf1).2.1, (hone f1 hf1).2.2.1⟩) f hf
      refine ⟨a, b, c, ?_⟩
      rcases d with d | ⟨e1, he1, hr⟩
      · rcases (hone f d).2.2.2 with d1 | d1
        · exact Or.inl d1
        · exact Or.inr ⟨e, List.mem_cons_self _ _, d1⟩
      · exact Or.inr ⟨e1, List.mem_cons_of_mem _ he1, hr⟩

/-! ## The events of the backlog scanner -/

theorem mem_jsonEvents (env : ScanEnv) (f : GoString) (jsonFiles : List GoString)
    (ev : FileInfoEvent) :
    ev ∈ jsonEvents env f jsonFiles ↔
      ∃ jf ∈ jsonFiles, ∃ data jm, env.readFile jf = .ok data ∧
        env.unmarshalAny data = some jm ∧
        ev = { StoreVersion := 0, JSONMessage := jm, MetafileText := [], FilePath := f } := by
  unfold jsonEvents
  rw [List.mem_filterMap]
  constructor
  · rintro ⟨jf, hjf, h⟩
    cases hr : env.readFile jf with
    | error x => rw [hr] at h; simp at h
    | ok data =>
      rw [hr] at h
      dsimp only at h
      cases hu : env.unmarshalAny data with
      | none => rw [hu] at h; simp at h
      | some jm =>
        rw [hu] at h
        simp only [Option.some.injEq] at h
        exact ⟨jf, hjf, data, jm, hr, hu, h.symm⟩
  · rintro ⟨jf, hjf, data, jm, hr, hu, hev⟩
    refine ⟨jf, hjf, ?_⟩
    rw [hr]
    simp only [hu, hev]

theorem mem_metaEvents (env : ScanEnv) (f : GoString) (metaFiles : List GoString)
    (ev : FileInfoEvent) :
    ev ∈ metaEvents env f metaFiles ↔
      ∃ mf ∈ metaFiles, ∃ data, env.readFile mf = .ok data ∧
        ev = { StoreVersion := 0, JSONMessage := JSONValue.null, MetafileText := data,
               FilePath := f } := by
  unfold metaEvents
  rw [List.mem_filterMap]
  constructor
  · rintro ⟨mf, hmf, h⟩
    cases hr : env.readFile mf with
    | error x => rw [hr] at h; simp at h
    | ok data =>
      rw [hr] at h
      simp only [Option.some.injEq] at h
      exact ⟨mf, hmf, data, hr, h.symm⟩
  · rintro ⟨mf, hmf, data, hr, hev⟩
    refine ⟨mf, hmf, ?_⟩
    rw [hr]
    simp only [hev]

theorem length_jsonEvents (env : ScanEnv) (f : GoString) (jsonFiles : List GoString) :
    (jsonEvents env f jsonFiles).length = (jsonFiles.filter (yieldsJSON env)).length := by
  induction jsonFiles with
  | nil => rfl
  | cons jf rest ih =>
    unfold jsonEvents at ih ⊢
    rw [List.filterMap_cons, List.filter_cons]
    unfold yieldsJSON
    cases hr : env.readFile jf with
    | error x => simpa using ih
    | ok data =>
      cases hu : env.unmarshalAny data with
      | none => simpa [hu] using ih
      | some jm => simpa [hu] using ih

theorem length_metaEvents (env : ScanEnv) (f : GoString) (metaFiles : List GoString) :
    (metaEvents env f metaFiles).length = (metaFiles.filter (yieldsMeta env)).length := by
  induction metaFiles with
  | nil => rfl
  | cons mf rest ih =>
    unfold metaEvents at ih ⊢
    rw [List.filterMap_cons, List.filter_cons]
    unfold yieldsMeta
    cases hr : env.readFile mf with
    | error x => simpa using ih
    | ok data => simpa using ih

theorem fileEvents_eq (env : ScanEnv) (fs : FS) (f : GoString) (jsonFiles metaFiles : List GoString)
    (hj : env.glob fs (f ++ go ".*.json") = some jsonFiles)
    (hm : env.glob fs (f ++ go ".meta") = some metaFiles) :
    fileEvents env fs f = jsonEvents env f jsonFiles ++ metaEvents env f metaFiles := by
  unfold fileEvents
  rw [hj, hm]

/-- The instance `scanGlob` reports sidecar names only for a pattern
`q.*.json`. -/
theorem scanGlob_reports_sidecars (fs0 : FS) (q : GoString) (res : List GoString)
    (h : scanGlob fs0 (q ++ go ".*.json") = some res) : ∀ m ∈ res, metafileReg m = true := by
  have hstar : (q ++ go ".*.json").all (fun b => b != 42 && b != 63 && b != 91 && b != 92)
      = false := by
    rw [List.all_append]
    have : (go ".*.json").all (fun b => b != 42 && b != 63 && b != 91 && b != 92) = false := by
      decide
    rw [this, Bool.and_false]
  have hlen : (q ++ go ".*.json").length - 7 = q.length := by
    have : (go ".*.json").length = 7 := by decide
    rw [List.length_append, this, Nat.add_sub_cancel]
  unfold scanGlob at h
  rw [hstar] at h
  simp only [Bool.false_eq_true, if_false] at h
  unfold sidecarGlob at h
  simp only [hlen] at h
  split at h
  · simp only [Option.some.injEq] at h
    intro m hm
    rw [← h, List.mem_map] at hm
    obtain ⟨f, hf, hfm⟩ := hm
    rw [List.mem_filter] at hf
    have hcond := hf.2
    simp only [decide_eq_true_eq] at hcond
    have hsuf := hcond.2.1
    rw [List.isSuffixOf_iff_suffix] at hsuf
    obtain ⟨t, ht⟩ := hsuf
    rw [metafileReg_iff]
    refine ⟨f.Path.take (q.length + 1) ++ t, Or.inl ?_⟩
    rw [← hfm, List.append_assoc, ht, List.take_append_drop]
  · simp only [Option.some.injEq] at h
    intro m hm
    rw [← h] at hm
    exact absurd hm (List.not_mem_nil m)

/-! ## C23: the events of the backlog scan -/

/-- C23, counterexample: the backlog holds the executable `file.25` with the
sidecars `file.25.1.json`, `file.25.2.json` and `file.25.meta`, all three on
disk and reported by `filepath.Glob`; `file.25.2.json` holds the text
`foobarbaz`, which `json.Unmarshal` rejects. The scanner finds the payload and
enqueues two events, not three. -/
theorem C23_counterexample_sidecar_without_json :
    scanGlob sidecarFS (go "/tmp/example/file.25" ++ go ".*.json")
      = some [go "/tmp/example/file.25.1.json", go "/tmp/example/file.25.2.json"] ∧
    scanGlob sidecarFS (go "/tmp/example/file.25" ++ go ".meta")
      = some [go "/tmp/example/file.25.meta"] ∧
    osStat sidecarFS (go "/tmp/example/file.25.2.json") = true ∧
    (backlogBuilder allowedEnv (scanOf (go "/tmp/example") sidecarFS) 1 sidecarFS).map
      (fun r => (r.files, r.events.length)) = some ([go "/tmp/example/file.25"], 2) := by
  decide

/-- C23 (amended): for every payload-shaped regular file with allowed magic
found by the backlog scanner, one FileEvent is enqueued for each sidecar
`filepath.Glob` reports that `os.ReadFile` reads and, for a JSON sidecar, that
`json.Unmarshal` decodes, and none for any other: each such `<path>.*.json`
yields one event whose metadata is the decoded JSON, each such `<path>.meta`
one event whose MetafileText is the bytes read, every event carries the
payload path, and the payload is on disk after the scan; a file that is gone
after the scan went with a payload-shaped regular file whose magic is not
allowed. The walk is taken to pass clean paths, as `filepath.Join` makes them,
and `filepath.Glob` to report sidecar names only for a pattern `<path>.*.json`. -/
theorem C23_one_event_per_decoded_sidecar (env : ScanEnv) (walked : List ScanEntry)
    (storeVersion : Int) (fs : FS) (r : BacklogResult)
    (hrun : backlogBuilder env walked storeVersion fs = some r)
    (hclean : ∀ e ∈ walked, e.IsRegular = true → filepathClean e.path = e.path)
    (hglob : ∀ fs0 p res, env.glob fs0 (p ++ go ".*.json") = some res →
      ∀ m ∈ res, metafileReg m = true) :
    (∀ f ∈ r.files, droppedFileReg f = true ∧
      AllowedMagicPattern (env.MagicFromFile f) = true ∧
      (∃ e ∈ walked, e.path = f ∧ e.IsRegular = true) ∧ osStat r.fs f = true) ∧
    r.events = (r.files.map (fileEvents env r.fs)).flatten ∧
    (∀ f jsonFiles metaFiles, env.glob r.fs (f ++ go ".*.json") = some jsonFiles →
      env.glob r.fs (f ++ go ".meta") = some metaFiles →
      (fileEvents env r.fs f).length
        = (jsonFiles.filter (yieldsJSON env)).length
          + (metaFiles.filter (yieldsMeta env)).length ∧
      ∀ ev, ev ∈ fileEvents env r.fs f ↔
        ((∃ jf ∈ jsonFiles, ∃ data jm, env.readFile jf = .ok data ∧
            env.unmarshalAny data = some jm ∧
            ev = { StoreVersion := 0, JSONMessage := jm, MetafileText := [], FilePath := f }) ∨
         (∃ mf ∈ metaFiles, ∃ data, env.readFile mf = .ok data ∧
            ev = { StoreVersion := 0, JSONMessage := JSONValue.null, MetafileText := data,
                   FilePath := f }))) ∧
    (∀ g ∈ fs, g ∉ r.fs →
      ∃ e ∈ walked, e.IsRegular = true ∧ droppedFileReg e.path = true ∧
        AllowedMagicPattern (env.MagicFromFile e.path) = false ∧
        DeletedWith env.glob e.path g.Path) := by
  dsimp only [backlogBuilder] at hrun
  cases hw : scanWalk env (intToStoreVersion storeVersion).1 walked { fs := fs, files := [] } with
  | none => rw [hw] at hrun; simp at hrun
  | some res =>
    obtain ⟨st, err⟩ := res
    rw [hw] at hrun
    simp only [Option.some.injEq] at hrun
    subst hrun
    refine ⟨?_, rfl, ?_, ?_⟩
    · intro f hf
      obtain ⟨a, b, c, d⟩ := scanWalk_files env _ walked hglob _ st err hclean hw
        (fun f1 hf1 => absurd hf1 (List.not_mem_nil f1)) f hf
      rcases d with d | d
      · exact absurd d (List.not_mem_nil f)
      · exact ⟨a, b, d, c⟩
    · intro f jsonFiles metaFiles hj hm
      rw [fileEvents_eq env st.fs f jsonFiles metaFiles hj hm]
      refine ⟨?_, fun ev => ?_⟩
      · rw [List.length_append, length_jsonEvents, length_metaEvents]
      · rw [List.mem_append, mem_jsonEvents, mem_metaEvents]
    · exact (scanWalk_frame env _ walked _ st err hw).2

/-- C23, witness: the backlog of one executable with its three sidecars: the
payload is found and still on disk, and the events are the one of
`file.25.1.json` and the one of `file.25.meta`. -/
theorem C23_witness_executable_with_sidecars :
    (∀ f ∈ [go "/tmp/example/file.25"], droppedFileReg f = true ∧
      AllowedMagicPattern (allowedEnv.MagicFromFile f) = true ∧
      (∃ e ∈ scanOf (go "/tmp/example") sidecarFS, e.path = f ∧ e.IsRegular = true) ∧
      osStat sidecarFS f = true) ∧
    (fileEvents allowedEnv sidecarFS (go "/tmp/example/file.25")).length = 1 + 1 :=
  have h := C23_one_event_per_decoded_sidecar allowedEnv (scanOf (go "/tmp/example") sidecarFS) 1
    sidecarFS
    { fs := sidecarFS, files := [go "/tmp/example/file.25"], walkErr := none,
      events := [{ StoreVersion := 0, JSONMessage := JSONValue.object [], MetafileText := [],
                   FilePath := go "/tmp/example/file.25" },
                 { StoreVersion := 0, JSONMessage := JSONValue.null,
                   MetafileText := go "foobarbaz", FilePath := go "/tmp/example/file.25" }] }
    (by rfl) (by decide) (fun fs0 p res hres => scanGlob_reports_sidecars fs0 p res hres)
  ⟨h.1,
    (h.2.2.1 (go "/tmp/example/file.25")
      [go "/tmp/example/file.25.1.json", go "/tmp/example/file.25.2.json"]
      [go "/tmp/example/file.25.meta"] (by decide) (by decide)).1.trans (by decide)⟩

/-! ## C24: what the backlog scan deletes -/

/-- C24, failing input: a backlog of two pairs of version 1, `file.1` with
`file.1.meta` and `file.2` with `file.2.meta`, none of an allowed magic,
scanned with version 1. The walk deletes the first pair, then turns to the name
`file.1.meta`, which it read from the directory before; `lstat` fails on it,
the walk function returns that error and the walk ends: `file.2`, a
payload-shaped regular file of version 1 whose magic is not allowed, and its
metafile are still on disk. On the tree of `_TestBacklogDelete` the walk ends
in the same way, after the one deletion that the test looks for. -/
theorem C24_failing_input_walk_ends_at_deleted_sidecar :
    droppedFileV1Reg (go "/tmp/example/file.2") = true ∧
    AllowedMagicPattern (textEnv.MagicFromFile (go "/tmp/example/file.2")) = false ∧
    (backlogBuilder textEnv (scanOf (go "/tmp/example") pairsFS) 1 pairsFS).map
        (fun r => (r.fs, r.files, r.walkErr))
      = some ([⟨go "/tmp/example/file.2", 0, 9⟩, ⟨go "/tmp/example/file.2.meta", 0, 9⟩], [],
          some (lstatError (go "/tmp/example/file.1.meta"))) ∧
    (backlogBuilder textEnv (scanOf (go "/tmp/example") deleteTestFS) 1 deleteTestFS).map
        (fun r => (r.fs, r.walkErr))
      = some (deleteTestFS.take 2 ++ deleteTestFS.drop 4,
          some (lstatError (go "/tmp/example/ff/file.25.meta"))) ∧
    (backlogBuilder textEnv (scanOf (go "/tmp/example") deleteTestFS) 2 deleteTestFS).map
        (fun r => (r.fs, r.walkErr.isSome))
      = some (deleteTestFS.drop 2, true) := by
  decide

/-! ## C25: one job of the uploader worker -/

namespace uploader

theorem processJob_first_fails (put : PutFn) (marshal : MarshalFn) (u : Uploader)
    (st : WorkerState) (file : UploadJob) (e : GoError)
    (h : put st.fs u.Creds.BucketName file.verdict.Hashes.Sha512 file.localFilePath = some e) :
    processJob put marshal u st file = st := by
  unfold processJob
  simp only [h]

theorem processJob_second_fails (put : PutFn) (marshal : MarshalFn) (u : Uploader)
    (st : WorkerState) (file : UploadJob) (e : GoError)
    (h1 : put st.fs u.Creds.BucketName file.verdict.Hashes.Sha512 file.localFilePath = none)
    (h2 : put st.fs u.Creds.BucketName (file.verdict.Hashes.Sha512 ++ go ".verdict.json")
      file.localVerdictPath = some e) :
    processJob put marshal u st file = st := by
  unfold processJob
  simp only [h1, h2]

theorem processJob_uploaded (put : PutFn) (marshal : MarshalFn) (u : Uploader)
    (st : WorkerState) (file : UploadJob)
    (h1 : put st.fs u.Creds.BucketName file.verdict.Hashes.Sha512 file.localFilePath = none)
    (h2 : put st.fs u.Creds.BucketName (file.verdict.Hashes.Sha512 ++ go ".verdict.json")
      file.localVerdictPath = none) :
    (processJob put marshal u st file).fs
      = osRemove (osRemove st.fs file.localFilePath) file.localVerdictPath ∧
    (processJob put marshal u st file).submitted
      = st.submitted ++
        (match u.Submitter, marshal (uploadedVerdict u file.verdict) with
         | some _, .ok submitJSON => [submitJSON]
         | _, _ => []) := by
  unfold processJob
  simp only [h1, h2]
  cases u.Submitter with
  | none => simp
  | some s =>
    cases marshal (uploadedVerdict u file.verdict) with
    | error x => simp
    | ok msg => simp

end uploader

/-- C25: for every upload job the worker processes: when both the upload of
the payload and the upload of the verdict succeed, both local files of the job
are absent afterwards, every other file stays, and the verdict handed to the
submitter, if one is configured and `json.Marshal` renders the verdict, is the
one of the job with `Uploaded` set and `UploadLocation` equal to
`<endpoint>/<bucket>/<sha512>`, published once; when either upload fails, the
filestore is left as it was, so both files remain, and nothing is published.
The files of a job that `Enqueue` made are `<scratchDir>/<sha512>` and
`<scratchDir>/<sha512>.verdict.json`. -/
theorem C25_uploaded_job_is_removed_and_published (put : uploader.PutFn) (marshal : MarshalFn)
    (u : uploader.Uploader) (st : uploader.WorkerState) (file : uploader.UploadJob) :
    (put st.fs u.Creds.BucketName file.verdict.Hashes.Sha512 file.localFilePath = none →
      put st.fs u.Creds.BucketName (file.verdict.Hashes.Sha512 ++ go ".verdict.json")
        file.localVerdictPath = none →
      osStat (uploader.processJob put marshal u st file).fs file.localFilePath = false ∧
      osStat (uploader.processJob put marshal u st file).fs file.localVerdictPath = false ∧
      (∀ f ∈ st.fs, f.Path ≠ file.localFilePath → f.Path ≠ file.localVerdictPath →
        f ∈ (uploader.processJob put marshal u st file).fs) ∧
      (∀ s submitJSON, u.Submitter = some s →
        marshal (uploader.uploadedVerdict u file.verdict) = .ok submitJSON →
        (uploader.processJob put marshal u st file).submitted = st.submitted ++ [submitJSON]) ∧
      ((u.Submitter = none ∨ ∃ e, marshal (uploader.uploadedVerdict u file.verdict) = .error e) →
        (uploader.processJob put marshal u st file).submitted = st.submitted) ∧
      (uploader.uploadedVerdict u file.verdict).Uploaded = true ∧
      (uploader.uploadedVerdict u file.verdict).UploadLocation
        = u.Creds.Endpoint ++ go "/" ++ u.Creds.BucketName ++ go "/"
            ++ file.verdict.Hashes.Sha512 ∧
      (uploader.uploadedVerdict u file.verdict).Hashes = file.verdict.Hashes ∧
      (uploader.uploadedVerdict u file.verdict).Suspicious = file.verdict.Suspicious) ∧
    ((put st.fs u.Creds.BucketName file.verdict.Hashes.Sha512 file.localFilePath ≠ none ∨
      put st.fs u.Creds.BucketName (file.verdict.Hashes.Sha512 ++ go ".verdict.json")
        file.localVerdictPath ≠ none) →
      uploader.processJob put marshal u st file = st) ∧
    (∀ (now : GoTime) (fs fs1 : FS) (localpath : GoString) (u1 : uploader.Uploader),
      uploader.Enqueue marshal now u fs file.verdict localpath = (none, u1, fs1) →
      u1.InChan = u.InChan ++
        [{ verdict := file.verdict,
           localFilePath := uploader.pathJoin [u.ScratchDir, file.verdict.Hashes.Sha512],
           localVerdictPath :=
             uploader.pathJoin [u.ScratchDir, file.verdict.Hashes.Sha512 ++ go ".verdict.json"] }]) := by
  refine ⟨?_, ?_, ?_⟩
  · intro h1 h2
    obtain ⟨hfs, hsub⟩ := uploader.processJob_uploaded put marshal u st file h1 h2
    refine ⟨?_, ?_, ?_, ?_, ?_, rfl, rfl, rfl, rfl⟩
    · rw [hfs]
      apply osStat_false_of
      intro h
      exact ((osStat_osRemove _ _ _).mp ((osStat_osRemove _ _ _).mp h).1).2 rfl
    · rw [hfs]
      exact osStat_osRemove_self _ _
    · intro f hf hn1 hn2
      rw [hfs]
      exact (mem_osRemove _ _ f).mpr ⟨(mem_osRemove _ _ f).mpr ⟨hf, hn1⟩, hn2⟩
    · intro s submitJSON hs hm
      rw [hsub, hs, hm]
    · intro h
      rw [hsub]
      rcases h with h | ⟨e, h⟩
      · rw [h]; simp
      · rw [h]
        cases u.Submitter <;> simp
  · intro h
    rcases h with h | h
    · cases hp : put st.fs u.Creds.BucketName file.verdict.Hashes.Sha512 file.localFilePath with
      | none => exact absurd hp h
      | some e => exact uploader.processJob_first_fails put marshal u st file e hp
    · cases hp : put st.fs u.Creds.BucketName file.verdict.Hashes.Sha512 file.localFilePath with
      | some e => exact uploader.processJob_first_fails put marshal u st file e hp
      | none =>
        cases hq : put st.fs u.Creds.BucketName
            (file.verdict.Hashes.Sha512 ++ go ".verdict.json") file.localVerdictPath with
        | none => exact absurd hq h
        | some e => exact uploader.processJob_second_fails put marshal u st file e hp hq
  · intro now fs fs1 localpath u1 h
    unfold uploader.Enqueue at h
    cases hfind : fs.find? (fun f => f.Path == localpath) with
    | none => rw [hfind] at h; simp at h
    | some src =>
      rw [hfind] at h
      dsimp only at h
      cases hm : marshal file.verdict with
      | error e => rw [hm] at h; simp at h
      | ok outJSON =>
        rw [hm] at h
        simp only [Prod.mk.injEq, true_and] at h
        rw [← h.1]

/-- C25, witness: the job `Enqueue` makes for the verdict of SHA-512 `12345`,
as in `TestUpload`: after both uploads the two scratch files are gone; when the
upload of the verdict fails, both are still there and nothing is published. -/
theorem C25_witness_upload_test :
    osStat (uploader.processJob uploader.localPut testMarshal uploader.scratchUploader
      { fs := uploader.scratchFS, submitted := [] }
      (uploader.backlogJob (go "/tmp/scratch") uploader.scratchVerdict
        (go "12345.verdict.json"))).fs (go "/tmp/scratch/12345") = false ∧
    osStat (uploader.processJob uploader.localPut testMarshal uploader.scratchUploader
      { fs := uploader.scratchFS, submitted := [] }
      (uploader.backlogJob (go "/tmp/scratch") uploader.scratchVerdict
        (go "12345.verdict.json"))).fs (go "/tmp/scratch/12345.verdict.json") = false ∧
    (uploader.processJob uploader.localPut testMarshal uploader.scratchUploader
      { fs := uploader.scratchFS, submitted := [] }
      (uploader.backlogJob (go "/tmp/scratch") uploader.scratchVerdict
        (go "12345.verdict.json"))).submitted = [go "\x7b\"Sha512\":\"12345\"\x7d"] ∧
    (uploader.processJob uploader.verdictlessPut testMarshal uploader.scratchUploader
      { fs := uploader.scratchFS, submitted := [] }
      (uploader.backlogJob (go "/tmp/scratch") uploader.scratchVerdict
        (go "12345.verdict.json"))) = { fs := uploader.scratchFS, submitted := [] } :=
  have h := C25_uploaded_job_is_removed_and_published uploader.localPut testMarshal
    uploader.scratchUploader { fs := uploader.scratchFS, submitted := [] }
    (uploader.backlogJob (go "/tmp/scratch") uploader.scratchVerdict (go "12345.verdict.json"))
  have h2 := (h.1 (by decide) (by decide))
  ⟨h2.1, h2.2.1, h2.2.2.2.1 dummySubmitter _ rfl rfl,
    (C25_uploaded_job_is_removed_and_published uploader.verdictlessPut testMarshal
      uploader.scratchUploader { fs := uploader.scratchFS, submitted := [] }
      (uploader.backlogJob (go "/tmp/scratch") uploader.scratchVerdict
        (go "12345.verdict.json"))).2.1 (Or.inr (by decide))⟩

/-! ## C26: the backlog of the scratch directory -/

namespace uploader

theorem matchVerdictHere_iff (s : GoString) :
    matchVerdictHere s = true ↔
      ∃ x, x ≠ [] ∧ newline ∉ x ∧ s = x ++ go ".verdict.json" := by
  induction s with
  | nil =>
    simp only [matchVerdictHere, Bool.false_eq_true, false_iff]
    rintro ⟨x, hx, -, h⟩
    cases x with
    | nil => exact hx rfl
    | cons a b => simp at h
  | cons c cs ih =>
    simp only [matchVerdictHere, Bool.and_eq_true, Bool.or_eq_true, bne_iff_ne, ne_eq,
      beq_iff_eq, ih]
    constructor
    · rintro ⟨hc, h | ⟨x, hx, hn, h⟩⟩
      · exact ⟨[c], by simp, by simpa using fun e => hc e.symm, by rw [h]; rfl⟩
      · refine ⟨c :: x, by simp, ?_, by rw [h]; rfl⟩
        simp only [List.mem_cons, not_or]
        exact ⟨fun e => hc e.symm, hn⟩
    · rintro ⟨x, hx, hn, h⟩
      cases x with
      | nil => exact absurd rfl hx
      | cons a b =>
        simp only [List.cons_append, List.cons.injEq] at h
        simp only [List.mem_cons, not_or] at hn
        refine ⟨by rw [h.1]; exact fun e => hn.1 e.symm, ?_⟩
        cases b with
        | nil => left; simpa using h.2
        | cons b0 b1 => right; exact ⟨b0 :: b1, by simp, hn.2, h.2⟩

/-- The pattern of `enqueueBacklog` matches the names that end in
`.verdict.json` after at least one character other than line feed. -/
theorem verdictFileReg_iff (name : GoString) :
    verdictFileReg name = true ↔
      ∃ pre x, x ≠ [] ∧ newline ∉ x ∧ name = pre ++ x ++ go ".verdict.json" := by
  unfold verdictFileReg
  rw [anySuffix_iff]
  constructor
  · rintro ⟨pre, rest, h, hm⟩
    obtain ⟨x, hx, hn, hr⟩ := (matchVerdictHere_iff rest).mp hm
    exact ⟨pre, x, hx, hn, by rw [h, hr, List.append_assoc]⟩
  · rintro ⟨pre, x, hx, hn, h⟩
    exact ⟨pre, x ++ go ".verdict.json", by rw [h, List.append_assoc],
      (matchVerdictHere_iff _).mpr ⟨x, hx, hn, rfl⟩⟩

theorem enqueueLoop_skip (readAll : GoString → GoString) (unmarshal : UnmarshalFn) (fs : FS)
    (name : GoString) (rest : List GoString) (u : Uploader) (h : verdictFileReg name = false) :
    enqueueLoop readAll unmarshal fs (name :: rest) u
      = enqueueLoop readAll unmarshal fs rest u := by
  rw [enqueueLoop]
  simp [h]

theorem enqueueLoop_send (readAll : GoString → GoString) (unmarshal : UnmarshalFn) (fs : FS)
    (name : GoString) (rest : List GoString) (u : Uploader) (h : verdictFileReg name = true)
    (hopen : osStat fs (pathJoin [u.ScratchDir, name]) = true)
    (hparse : (unmarshal (readAll (pathJoin [u.ScratchDir, name]))).2 = none) :
    enqueueLoop readAll unmarshal fs (name :: rest) u
      = match sendBeforeStart u (backlogJob u.ScratchDir
            (unmarshal (readAll (pathJoin [u.ScratchDir, name]))).1 name) with
        | none => none
        | some u1 => enqueueLoop readAll unmarshal fs rest u1 := by
  rw [enqueueLoop]
  simp only [h, if_true, hopen, Bool.not_true, Bool.false_eq_true, if_false]
  cases hu : unmarshal (readAll (pathJoin [u.ScratchDir, name])) with
  | mk v e =>
    rw [hu] at hparse
    simp only at hparse
    subst hparse
    rfl

theorem enqueueLoop_open_fails (readAll : GoString → GoString) (unmarshal : UnmarshalFn)
    (fs : FS) (name : GoString) (rest : List GoString) (u : Uploader)
    (h : verdictFileReg name = true)
    (hopen : osStat fs (pathJoin [u.ScratchDir, name]) = false) :
    enqueueLoop readAll unmarshal fs (name :: rest) u
      = some (some (go "open " ++ pathJoin [u.ScratchDir, name] ++
          go ": no such file or directory"), u) := by
  rw [enqueueLoop]
  simp [h, hopen]

theorem enqueueLoop_parse_fails (readAll : GoString → GoString) (unmarshal : UnmarshalFn)
    (fs : FS) (name : GoString) (rest : List GoString) (u : Uploader) (err : GoError)
    (h : verdictFileReg name = true)
    (hopen : osStat fs (pathJoin [u.ScratchDir, name]) = true)
    (hparse : (unmarshal (readAll (pathJoin [u.ScratchDir, name]))).2 = some err) :
    enqueueLoop readAll unmarshal fs (name :: rest) u = some (some err, u) := by
  rw [enqueueLoop]
  simp only [h, if_true, hopen, Bool.not_true, Bool.false_eq_true, if_false]
  cases hu : unmarshal (readAll (pathJoin [u.ScratchDir, name])) with
  | mk v e =>
    rw [hu] at hparse
    simp only at hparse
    subst hparse
    rfl

/-- The loop of `enqueueBacklog` on names whose verdict files all open and
decode, with room in the queue for all of them: one job for every name the
pattern matches, in the order of the names. -/
theorem enqueueLoop_all (readAll : GoString → GoString) (unmarshal : UnmarshalFn) (fs : FS)
    (dir : GoString) (names : List GoString) :
    ∀ u : Uploader, u.ScratchDir = dir →
      (∀ name ∈ names, verdictFileReg name = true →
        osStat fs (pathJoin [dir, name]) = true ∧
        (unmarshal (readAll (pathJoin [dir, name]))).2 = none) →
      u.InChan.length + (names.filter verdictFileReg).length ≤ inChanCapacity →
      enqueueLoop readAll unmarshal fs names u
        = some (none,
            { u with
              InChan := u.InChan ++ (names.filter verdictFileReg).map
                (fun name => backlogJob dir (unmarshal (readAll (pathJoin [dir, name]))).1 name) }) := by
  induction names with
  | nil => intro u _ _ _; simp [enqueueLoop]
  | cons name rest ih =>
    intro u hdir hall hcap
    cases hm : verdictFileReg name with
    | false =>
      rw [enqueueLoop_skip readAll unmarshal fs name rest u hm]
      rw [List.filter_cons, hm] at hcap ⊢
      simp only [Bool.false_eq_true, if_false] at hcap ⊢
      exact ih u hdir (fun n hn => hall n (List.mem_cons_of_mem _ hn)) hcap
    | true =>
      obtain ⟨hopen, hparse⟩ := hall name (List.mem_cons_self _ _) hm
      rw [← hdir] at hopen hparse
      rw [enqueueLoop_send readAll unmarshal fs name rest u hm hopen hparse]
      rw [List.filter_cons, hm] at hcap ⊢
      simp only [if_true, List.length_cons] at hcap ⊢
      have hroom : u.InChan.length < inChanCapacity := by omega
      have hsend : sendBeforeStart u (backlogJob u.ScratchDir
          (unmarshal (readAll (pathJoin [u.ScratchDir, name]))).1 name)
          = some { u with InChan := u.InChan ++ [backlogJob u.ScratchDir
              (unmarshal (readAll (pathJoin [u.ScratchDir, name]))).1 name] } := by
        unfold sendBeforeStart
        rw [if_pos hroom]
      rw [hsend]
      dsimp only
      have hih := ih
        { u with InChan := u.InChan ++ [backlogJob u.ScratchDir
            (unmarshal (readAll (pathJoin [u.ScratchDir, name]))).1 name] }
        hdir (fun n hn => hall n (List.mem_cons_of_mem _ hn))
        (by simp only [List.length_append, List.length_singleton]; omega)
      rw [hih]
      simp only [hdir, List.map_cons, List.append_assoc, List.singleton_append]

/-- With no room left in the queue, the loop waits for ever at the first name
the pattern matches whose file opens and decodes. -/
theorem enqueueLoop_blocks (readAll : GoString → GoString) (unmarshal : UnmarshalFn) (fs : FS)
    (name : GoString) (rest : List GoString) (u : Uploader)
    (h : verdictFileReg name = true)
    (hopen : osStat fs (pathJoin [u.ScratchDir, name]) = true)
    (hparse : (unmarshal (readAll (pathJoin [u.ScratchDir, name]))).2 = none)
    (hfull : inChanCapacity ≤ u.InChan.length) :
    enqueueLoop readAll unmarshal fs (name :: rest) u = none := by
  rw [enqueueLoop_send readAll unmarshal fs name rest u h hopen hparse]
  unfold sendBeforeStart
  rw [if_neg (by omega)]

end uploader

namespace uploader

/-- The loop of `enqueueBacklog` on a list of names in two parts: the second
part is turned to when the first ended without an error. -/
theorem enqueueLoop_append (readAll : GoString → GoString) (unmarshal : UnmarshalFn) (fs : FS)
    (pre rest : List GoString) :
    ∀ u u1 : Uploader, enqueueLoop readAll unmarshal fs pre u = some (none, u1) →
      enqueueLoop readAll unmarshal fs (pre ++ rest) u
        = enqueueLoop readAll unmarshal fs rest u1 := by
  induction pre with
  | nil =>
    intro u u1 h
    simp only [enqueueLoop, Option.some.injEq, Prod.mk.injEq, true_and] at h
    rw [h]
    rfl
  | cons name pre ih =>
    intro u u1 h
    cases hm : verdictFileReg name with
    | false =>
      rw [enqueueLoop_skip readAll unmarshal fs name pre u hm] at h
      rw [List.cons_append, enqueueLoop_skip readAll unmarshal fs name (pre ++ rest) u hm]
      exact ih u u1 h
    | true =>
      cases hopen : osStat fs (pathJoin [u.ScratchDir, name]) with
      | false =>
        rw [enqueueLoop_open_fails readAll unmarshal fs name pre u hm hopen] at h
        simp at h
      | true =>
        cases hparse : (unmarshal (readAll (pathJoin [u.ScratchDir, name]))).2 with
        | some err =>
          rw [enqueueLoop_parse_fails readAll unmarshal fs name pre u err hm hopen hparse] at h
          simp at h
        | none =>
          rw [enqueueLoop_send readAll unmarshal fs name pre u hm hopen hparse] at h
          rw [List.cons_append,
            enqueueLoop_send readAll unmarshal fs name (pre ++ rest) u hm hopen hparse]
          cases hs : sendBeforeStart u (backlogJob u.ScratchDir
              (unmarshal (readAll (pathJoin [u.ScratchDir, name]))).1 name) with
          | none => rw [hs] at h; simp at h
          | some u2 =>
            rw [hs] at h
            exact ih u2 u1 h

end uploader

/-- C26, counterexample: a scratch directory that holds the verdict
`12345.verdict.json` without its payload `12345`: `enqueueBacklog` returns no
error and has queued a job for it, and the worker, whose upload of the missing
payload fails, leaves the verdict file where it is. A scratch directory that
holds the payload `12345` without its verdict yields no job; `enqueueBacklog`
has no statement that removes a file. -/
theorem C26_counterexample_orphan_verdict_is_queued :
    osStat uploader.orphanFS (go "/tmp/scratch/12345") = false ∧
    (uploader.enqueueBacklog (uploader.scratchNames uploader.orphanFS)
        (fun _ => go "\x7b\"Sha512\":\"12345\"\x7d") uploader.scratchUnmarshal
        uploader.orphanFS uploader.scratchUploader).map
        (fun r => (r.1, r.2.InChan.map (fun j => (j.localFilePath, j.localVerdictPath))))
      = some (none, [(go "/tmp/scratch/12345", go "/tmp/scratch/12345.verdict.json")]) ∧
    (uploader.processUpload uploader.localPut testMarshal uploader.scratchUploader
        [uploader.backlogJob (go "/tmp/scratch") uploader.scratchVerdict
          (go "12345.verdict.json")]
        { fs := uploader.orphanFS, submitted := [] }).fs = uploader.orphanFS ∧
    (uploader.enqueueBacklog (uploader.scratchNames uploader.payloadOnlyFS)
        (fun _ => go "\x7b\"Sha512\":\"12345\"\x7d") uploader.scratchUnmarshal
        uploader.payloadOnlyFS uploader.scratchUploader).map
        (fun r => (r.1, r.2.InChan.length)) = some (none, 0) := by
  decide

/-- C26 (amended): on uploader startup, before the worker runs, the backlog of
the scratch directory queues one job for every file of the directory whose name
ends in `.verdict.json` after at least one character other than line feed, in
the order of `os.ReadDir`, whether or not the companion payload
`<scratchDir>/<sha512>` exists, as long as each of these files opens and
decodes and the queue has room for them all (its capacity is 10000); the job
names `<scratchDir>/<sha512>`, with the SHA-512 of the decoded verdict, and the
verdict file. At the first such file that does not open or decode the call
returns the error, with the jobs queued before it. Files of other names yield
no job, and no file is removed. -/
theorem C26_backlog_queues_every_verdict_file
    (readDir : GoString → Except GoError (List GoString)) (readAll : GoString → GoString)
    (unmarshal : UnmarshalFn) (fs : FS) (u : uploader.Uploader) (names : List GoString)
    (hdir : readDir u.ScratchDir = .ok names) :
    ((∀ name ∈ names, uploader.verdictFileReg name = true →
        osStat fs (uploader.pathJoin [u.ScratchDir, name]) = true ∧
        (unmarshal (readAll (uploader.pathJoin [u.ScratchDir, name]))).2 = none) →
      u.InChan.length + (names.filter uploader.verdictFileReg).length
        ≤ uploader.inChanCapacity →
      uploader.enqueueBacklog readDir readAll unmarshal fs u
        = some (none,
            { u with
              InChan := u.InChan ++ (names.filter uploader.verdictFileReg).map
                (fun name => uploader.backlogJob u.ScratchDir
                  (unmarshal (readAll (uploader.pathJoin [u.ScratchDir, name]))).1 name) })) ∧
    (∀ pre bad post, names = pre ++ bad :: post →
      (∀ name ∈ pre, uploader.verdictFileReg name = true →
        osStat fs (uploader.pathJoin [u.ScratchDir, name]) = true ∧
        (unmarshal (readAll (uploader.pathJoin [u.ScratchDir, name]))).2 = none) →
      u.InChan.length + (pre.filter uploader.verdictFileReg).length
        ≤ uploader.inChanCapacity →
      uploader.verdictFileReg bad = true →
      (osStat fs (uploader.pathJoin [u.ScratchDir, bad]) = false ∨
        (unmarshal (readAll (uploader.pathJoin [u.ScratchDir, bad]))).2 ≠ none) →
      ∃ err, uploader.enqueueBacklog readDir readAll unmarshal fs u
        = some (some err,
            { u with
              InChan := u.InChan ++ (pre.filter uploader.verdictFileReg).map
                (fun name => uploader.backlogJob u.ScratchDir
                  (unmarshal (readAll (uploader.pathJoin [u.ScratchDir, name]))).1 name) })) ∧
    (∀ name, uploader.verdictFileReg name = true ↔
      ∃ pre x, x ≠ [] ∧ newline ∉ x ∧ name = pre ++ x ++ go ".verdict.json") ∧
    (∀ verdict name,
      (uploader.backlogJob u.ScratchDir verdict name).localFilePath
        = uploader.pathJoin [u.ScratchDir, verdict.Hashes.Sha512] ∧
      (uploader.backlogJob u.ScratchDir verdict name).localVerdictPath
        = uploader.pathJoin [u.ScratchDir, name] ∧
      (uploader.backlogJob u.ScratchDir verdict name).verdict = verdict) := by
  have hrun : uploader.enqueueBacklog readDir readAll unmarshal fs u
      = uploader.enqueueLoop readAll unmarshal fs names u := by
    unfold uploader.enqueueBacklog
    rw [hdir]
  refine ⟨?_, ?_, uploader.verdictFileReg_iff, fun _ _ => ⟨rfl, rfl, rfl⟩⟩
  · intro hall hcap
    rw [hrun]
    exact uploader.enqueueLoop_all readAll unmarshal fs u.ScratchDir names u rfl hall hcap
  · intro pre bad post hn hall hcap hbad hfail
    rw [hrun, hn]
    have hpre := uploader.enqueueLoop_all readAll unmarshal fs u.ScratchDir pre u rfl hall hcap
    rw [uploader.enqueueLoop_append readAll unmarshal fs pre (bad :: post) u _ hpre]
    rcases hfail with hopen | hparse
    · exact ⟨_, uploader.enqueueLoop_open_fails readAll unmarshal fs bad post _ hbad hopen⟩
    · cases hopen : osStat fs (uploader.pathJoin [u.ScratchDir, bad]) with
      | false => exact ⟨_, uploader.enqueueLoop_open_fails readAll unmarshal fs bad post _ hbad hopen⟩
      | true =>
        cases hp : (unmarshal (readAll (uploader.pathJoin [u.ScratchDir, bad]))).2 with
        | none => exact absurd hp hparse
        | some err =>
          exact ⟨err, uploader.enqueueLoop_parse_fails readAll unmarshal fs bad post _ err hbad
            hopen hp⟩

/-- C26, witness: the scratch directory of `TestUploaderBacklog`, with the
payload `12345` and its verdict: one job is queued, for that pair. -/
theorem C26_witness_uploader_backlog_test :
    uploader.enqueueBacklog (uploader.scratchNames uploader.scratchFS)
        (fun _ => go "\x7b\"Sha512\":\"12345\"\x7d") uploader.scratchUnmarshal
        uploader.scratchFS uploader.scratchUploader
      = some (none,
          { uploader.scratchUploader with
            InChan := [uploader.backlogJob (go "/tmp/scratch") uploader.scratchVerdict
              (go "12345.verdict.json")] }) :=
  (C26_backlog_queues_every_verdict_file (uploader.scratchNames uploader.scratchFS)
    (fun _ => go "\x7b\"Sha512\":\"12345\"\x7d") uploader.scratchUnmarshal
    uploader.scratchFS uploader.scratchUploader [go "12345", go "12345.verdict.json"]
    rfl).1 (by decide) (by decide)

/-! ## C27: stopping a component twice -/

/-- C27, counterexample: on components made and started as `main` does, the
second call of `Janitor.Stop`, of `Watcher.Finish`, of `Uploader.Stop` and of
`AMQPSubmitter.Finish` panics at the close of a closed channel; after two calls
of `Watcher.Stop` the channel `FinishNotifyChan` is closed both by the second
call and by the socket handler, and whichever comes second panics. -/
theorem C27_counterexample_second_stop_panics :
    ((lifecycle.MakeJanitor.Run (go "/tmp/example")).andThen fun r =>
      r.1.Stop.andThen fun j => j.Stop) = .panics (go "close of closed channel") ∧
    (lifecycle.MakeWatcher.Finish.andThen fun w => w.Finish)
      = .panics (go "close of closed channel") ∧
    (lifecycle.MakeS3Uploader.Stop.andThen fun u => u.Stop)
      = .panics (go "close of closed channel") ∧
    (lifecycle.MakeAMQPSubmitter.Finish.andThen fun s => s.Finish)
      = .panics (go "close of closed channel") ∧
    ((lifecycle.MakeWatcher.Run (go "/tmp/example") 1 none).andThen fun r =>
      r.1.Stop.andThen fun w1 => w1.Stop.andThen fun w2 => w2.handlerStep)
      = .panics (go "close of closed channel") ∧
    ((lifecycle.MakeWatcher.Run (go "/tmp/example") 1 none).andThen fun r =>
      r.1.Stop.andThen fun w1 => w1.handlerStep.andThen fun w2 => w2.Stop)
      = .panics (go "close of closed channel") := by
  decide

/-- C27 (amended): every stop operation stops a running component when it is
invoked once: `Janitor.Stop` closes `StopperChan`, `Watcher.Finish` closes
`ScanCandidateChan`, `Watcher.Stop` with `SocketInput.Stop` closes `StopChan`,
`Uploader.Stop` closes `InChan` and returns when the worker has closed
`ClosedChan`, `AMQPSubmitter.Finish` closes `StopReconnection`. None of them is
idempotent: a second invocation of `Janitor.Stop`, `Watcher.Finish`,
`Uploader.Stop` or `AMQPSubmitter.Finish` panics at the close of a closed
channel, and a second invocation of `Watcher.Stop` closes `FinishNotifyChan`,
which the socket handler closes as well, so that the later of the two closes
panics. -/
theorem C27_stop_once_then_panic :
    (∀ w : lifecycle.Janitor, w.StartStopLock = false → w.StopperChan = .isOpen →
      ∃ w1, w.Stop = .done w1 ∧ w1.IsRunning = false ∧ w1.StopperChan = .isClosed ∧
        w1.Stop = .panics (go "close of closed channel")) ∧
    (∀ w : lifecycle.Watcher, w.ScanCandidateChan = .isOpen →
      ∃ w1, w.Finish = .done w1 ∧ w1.ScanCandidateChan = .isClosed ∧
        w1.Finish = .panics (go "close of closed channel")) ∧
    (∀ (w : lifecycle.Watcher) (si : lifecycle.SocketInput), w.StartStopLock = false →
      w.SocketInput = some si → si.Running = true → si.StopChan = .isOpen →
      si.handlerAlive = true → w.FinishNotifyChan = .isOpen →
      ∃ w1, w.Stop = .done w1 ∧ w1.IsRunning = false ∧
        w1.SocketInput = some { si with StoppedChanSet := true, StopChan := .isClosed,
                                        Running := false } ∧
        (w1.Stop.andThen fun w2 => w2.handlerStep) = .panics (go "close of closed channel") ∧
        (w1.handlerStep.andThen fun w2 => w2.Stop) = .panics (go "close of closed channel")) ∧
    (∀ u : lifecycle.Uploader, u.InChan = .isOpen → u.ClosedChan = .isOpen →
      u.workerAlive = true →
      ∃ u1, u.Stop = .done u1 ∧ u1.InChan = .isClosed ∧ u1.ClosedChan = .isClosed ∧
        u1.Stop = .panics (go "close of closed channel")) ∧
    (∀ s : lifecycle.AMQPSubmitter, s.StopReconnection = .isOpen →
      ∃ s1, s.Finish = .done s1 ∧ s1.StopReconnection = .isClosed ∧
        s1.Finish = .panics (go "close of closed channel")) := by
  refine ⟨?_, ?_, ?_, ?_, ?_⟩
  · intro w h1 h2
    refine ⟨{ w with IsRunning := false, WatchDir := go "<none>", StopperChan := .isClosed,
                     StartStopLock := false }, ?_, rfl, rfl, rfl⟩
    simp [lifecycle.Janitor.Stop, lifecycle.lockMutex, lifecycle.closeChan,
      lifecycle.Outcome.andThen, h1, h2]
  · intro w h
    refine ⟨{ w with ScanCandidateChan := .isClosed }, ?_, rfl, rfl⟩
    simp [lifecycle.Watcher.Finish, lifecycle.closeChan, lifecycle.Outcome.andThen, h]
  · intro w si h1 h2 h3 h4 h5 h6
    refine ⟨{ w with
              SocketInput := some { si with StoppedChanSet := true, StopChan := .isClosed,
                                            Running := false },
              IsRunning := false, FileDir := go "<none>", StartStopLock := false },
      ?_, rfl, rfl, ?_, ?_⟩
    · simp [lifecycle.Watcher.Stop, lifecycle.lockMutex, lifecycle.closeChan,
        lifecycle.Outcome.andThen, h1, h2, h3, h4]
    · simp [lifecycle.Watcher.Stop, lifecycle.Watcher.handlerStep, lifecycle.lockMutex,
        lifecycle.closeChan, lifecycle.Outcome.andThen, h5, h6]
    · simp [lifecycle.Watcher.Stop, lifecycle.Watcher.handlerStep, lifecycle.lockMutex,
        lifecycle.closeChan, lifecycle.Outcome.andThen, h5, h6]
  · intro u h1 h2 h3
    refine ⟨{ InChan := .isClosed, ClosedChan := .isClosed, workerAlive := false }, ?_, rfl, rfl,
      rfl⟩
    simp [lifecycle.Uploader.Stop, lifecycle.closeChan, lifecycle.Outcome.andThen, h1, h2, h3]
  · intro s h
    refine ⟨{ s with StopReconnection := .isClosed }, ?_, rfl, rfl⟩
    simp [lifecycle.AMQPSubmitter.Finish, lifecycle.closeChan, lifecycle.Outcome.andThen, h]

/-- C27, witness: the uploader `MakeS3Uploader` makes is stopped by the first
`Stop`, and the second `Stop` panics. -/
theorem C27_witness_uploader_stopped_twice :
    ∃ u1, lifecycle.MakeS3Uploader.Stop = .done u1 ∧ u1.InChan = .isClosed ∧
      u1.ClosedChan = .isClosed ∧ u1.Stop = .panics (go "close of closed channel") :=
  C27_stop_once_then_panic.2.2.2.1 lifecycle.MakeS3Uploader rfl rfl rfl

/-! ## C28: the order of the shutdown -/

/-- C28, failing input: `main` closes the uploader queue first and the worker
queue second, and stops the socket input only then. With no uploader
configured, a FileEvent that the socket handler sends after `Watcher.Finish`
and before `Watcher.Stop` is a send on the closed `ScanCandidateChan`, and the
process panics; with an uploader, a worker that hands a suspicious file to
`Enqueue` after `Uploader.Stop` has closed `InChan` panics in the same way. In
the order of the tests, `Watcher.Stop`, the return of the socket handler, then
`Watcher.Finish`, a later event of the socket is not sent at all. -/
theorem C28_failing_input_queues_closed_before_producers_stop :
    lifecycle.shutdownCalls true
      = [.uploaderStop, .watcherFinish, .watcherStop, .janitorStop] ∧
    lifecycle.shutdownCalls false = [.watcherFinish, .watcherStop, .janitorStop] ∧
    lifecycle.Sensor.run [.watcherFinish, .socketEvent] (lifecycle.runningSensor false 0)
      = .panics (go "send on closed channel") ∧
    lifecycle.Sensor.run [.uploaderStop, .workerEnqueue] (lifecycle.runningSensor true 1)
      = .panics (go "send on closed channel") ∧
    (lifecycle.Sensor.run [.watcherStop, .handlerSelect, .watcherFinish, .socketEvent]
        (lifecycle.runningSensor false 0)).andThen (fun s => .done s.inWork)
      = .done 0 := by
  decide

/-! ## C29: the reconnect watcher of the submitter -/

namespace lifecycle

theorem reconnectStep_lockedOut (s : AMQPSubmitter) (h : Happening)
    (hs : s.watcher = .lockedOut) : reconnectStep s h = s := by
  unfold reconnectStep
  rw [hs]

/-- Once the goroutine waits at the `Lock` of line 80, nothing it could meet
changes the submitter. -/
theorem reconnectOnFailure_lockedOut (hs : List Happening) :
    ∀ s : AMQPSubmitter, s.watcher = .lockedOut → reconnectOnFailure s hs = s := by
  induction hs with
  | nil => intro s _; rfl
  | cons h rest ih =>
    intro s hw
    unfold reconnectOnFailure at ih ⊢
    rw [List.foldl_cons, reconnectStep_lockedOut s h hw]
    exact ih s hw

end lifecycle

/-- C29, failing input: the broker closes the connection, one call of
`connect` fails and the next succeeds. The watcher retries, registers the
close notification again and then calls `ConnMutex.Lock()` a second time
(line 80) while it holds the mutex: it never leaves the retry loop, the mutex
stays locked, and whatever happens later, another close notification or the
stop signal of `Finish`, leaves the goroutine where it is. A publish after the
reconnect succeeds, as `Submit` takes `ChanMutex` only. -/
theorem C29_failing_input_second_lock_never_returns :
    lifecycle.reconnectOnFailure lifecycle.MakeAMQPSubmitter
        [.closeNotification true, .connectResult (some (go "connection refused")),
         .connectResult none]
      = { StopReconnection := .isOpen, ConnMutex := true, connected := true,
          notifications := 2, attempts := 2, watcher := .lockedOut } ∧
    (∀ later : List lifecycle.Happening,
      lifecycle.reconnectOnFailure lifecycle.MakeAMQPSubmitter
          ([.closeNotification true, .connectResult (some (go "connection refused")),
            .connectResult none] ++ later)
        = { StopReconnection := .isOpen, ConnMutex := true, connected := true,
            notifications := 2, attempts := 2, watcher := .lockedOut }) ∧
    (lifecycle.reconnectOnFailure lifecycle.MakeAMQPSubmitter
        [.closeNotification true, .connectResult (some (go "connection refused")),
         .connectResult none]).Submit = none := by
  have h0 : lifecycle.reconnectOnFailure lifecycle.MakeAMQPSubmitter
      [.closeNotification true, .connectResult (some (go "connection refused")),
       .connectResult none]
      = { StopReconnection := .isOpen, ConnMutex := true, connected := true,
          notifications := 2, attempts := 2, watcher := .lockedOut } := by decide
  refine ⟨h0, ?_, ?_⟩
  · intro later
    have happ : lifecycle.reconnectOnFailure lifecycle.MakeAMQPSubmitter
        ([.closeNotification true, .connectResult (some (go "connection refused")),
          .connectResult none] ++ later)
        = lifecycle.reconnectOnFailure
            (lifecycle.reconnectOnFailure lifecycle.MakeAMQPSubmitter
              [.closeNotification true, .connectResult (some (go "connection refused")),
               .connectResult none]) later := by
      unfold lifecycle.reconnectOnFailure
      rw [List.foldl_append]
    rw [happ, h0]
    exact lifecycle.reconnectOnFailure_lockedOut later _ rfl
  · rw [h0]
    rfl

end Nightwatch
